import Mathlib

/-!
# TrionFTDI: SPI configuration-flash programmer over an FTDI MPSSE adapter

A shallow embedding of `TrionFTDI.cpp`.

* The FTDI library (`ftdi.h`) is external.  Its opcode constants and the
  behaviour of `ftdi_write_data` / `ftdi_read_data` are the fields of the
  structure `Ftdi`, a parameter of every function that touches the adapter.
* The process-wide state (`gGPIO`, everything sent to and requested from the
  adapter, everything printed) is the structure `World`, passed explicitly.
* `u8`, `u32` and `s32` arithmetic is written on `Nat` / `Int` with explicit
  reduction modulo `2^8` / `2^32`.
* `Sleep` has no counterpart: time is not modelled.
-/

namespace TrionFTDI

/-! ## Machine integers (Types.h) -/

/-- Truncation to `u8` (`unsigned char`). -/
def u8 (x : Nat) : Nat := x % 256

/-- Truncation to `u32` (`unsigned int`). -/
def u32 (x : Nat) : Nat := x % 4294967296

/-- Conversion of an integer to `u8`. -/
def u8OfInt (x : Int) : Nat := (x % 256).toNat

/-- Conversion of an integer to `u32`. -/
def u32OfInt (x : Int) : Nat := (x % 4294967296).toNat

/-- Conversion of an integer to `s32` (two's complement). -/
def s32 (x : Int) : Int := (x + 2147483648) % 4294967296 - 2147483648

/-! ## Pin masks, flash opcodes, status bits (the `#define`s of the source) -/

def CA_CCK : Nat := 0x01
def CA_CDI0 : Nat := 0x02
def CA_CDI1 : Nat := 0x04
def CA_SS_N : Nat := 0x08
def CA_CRESET_N : Nat := 0x10
def CA_CDONE : Nat := 0x20

def CMD_READ_STATUS_REGISTER1 : Nat := 0x05
def CMD_READ_STATUS_REGISTER2 : Nat := 0x35
def CMD_READ_DEVICE_ID : Nat := 0x90
def CMD_READ_UNIQUE_ID : Nat := 0x4b
def CMD_WRITE_STATUS_REGISTERS : Nat := 0x01
def CMD_WRITE_ENABLE : Nat := 0x06
def CMD_SECTOR_ERASE : Nat := 0x20
def CMD_CHIP_ERASE : Nat := 0x60
def CMD_BLOCK_ERASE_32K : Nat := 0x52
def CMD_BLOCK_ERASE_64K : Nat := 0xd8
def CMD_PROGRAM_PAGE : Nat := 0x02
def CMD_READ_BYTES : Nat := 0x03
def CMD_WAKE_UP : Nat := 0xab
def CMD_RESET_ENABLE : Nat := 0x66
def CMD_RESET : Nat := 0x99

def STATUS_IN_PROGRESS : Nat := 0x01

def PROG_ERASE : Nat := 1
def PROG_PROGRAM : Nat := 2
def PROG_VERIFY : Nat := 4

/-- The direction byte `CA_SS_N | CA_CRESET_N | CA_CDI0 | CA_CCK`. -/
def PIN_OUTPUTS : Nat := CA_SS_N ||| CA_CRESET_N ||| CA_CDI0 ||| CA_CCK

/-! ## The byte channel and the process state -/

/-- One request made to the byte channel: a buffer handed to
`ftdi_write_data`, or a length asked of `ftdi_read_data`. -/
inductive Ev where
  | write (buf : List Nat)
  | read (len : Nat)
  deriving DecidableEq, Repr

/-- The external FTDI library: the opcode constants of `ftdi.h` that the source
uses, and the adapter's behaviour.  `write_data h buf` is the value returned by
`ftdi_write_data` for `buf` after the requests `h`; `read_data h n` is the value
returned by `ftdi_read_data` for `n` bytes together with the bytes it stored. -/
structure Ftdi where
  SET_BITS_LOW : Nat
  MPSSE_WRITE_NEG : Nat
  MPSSE_DO_WRITE : Nat
  MPSSE_DO_READ : Nat
  SEND_IMMEDIATE : Nat
  write_data : List Ev → List Nat → Int
  read_data : List Ev → Nat → Int × List Nat

/-- A flash-level operation entered by the program, with its arguments. -/
inductive FlashOp where
  | eraseAll
  | eraseSector (addr : Nat)
  | eraseBlock32 (addr : Nat)
  | eraseBlock64 (addr : Nat)
  | writePage (addr : Nat) (data : List Nat) (size : Nat)
  | readBytes (addr : Nat) (size : Nat)
  deriving DecidableEq, Repr

/-- What `ConfigProgramHex` prints. -/
inductive Msg where
  | corrupt
  | erasing
  | programming
  | verifying
  | ok
  | failed
  | percent (p : Int)
  deriving DecidableEq, Repr

/-- Process state.  `gGPIO` is the cached pin byte of the source; `chan` is the
sequence of requests made to the byte channel so far; `out` is what was
printed.  `calls` is a specification-only trace: each of `ConfigEraseAll`,
`ConfigEraseSector`, `ConfigEraseBlock32`, `ConfigEraseBlock64`,
`ConfigWritePage` and `ConfigReadBytes` records its arguments there on entry;
no function reads it. -/
structure World where
  gGPIO : Nat
  chan : List Ev
  calls : List FlashOp
  out : List Msg
  deriving DecidableEq, Repr

/-- The state at process start: `u8 gGPIO = CA_CRESET_N | CA_SS_N`. -/
def World.init : World :=
  { gGPIO := CA_CRESET_N ||| CA_SS_N, chan := [], calls := [], out := [] }

def World.call (w : World) (op : FlashOp) : World :=
  { w with calls := w.calls ++ [op] }

def World.print (w : World) (m : Msg) : World :=
  { w with out := w.out ++ [m] }

/-- Call of `ftdi_write_data(gFTDIA, buf, buf.length)`. -/
def ftdi_write_data (F : Ftdi) (w : World) (buf : List Nat) : Int × World :=
  (F.write_data w.chan buf, { w with chan := w.chan ++ [Ev.write buf] })

/-- Call of `ftdi_read_data(gFTDIA, _, n)`: the returned count, the bytes
stored, the new state. -/
def ftdi_read_data (F : Ftdi) (w : World) (n : Nat) : Int × List Nat × World :=
  ((F.read_data w.chan n).1, (F.read_data w.chan n).2,
    { w with chan := w.chan ++ [Ev.read n] })

/-- Comparison `ret == len` of an `int` result with a `u32` length: the `int`
is converted to `u32`. -/
def eqU32 (ret : Int) (len : Nat) : Bool := u32OfInt ret == u32 len

/-- Comparison `ret == len` of an `int` result with an `int` length. -/
def eqInt (ret : Int) (len : Nat) : Bool := ret == (len : Int)

/-- The `pOutData` / `bufOut` argument: a pointer to a buffer (its bytes), or a
pointer value not above `0xff`, which the source takes as a fill byte. -/
inductive OutData where
  | ptr (data : List Nat)
  | imm (v : Nat)
  deriving DecidableEq, Repr

/-! ## MPSSE transport -/

def ConfigIdle (F : Ftdi) (w : World) : Bool × World :=
  let buf := [u8 F.SET_BITS_LOW, CA_SS_N ||| CA_CRESET_N, 0]
  let r := ftdi_write_data F w buf
  (eqU32 r.1 3, r.2)

def ConfigControl (F : Ftdi) (w : World) (nBits : Nat) : Bool × World :=
  let buf := [u8 F.SET_BITS_LOW, nBits, PIN_OUTPUTS]
  let r := ftdi_write_data F w buf
  (eqU32 r.1 3, r.2)

def FPGAReset (F : Ftdi) (w : World) (bReset : Bool) : Bool × World :=
  let g := if bReset then w.gGPIO &&& (0xff ^^^ CA_CRESET_N) else u8 (w.gGPIO ||| CA_CRESET_N)
  ConfigControl F { w with gGPIO := g } g

def ConfigChipSelect (F : Ftdi) (w : World) (bSelect : Bool) : Bool × World :=
  let g := if bSelect then w.gGPIO &&& (0xff ^^^ CA_SS_N) else u8 (w.gGPIO ||| CA_SS_N)
  ConfigControl F { w with gGPIO := g } g

/-- The loop `while (count-- && bOk) bOk = ftdi_write_data(gFTDIA, &byte, 1) == 1;`
of `ConfigWriteSPI`, entered with `bOk` true. -/
def ConfigWriteSPI.fill (F : Ftdi) (byte : Nat) : Nat → World → Bool × World
  | 0, w => (true, w)
  | count + 1, w =>
    let r := ftdi_write_data F w [byte]
    if eqInt r.1 1 then ConfigWriteSPI.fill F byte count r.2 else (false, r.2)

/-- `ConfigWriteSPI(pOutData, nLength, pInData)`; `pInData` tells whether an
input buffer is given.  Returns `bOk`, the bytes read, the new state. -/
def ConfigWriteSPI (F : Ftdi) (w : World) (pOutData : OutData) (nLength : Nat)
    (pInData : Bool) : Bool × List Nat × World :=
  let buf :=
    [u8 (F.MPSSE_DO_WRITE ||| F.MPSSE_WRITE_NEG ||| (if pInData then F.MPSSE_DO_READ else 0)),
     u8OfInt ((nLength : Int) - 1),
     u8OfInt (((nLength : Int) - 1) >>> (8 : Nat))]
  let r := ftdi_write_data F w buf
  if eqU32 r.1 3 then
    let s :=
      match pOutData with
      | OutData.ptr data =>
        let r2 := ftdi_write_data F r.2 (data.take nLength)
        (eqInt r2.1 nLength, r2.2)
      | OutData.imm v => ConfigWriteSPI.fill F (u8 v) (u32 nLength) r.2
    if s.1 && pInData then
      let r3 := ftdi_read_data F s.2 nLength
      (eqInt r3.1 nLength, r3.2.1, r3.2.2)
    else (s.1, [], s.2)
  else (false, [], r.2)

/-! ## Flash command protocol -/

/-- The 11 bytes that `ConfigWriteCommand` builds. -/
def ConfigWriteCommand.frame (F : Ftdi) (g cmd : Nat) : List Nat :=
  [u8 F.SET_BITS_LOW, g &&& (0xff ^^^ CA_SS_N), PIN_OUTPUTS,
   u8 (F.MPSSE_DO_WRITE ||| F.MPSSE_WRITE_NEG), 0, 0,
   cmd,
   u8 F.SET_BITS_LOW, u8 (g ||| CA_SS_N), PIN_OUTPUTS, u8 F.SEND_IMMEDIATE]

def ConfigWriteCommand (F : Ftdi) (w : World) (cmd : Nat) : Bool × World :=
  let r := ftdi_write_data F w (ConfigWriteCommand.frame F w.gGPIO cmd)
  (eqU32 r.1 11, r.2)

/-- The buffer that `ConfigWriteCommandWithAddrAndData` builds. -/
def ConfigWriteCommandWithAddrAndData.frame (F : Ftdi) (g cmd addr : Nat)
    (bufOut : OutData) (bufIn : Bool) (size : Nat) : List Nat :=
  [u8 F.SET_BITS_LOW, g &&& (0xff ^^^ CA_SS_N), PIN_OUTPUTS,
   u8 (F.MPSSE_DO_WRITE ||| F.MPSSE_WRITE_NEG), 4 - 1, 0,
   cmd, u8 (addr >>> 16), u8 (addr >>> 8), u8 addr]
  ++ (if size != 0 then
        [u8 (F.MPSSE_DO_WRITE ||| F.MPSSE_WRITE_NEG ||| (if bufIn then F.MPSSE_DO_READ else 0)),
         u8 (size - 1), u8 ((size - 1) >>> 8)]
        ++ (match bufOut with
            | OutData.ptr data => data.take size
            | OutData.imm v => List.replicate size (u8 v))
      else [])
  ++ [u8 F.SET_BITS_LOW, u8 (g ||| CA_SS_N), PIN_OUTPUTS, u8 F.SEND_IMMEDIATE]

/-- `ConfigWriteCommandWithAddrAndData(cmd, addr, bufOut, bufIn, size)`;
`bufIn` tells whether an input buffer is given.  Returns `bOk`, the bytes read,
the new state. -/
def ConfigWriteCommandWithAddrAndData (F : Ftdi) (w : World) (cmd addr : Nat)
    (bufOut : OutData) (bufIn : Bool) (size : Nat) : Bool × List Nat × World :=
  let buflen := u32 (14 + (if size > 0 then u32 (size + 3) else 0))
  let r := ftdi_write_data F w
    (ConfigWriteCommandWithAddrAndData.frame F w.gGPIO cmd addr bufOut bufIn size)
  let bOk := eqU32 r.1 buflen
  if bOk && bufIn then
    let r2 := ftdi_read_data F r.2 size
    (eqU32 r2.1 size, r2.2.1, r2.2.2)
  else (bOk, [], r.2)

def ConfigReset (F : Ftdi) (w : World) : Bool × World :=
  let r := ConfigWriteCommand F w CMD_RESET_ENABLE
  if r.1 then ConfigWriteCommand F r.2 CMD_RESET else (false, r.2)

def ConfigWakeUp (F : Ftdi) (w : World) : Bool × World :=
  ConfigWriteCommand F w CMD_WAKE_UP

def ConfigReadDeviceId (F : Ftdi) (w : World) : Bool × List Nat × World :=
  ConfigWriteCommandWithAddrAndData F w CMD_READ_DEVICE_ID 0 (OutData.imm 0) true 2

def ConfigReadUniqueId (F : Ftdi) (w : World) : Bool × List Nat × World :=
  ConfigWriteCommandWithAddrAndData F w CMD_READ_UNIQUE_ID 0 (OutData.imm 0) true 16

def ConfigWriteEnable (F : Ftdi) (w : World) : Bool × World :=
  ConfigWriteCommand F w CMD_WRITE_ENABLE

/-- The loop
`do { bOk = ConfigWriteSPI(0, 1, &status); } while (--timeout && bOk & (status & STATUS_IN_PROGRESS));`
entered with the given `timeout`.  Returns `bOk`, the final `timeout`, the new
state.  The source enters it with `timeout = 20` only and leaves it when the
counter reaches 0, so the case `timeout = 0` on entry does not arise. -/
def ConfigPollStatusComplete.loop (F : Ftdi) : Nat → World → Bool × Nat × World
  | 0, w => (false, 0, w)
  | timeout + 1, w =>
    let r := ConfigWriteSPI F w (OutData.imm 0) 1 true
    let status := u8 (r.2.1.headD 0)
    if timeout != 0 && (r.1 && (status &&& STATUS_IN_PROGRESS) != 0) then
      ConfigPollStatusComplete.loop F timeout r.2.2
    else (r.1, timeout, r.2.2)

def ConfigPollStatusComplete (F : Ftdi) (w : World) : Bool × World :=
  let r1 := ConfigChipSelect F w true
  if r1.1 then
    let r2 := ConfigWriteSPI F r1.2 (OutData.imm CMD_READ_STATUS_REGISTER1) 1 false
    if r2.1 then
      let r3 := ConfigPollStatusComplete.loop F 20 r2.2.2
      let r4 := ConfigChipSelect F r3.2.2 false
      (r3.1 && (r4.1 && r3.2.1 != 0), r4.2)
    else (false, r2.2.2)
  else (false, r1.2)

def ConfigEraseAll (F : Ftdi) (w : World) : Bool × World :=
  let r1 := ConfigWriteEnable F (w.call FlashOp.eraseAll)
  if r1.1 then
    let r2 := ConfigWriteCommand F r1.2 CMD_CHIP_ERASE
    if r2.1 then ConfigPollStatusComplete F r2.2 else (false, r2.2)
  else (false, r1.2)

def ConfigEraseSector (F : Ftdi) (w : World) (addr : Nat) : Bool × World :=
  let r1 := ConfigWriteEnable F (w.call (FlashOp.eraseSector addr))
  if r1.1 then
    let r2 := ConfigWriteCommandWithAddrAndData F r1.2 CMD_SECTOR_ERASE addr (OutData.imm 0) false 0
    if r2.1 then ConfigPollStatusComplete F r2.2.2 else (false, r2.2.2)
  else (false, r1.2)

def ConfigEraseBlock32 (F : Ftdi) (w : World) (addr : Nat) : Bool × World :=
  let r1 := ConfigWriteEnable F (w.call (FlashOp.eraseBlock32 addr))
  if r1.1 then
    let r2 := ConfigWriteCommandWithAddrAndData F r1.2 CMD_BLOCK_ERASE_32K addr (OutData.imm 0) false 0
    if r2.1 then ConfigPollStatusComplete F r2.2.2 else (false, r2.2.2)
  else (false, r1.2)

def ConfigEraseBlock64 (F : Ftdi) (w : World) (addr : Nat) : Bool × World :=
  let r1 := ConfigWriteEnable F (w.call (FlashOp.eraseBlock64 addr))
  if r1.1 then
    let r2 := ConfigWriteCommandWithAddrAndData F r1.2 CMD_BLOCK_ERASE_64K addr (OutData.imm 0) false 0
    if r2.1 then ConfigPollStatusComplete F r2.2.2 else (false, r2.2.2)
  else (false, r1.2)

/-! ## Erase planner -/

/-- The loop `while (bOk && size) { ... }` of `ConfigEraseArea`, with a bound on
the number of iterations; `none` when the bound is reached before the loop
ends.  `addr` and `size` are `u32`. -/
def ConfigEraseArea.loop (F : Ftdi) : Nat → Bool → Nat → Nat → World → Option (Bool × World)
  | fuel, bOk, addr, size, w =>
    if bOk && size != 0 then
      match fuel with
      | 0 => none
      | fuel + 1 =>
        if (addr &&& 65535) == 0 && decide (size ≥ 65536) then
          let r := ConfigEraseBlock64 F w addr
          ConfigEraseArea.loop F fuel r.1 (u32 (addr + 65536)) (u32 (size + 4294967296 - 65536)) r.2
        else if (addr &&& 32767) == 0 && decide (size ≥ 32768) then
          let r := ConfigEraseBlock32 F w addr
          ConfigEraseArea.loop F fuel r.1 (u32 (addr + 32768)) (u32 (size + 4294967296 - 32768)) r.2
        else
          let r := ConfigEraseSector F w addr
          ConfigEraseArea.loop F fuel r.1 (u32 (addr + 4096)) (u32 (size + 4294967296 - 4096)) r.2
    else some (bOk, w)

/-- The `u32` value of `~4095`. -/
def NOT_4095 : Nat := 0xfffff000

/-- The size after `size += (4096 - (addr & 4095)) & 4095;` and
`size = (size + 4095) & ~4095;`. -/
def ConfigEraseArea.alignedSize (addr size : Nat) : Nat :=
  (u32 (u32 (size + ((4096 - (addr &&& 4095)) &&& 4095)) + 4095)) &&& NOT_4095

/-- `ConfigEraseArea(addr, size)` for `u32` arguments.  The loop is given
`alignedSize / 4096` iterations. -/
def ConfigEraseArea (F : Ftdi) (w : World) (addr size : Nat) : Option (Bool × World) :=
  let size1 := ConfigEraseArea.alignedSize addr size
  let addr1 := addr &&& NOT_4095
  ConfigEraseArea.loop F (size1 / 4096) true addr1 size1 w

/-! ## Page program and read -/

def ConfigWritePage (F : Ftdi) (w : World) (nAddress : Nat) (pData : List Nat)
    (nSize : Nat) : Bool × World :=
  let w0 := w.call (FlashOp.writePage nAddress pData nSize)
  if nSize > 256 then (false, w0)
  else
    let r1 := ConfigWriteEnable F w0
    if r1.1 then
      let r2 := ConfigWriteCommandWithAddrAndData F r1.2 CMD_PROGRAM_PAGE nAddress
        (OutData.ptr pData) false nSize
      if r2.1 then ConfigPollStatusComplete F r2.2.2 else (false, r2.2.2)
    else (false, r1.2)

def ConfigReadBytes (F : Ftdi) (w : World) (nAddress nSize : Nat) : Bool × List Nat × World :=
  ConfigWriteCommandWithAddrAndData F (w.call (FlashOp.readBytes nAddress nSize))
    CMD_READ_BYTES nAddress (OutData.imm 0) true nSize

/-! ## Hex decoder -/

/-- A character as `fgetc` delivers it: an `unsigned char` value. -/
abbrev Byte := Fin 256

/-- The assignment `char c = fgetc(f)`: `char` is signed. -/
def toChar (b : Byte) : Int := if b.val < 128 then (b.val : Int) else (b.val : Int) - 256

/-- The library function `tolower` in the C locale. -/
def tolower (c : Int) : Int := if 65 ≤ c ∧ c ≤ 90 then c + 32 else c

/-- The loop `while (1) { ... }` of `HexGetSize` over the characters that remain
in the file; the second argument is `nFileSize` (`s32`). -/
def HexGetSize.loop : List Byte → Int → Int
  | [], nFileSize => nFileSize
  | b :: rest, nFileSize =>
    let c := tolower (toChar b)
    if (97 ≤ c ∧ c ≤ 102) ∨ (48 ≤ c ∧ c ≤ 57) then
      HexGetSize.loop rest (s32 (nFileSize + 1))
    else if c ≠ 9 ∧ c ≠ 32 ∧ c ≠ 10 ∧ c ≠ 13 ∧ c ≠ 0 then
      -1
    else HexGetSize.loop rest nFileSize

/-- `HexGetSize(pFilename)`; the file is `none` when it cannot be opened, else
its characters. -/
def HexGetSize (file : Option (List Byte)) : Int :=
  match file with
  | none => (-1 : Int) >>> (1 : Nat)
  | some s => (HexGetSize.loop s 0) >>> (1 : Nat)

/-- The loop `while (size) { ... }` of `HexGetBytes` over the characters that
remain in the file.  Arguments: `size` (`u32`), `data` (`u8`), `nibbles`
(`u32`), the bytes stored so far.  Returns the bytes stored, the final
`nibbles`, the characters left unread. -/
def HexGetBytes.loop : List Byte → Nat → Nat → Nat → List Nat → List Nat × Nat × List Byte
  | [], _, _, nibbles, out => (out, nibbles, [])
  | b :: rest, size, data, nibbles, out =>
    if size = 0 then (out, nibbles, b :: rest)
    else
      let c := tolower (toChar b)
      if 97 ≤ c ∧ c ≤ 102 then
        let data1 := u8 (u8 (data <<< 4) ||| u8OfInt (c - (97 - 10)))
        if nibbles &&& 1 != 0 then
          HexGetBytes.loop rest (size - 1) data1 (u32 (nibbles + 1)) (out ++ [data1])
        else HexGetBytes.loop rest size data1 (u32 (nibbles + 1)) out
      else if 48 ≤ c ∧ c ≤ 57 then
        let data1 := u8 (u8 (data <<< 4) ||| u8OfInt (c - 48))
        if nibbles &&& 1 != 0 then
          HexGetBytes.loop rest (size - 1) data1 (u32 (nibbles + 1)) (out ++ [data1])
        else HexGetBytes.loop rest size data1 (u32 (nibbles + 1)) out
      else HexGetBytes.loop rest size data nibbles out

/-- `HexGetBytes(buf, f, size)`: the returned count `nibbles >> 1`, the bytes
stored in `buf`, the characters left unread in `f`. -/
def HexGetBytes (f : List Byte) (size : Nat) : Nat × List Nat × List Byte :=
  let r := HexGetBytes.loop f size 0 0 []
  (r.2.1 >>> 1, r.1, r.2.2)

/-! ## Programming engine -/

/-- The body of the loop of a pass up to its `break`: for Verify (`n = 2`)
`ConfigReadBytes(addr, buf2, read)` and `memcmp(buf, buf2, read)`, for Program
`ConfigWritePage(addr, buf, read)`.  The flag is false when the loop is left. -/
def ConfigProgramHex.page (F : Ftdi) (n : Nat) (w : World) (addr : Nat) (buf : List Nat)
    (read : Nat) : Bool × World :=
  if n == 2 then
    let v := ConfigReadBytes F w addr read
    (v.1 && (buf.take read == v.2.1.take read), v.2.2)
  else ConfigWritePage F w addr buf read

/-- The loop `while (totalOut < (u32) hexSize) { ... }` of a Program (`n = 1`)
or Verify (`n = 2`) pass, with a bound on the number of iterations; `none` when
the bound is reached before the loop ends.  Returns the final `totalOut` and
the new state. -/
def ConfigProgramHex.pages (F : Ftdi) (n : Nat) (hexSize : Int) :
    Nat → World → List Byte → Nat → Nat → Int → Option (Nat × World)
  | fuel, w, f, addr, totalOut, percent =>
    if totalOut < u32OfInt hexSize then
      match fuel with
      | 0 => none
      | fuel + 1 =>
        let h := HexGetBytes f 256
        let read := h.1
        let buf := h.2.1
        let r := ConfigProgramHex.page F n w addr buf read
        if !r.1 then some (totalOut, r.2)
        else
          let npercent := s32 ((u32 (totalOut * 100) / u32OfInt hexSize : Nat) : Int)
          let w1 := if npercent ≠ percent then r.2.print (Msg.percent npercent) else r.2
          ConfigProgramHex.pages F n hexSize fuel w1 h.2.2 (u32 (addr + read))
            (u32 (totalOut + read)) npercent
    else some (totalOut, w)

/-- One turn of the loop `for (u32 n = 0; n < 3; n++)` of `ConfigProgramHex`,
for `n = 1` or `n = 2`. -/
def ConfigProgramHex.pass (F : Ftdi) (n : Nat) (file : Option (List Byte)) (writeAddr : Nat)
    (hexSize : Int) (w : World) : Option World :=
  let w1 := w.print (if n == 1 then Msg.programming else Msg.verifying)
  match file with
  | none => some w1
  | some s =>
    match ConfigProgramHex.pages F n hexSize (u32OfInt hexSize) w1 s writeAddr 0 (-1) with
    | none => none
    | some r =>
      some (r.2.print (if r.1 == u32OfInt hexSize then Msg.ok else Msg.failed))

/-- `ConfigProgramHex(pFilename, writeAddr, mode)`; the file is `none` when it
cannot be opened, else its characters, the same at every opening.  `none` when
a loop did not end within its bound. -/
def ConfigProgramHex (F : Ftdi) (w : World) (file : Option (List Byte)) (writeAddr : Nat)
    (mode : Nat) : Option World :=
  let hexSize := HexGetSize file
  if hexSize < 0 then some (w.print Msg.corrupt)
  else
    let run12 (w : World) : Option World :=
      let p1 := if (mode &&& (1 <<< 1)) != 0
        then ConfigProgramHex.pass F 1 file writeAddr hexSize w else some w
      match p1 with
      | none => none
      | some w1 =>
        if (mode &&& (1 <<< 2)) != 0
        then ConfigProgramHex.pass F 2 file writeAddr hexSize w1 else some w1
    if (mode &&& (1 <<< 0)) != 0 then
      match ConfigEraseArea F (w.print Msg.erasing) writeAddr (u32OfInt hexSize) with
      | none => none
      | some r =>
        if r.1 then run12 (r.2.print Msg.ok)
        else some (r.2.print Msg.failed)
    else run12 w

/-! ## The erase plan and tilings of a range -/

/-- The erase operations that the loop of `ConfigEraseArea` enters from
`addr`, `size` when none of them fails, taken from the same tests and the same
updates of `addr` and `size` as `ConfigEraseArea.loop`. -/
def ConfigEraseArea.plan : Nat → Nat → Nat → List FlashOp
  | 0, _, _ => []
  | fuel + 1, addr, size =>
    if size != 0 then
      if (addr &&& 65535) == 0 && decide (size ≥ 65536) then
        FlashOp.eraseBlock64 addr ::
          ConfigEraseArea.plan fuel (u32 (addr + 65536)) (u32 (size + 4294967296 - 65536))
      else if (addr &&& 32767) == 0 && decide (size ≥ 32768) then
        FlashOp.eraseBlock32 addr ::
          ConfigEraseArea.plan fuel (u32 (addr + 32768)) (u32 (size + 4294967296 - 32768))
      else
        FlashOp.eraseSector addr ::
          ConfigEraseArea.plan fuel (u32 (addr + 4096)) (u32 (size + 4294967296 - 4096))
    else []

/-- The size of the block that the loop of `ConfigEraseArea` erases at `addr`
with `size` bytes left (`size` not 0), by the two tests of the loop. -/
def ConfigEraseArea.pick (addr size : Nat) : Nat :=
  if addr % 65536 = 0 ∧ 65536 ≤ size then 65536
  else if addr % 32768 = 0 ∧ 32768 ≤ size then 32768
  else 4096

/-- The number of erase operations in the plan from `addr` with `size` bytes
left. -/
def ConfigEraseArea.cost (addr size : Nat) : Nat :=
  (ConfigEraseArea.plan (size / 4096) addr size).length

/-- An erase `(address, size)` that the flash accepts: the size is 4096, 32768
or 65536 and the address is a multiple of it. -/
def ValidErase (e : Nat × Nat) : Prop :=
  (e.2 = 4096 ∨ e.2 = 32768 ∨ e.2 = 65536) ∧ e.1 % e.2 = 0

/-- The ranges of the two erases have no byte in common. -/
def DisjointErase (e f : Nat × Nat) : Prop :=
  e.1 + e.2 ≤ f.1 ∨ f.1 + f.2 ≤ e.1

/-- The erases of `T` are valid, pairwise disjoint, and the union of their
ranges is exactly `[a, a + s)`. -/
def Tiles (T : List (Nat × Nat)) (a s : Nat) : Prop :=
  (∀ e ∈ T, ValidErase e) ∧ T.Pairwise DisjointErase ∧
  ∀ x, (∃ e ∈ T, e.1 ≤ x ∧ x < e.1 + e.2) ↔ (a ≤ x ∧ x < a + s)

/-- The byte range `(address, size)` of an erase operation. -/
def FlashOp.eraseRange : FlashOp → Option (Nat × Nat)
  | FlashOp.eraseSector a => some (a, 4096)
  | FlashOp.eraseBlock32 a => some (a, 32768)
  | FlashOp.eraseBlock64 a => some (a, 65536)
  | _ => none

/-- Byte `x` lies in the range of one of the erase operations of `ops`. -/
def erased (ops : List FlashOp) (x : Nat) : Bool :=
  ops.any fun op =>
    match op.eraseRange with
    | some r => decide (r.1 ≤ x) && decide (x < r.1 + r.2)
    | none => false

/-! ## Adapters for concrete runs, and the request log of a status poll -/

/-- An adapter on which every transfer completes and the flash is never busy:
the opcode values of libftdi's `ftdi.h`, each write returns the length given,
each read returns the length asked and stores zero bytes. -/
def Ftdi.ideal : Ftdi where
  SET_BITS_LOW := 0x80
  MPSSE_WRITE_NEG := 0x01
  MPSSE_DO_WRITE := 0x10
  MPSSE_DO_READ := 0x20
  SEND_IMMEDIATE := 0x87
  write_data := fun _ buf => (buf.length : Int)
  read_data := fun _ n => ((n : Int), List.replicate n 0)

def Ev.isRead : Ev → Bool
  | Ev.read _ => true
  | Ev.write _ => false

/-- An adapter on which every transfer completes and the flash answers every
read with the byte `status i`, where `i` is the number of reads made before:
the opcode values of libftdi's `ftdi.h`, each write returns the length given,
each read returns the length asked. -/
def Ftdi.withStatus (status : Nat → Nat) : Ftdi where
  SET_BITS_LOW := 0x80
  MPSSE_WRITE_NEG := 0x01
  MPSSE_DO_WRITE := 0x10
  MPSSE_DO_READ := 0x20
  SEND_IMMEDIATE := 0x87
  write_data := fun _ buf => (buf.length : Int)
  read_data := fun h n => ((n : Int), List.replicate n (status (h.filter Ev.isRead).length))

/-- The requests that `ConfigPollStatusComplete` makes when every transfer
completes and it reads the status `reads` times, from the cached pin byte `g`:
select low, the shift header and the status-read opcode, then per status read a
shift header with the read flag, the fill byte 0 and a read of one byte, then
select high. -/
def pollRequests (F : Ftdi) (g reads : Nat) : List Ev :=
  [Ev.write [u8 F.SET_BITS_LOW, g &&& (0xff ^^^ CA_SS_N), PIN_OUTPUTS],
   Ev.write [u8 (F.MPSSE_DO_WRITE ||| F.MPSSE_WRITE_NEG ||| 0), 0, 0],
   Ev.write [CMD_READ_STATUS_REGISTER1]]
  ++ (List.replicate reads
        [Ev.write [u8 (F.MPSSE_DO_WRITE ||| F.MPSSE_WRITE_NEG ||| F.MPSSE_DO_READ), 0, 0],
         Ev.write [0], Ev.read 1]).flatten
  ++ [Ev.write [u8 F.SET_BITS_LOW, u8 ((g &&& (0xff ^^^ CA_SS_N)) ||| CA_SS_N), PIN_OUTPUTS]]

/-! ## Hex text and the image it writes, as the specification describes them -/

/-- The value of a hexadecimal digit `0-9`, `a-f`, `A-F`; `none` for every
other character. -/
def hexDigit (b : Byte) : Option Nat :=
  if 48 ≤ b.val ∧ b.val ≤ 57 then some (b.val - 48)
  else if 97 ≤ b.val ∧ b.val ≤ 102 then some (b.val - 87)
  else if 65 ≤ b.val ∧ b.val ≤ 70 then some (b.val - 55)
  else none

/-- The separator characters tab, LF, CR and space. -/
def isSeparator (b : Byte) : Bool :=
  b.val == 9 || b.val == 10 || b.val == 13 || b.val == 32

/-- The values of the hex digits of a text, in order. -/
def hexDigits (t : List Byte) : List Nat := t.filterMap hexDigit

/-- Consecutive digit values paired into bytes, high nibble first; a last
unpaired digit is dropped. -/
def pairUp : List Nat → List Nat
  | h :: l :: r => (h * 16 + l) :: pairUp r
  | _ => []

/-- The two hex digit values of each byte, high nibble first. -/
def nibblesOf (B : List Nat) : List Nat := B.flatMap fun b => [b / 16, b % 16]

/-- The text `t` writes the bytes `B` in hex: it holds hex digits and
separators only, and its digits, in order, are the two digits of each byte of
`B`.  Separators may stand anywhere, also between the two digits of a byte. -/
def HexText (B : List Nat) (t : List Byte) : Prop :=
  (∀ c ∈ t, isSeparator c = true ∨ (hexDigit c).isSome = true) ∧ hexDigits t = nibblesOf B

/-- The bytes a hex text decodes to. -/
def imageOf (s : List Byte) : List Nat := pairUp (hexDigits s)

/-- The bytes of page `k` of an image: `[256k, 256k + length)`. -/
def pageData (image : List Nat) (k : Nat) : List Nat := (image.drop (256 * k)).take 256

/-- The length of page `k` of an image of `N` bytes: `min(256, N - 256k)`. -/
def pageLen (N k : Nat) : Nat := min 256 (N - 256 * k)

/-- The page operation number `k` of a Program (`n = 1`) or Verify pass at write
address `A`, the address computed in `u32`. -/
def pageOp (n A : Nat) (image : List Nat) (k : Nat) : FlashOp :=
  if n = 1 then
    FlashOp.writePage (u32 (A + 256 * k)) (pageData image k) (pageLen image.length k)
  else FlashOp.readBytes (u32 (A + 256 * k)) (pageLen image.length k)

def Msg.isPercent : Msg → Bool
  | Msg.percent _ => true
  | _ => false

/-- The characters `HexGetSize` is to accept: hex digits, the separators, and
NUL. -/
def isAccepted (b : Byte) : Bool :=
  (hexDigit b).isSome || isSeparator b || b.val == 0

/-! ## Frames and flash operations, as the specification describes them -/

/-- The pin byte `g` with the chip-select line low: bit 3 (`SS_N`) is 0, the
other seven bits are those of `g`. -/
def selectLow (g : Nat) : Nat := g / 16 % 16 * 16 + g % 8

/-- The pin byte `g` with the chip-select line high: bit 3 (`SS_N`) is 1, the
other seven bits are those of `g`. -/
def selectHigh (g : Nat) : Nat := g / 16 % 16 * 16 + 8 + g % 8

/-- The frame of a command with address and data as the specification lays it
out: set-pins with select low; the write opcode with length field 3 (four
bytes), the command and the address in three bytes, most significant first;
when `size > 0` the write opcode (with the read flag when an input buffer is
given), the length field `size - 1` in two bytes, least significant first, and
`size` payload bytes; set-pins with select high; send-immediate. -/
def frameLayout (F : Ftdi) (g cmd addr : Nat) (bufOut : OutData) (bufIn : Bool)
    (size : Nat) : List Nat :=
  [F.SET_BITS_LOW % 256, selectLow g, PIN_OUTPUTS]
  ++ [(F.MPSSE_DO_WRITE ||| F.MPSSE_WRITE_NEG) % 256, 3, 0,
      cmd, addr / 65536 % 256, addr / 256 % 256, addr % 256]
  ++ (if size > 0 then
        [(F.MPSSE_DO_WRITE ||| F.MPSSE_WRITE_NEG ||| (if bufIn then F.MPSSE_DO_READ else 0)) % 256,
         (size - 1) % 256, (size - 1) / 256 % 256]
        ++ (match bufOut with
            | OutData.ptr data => data.take size
            | OutData.imm v => List.replicate size (v % 256))
      else [])
  ++ [F.SET_BITS_LOW % 256, selectHigh g, PIN_OUTPUTS, F.SEND_IMMEDIATE % 256]

def Ev.isWrite : Ev → Bool
  | Ev.write _ => true
  | Ev.read _ => false

/-- The number of bytes of a request: the length of the buffer written, or the
length asked of a read. -/
def Ev.size : Ev → Nat
  | Ev.write buf => buf.length
  | Ev.read len => len

/-- The source function that an operation of the call trace stands for. -/
def FlashOp.run (F : Ftdi) (w : World) : FlashOp → Bool × World
  | FlashOp.eraseAll => ConfigEraseAll F w
  | FlashOp.eraseSector addr => ConfigEraseSector F w addr
  | FlashOp.eraseBlock32 addr => ConfigEraseBlock32 F w addr
  | FlashOp.eraseBlock64 addr => ConfigEraseBlock64 F w addr
  | FlashOp.writePage addr data size => ConfigWritePage F w addr data size
  | FlashOp.readBytes addr size =>
    ((ConfigReadBytes F w addr size).1, (ConfigReadBytes F w addr size).2.2)

/-- The operations that change the flash: the erases, and the page program with
a size that `ConfigWritePage` accepts. -/
def FlashOp.mutates : FlashOp → Bool
  | FlashOp.writePage _ _ size => decide (size ≤ 256)
  | FlashOp.readBytes _ _ => false
  | _ => true

/-- The command frame of an operation itself, built from the cached pin byte
`g`: what its source function passes to `ConfigWriteCommand` or
`ConfigWriteCommandWithAddrAndData`. -/
def FlashOp.command (F : Ftdi) (g : Nat) : FlashOp → List Nat
  | FlashOp.eraseAll => ConfigWriteCommand.frame F g CMD_CHIP_ERASE
  | FlashOp.eraseSector addr =>
    ConfigWriteCommandWithAddrAndData.frame F g CMD_SECTOR_ERASE addr (OutData.imm 0) false 0
  | FlashOp.eraseBlock32 addr =>
    ConfigWriteCommandWithAddrAndData.frame F g CMD_BLOCK_ERASE_32K addr (OutData.imm 0) false 0
  | FlashOp.eraseBlock64 addr =>
    ConfigWriteCommandWithAddrAndData.frame F g CMD_BLOCK_ERASE_64K addr (OutData.imm 0) false 0
  | FlashOp.writePage addr data size =>
    ConfigWriteCommandWithAddrAndData.frame F g CMD_PROGRAM_PAGE addr (OutData.ptr data) false size
  | FlashOp.readBytes addr size =>
    ConfigWriteCommandWithAddrAndData.frame F g CMD_READ_BYTES addr (OutData.imm 0) true size

/-- The `buflen` that the count returned for the command frame is compared
with. -/
def FlashOp.commandLen : FlashOp → Nat
  | FlashOp.eraseAll => 11
  | FlashOp.writePage _ _ size => u32 (14 + (if size > 0 then u32 (size + 3) else 0))
  | FlashOp.readBytes _ size => u32 (14 + (if size > 0 then u32 (size + 3) else 0))
  | _ => 14

def FlashOp.isErase : FlashOp → Bool
  | FlashOp.eraseSector _ => true
  | FlashOp.eraseBlock32 _ => true
  | FlashOp.eraseBlock64 _ => true
  | _ => false

def FlashOp.isWritePage : FlashOp → Bool
  | FlashOp.writePage _ _ _ => true
  | _ => false

def FlashOp.isReadBytes : FlashOp → Bool
  | FlashOp.readBytes _ _ => true
  | _ => false

/-- The messages that open a pass. -/
def Msg.isHeader : Msg → Bool
  | Msg.erasing => true
  | Msg.programming => true
  | Msg.verifying => true
  | _ => false

/-- An adapter on which the first `k` writes complete and every later write
transfers nothing; reads return the length asked and zero bytes.  The opcode
values are those of libftdi's `ftdi.h`. -/
def Ftdi.failAfter (k : Nat) : Ftdi where
  SET_BITS_LOW := 0x80
  MPSSE_WRITE_NEG := 0x01
  MPSSE_DO_WRITE := 0x10
  MPSSE_DO_READ := 0x20
  SEND_IMMEDIATE := 0x87
  write_data := fun h buf => if (h.filter Ev.isWrite).length < k then (buf.length : Int) else 0
  read_data := fun _ n => ((n : Int), List.replicate n 0)

/-- The state and the value of `percent` with which the loop of a Program
(`n = 1`) or Verify (`n = 2`) pass enters page `k` of the image when no page
before it has failed, from the state `w0` in which the loop is entered: after
page `k` the loop prints the percentage when it has changed and goes on. -/
def ConfigProgramHex.entry (F : Ftdi) (n : Nat) (image : List Nat) (A : Nat) (w0 : World) :
    Nat → World × Int
  | 0 => (w0, -1)
  | k + 1 =>
    let e := ConfigProgramHex.entry F n image A w0 k
    let r := ConfigProgramHex.page F n e.1 (u32 (A + 256 * k)) (pageData image k)
      (pageLen image.length k)
    let npercent := s32 ((u32 (256 * k * 100) / image.length : Nat) : Int)
    (if npercent ≠ e.2 then r.2.print (Msg.percent npercent) else r.2, npercent)

/-- The result of page operation `k` of a pass, in the state in which the loop
enters it: for Program whether the page write returned true, for Verify whether
the read returned true and the bytes read equal the decoded page. -/
def ConfigProgramHex.pageResult (F : Ftdi) (n : Nat) (image : List Nat) (A : Nat) (w0 : World)
    (k : Nat) : Bool × World :=
  ConfigProgramHex.page F n (ConfigProgramHex.entry F n image A w0 k).1 (u32 (A + 256 * k))
    (pageData image k) (pageLen image.length k)

/-! ## Erase ranges of a call trace, and paged decoding -/

/-- The byte ranges `(address, size)` of the erase operations of a call trace,
in the order of the calls. -/
def eraseRanges (L : List FlashOp) : List (Nat × Nat) := L.filterMap FlashOp.eraseRange

/-- The first `k` calls `HexGetBytes(buf, f, 256)` on the same stream, each
continuing at the character where the call before stopped reading: per call,
the count returned and the bytes stored. -/
def HexGetBytes.paged : Nat → List Byte → List (Nat × List Nat)
  | 0, _ => []
  | k + 1, f =>
    ((HexGetBytes f 256).1, (HexGetBytes f 256).2.1) ::
      HexGetBytes.paged k (HexGetBytes f 256).2.2

/-! ## Bit masks as arithmetic -/

theorem and_4095 (x : Nat) : x &&& 4095 = x % 4096 :=
  Nat.and_pow_two_sub_one_eq_mod x 12

theorem and_32767 (x : Nat) : x &&& 32767 = x % 32768 :=
  Nat.and_pow_two_sub_one_eq_mod x 15

theorem and_65535 (x : Nat) : x &&& 65535 = x % 65536 :=
  Nat.and_pow_two_sub_one_eq_mod x 16

theorem and_NOT_4095 (x : Nat) : x &&& NOT_4095 = x % 4294967296 / 4096 * 4096 := by
  have hM : NOT_4095 = (2 ^ 20 - 1) <<< 12 := by decide
  have hR : x % 4294967296 / 4096 * 4096 = ((x % 2 ^ 32) >>> 12) <<< 12 := by
    rw [Nat.shiftRight_eq_div_pow, Nat.shiftLeft_eq]
    norm_num
  rw [hM, hR]
  apply Nat.eq_of_testBit_eq
  intro i
  simp only [Nat.testBit_and, Nat.testBit_shiftLeft, Nat.testBit_shiftRight,
    Nat.testBit_two_pow_sub_one, Nat.testBit_mod_two_pow]
  by_cases h : 12 ≤ i
  · have e : 12 + (i - 12) = i := by omega
    rw [e]
    by_cases h2 : i < 32
    · have : i - 12 < 20 := by omega
      simp [h, h2, this]
    · have : ¬ (i - 12 < 20) := by omega
      simp [h, h2, this]
  · simp [h]

theorem and_one_ne_zero (n : Nat) : ((n &&& 1) != 0) = decide (n % 2 = 1) := by
  rw [Nat.and_one_is_mod]
  rcases Nat.mod_two_eq_zero_or_one n with h | h <;> simp [h]

/-! ## What the adapter functions leave alone

None of the transport and protocol functions below `ConfigErase*`,
`ConfigWritePage` and `ConfigReadBytes` touches the call trace or the printed
output. -/

@[simp] theorem ftdi_write_data_calls (F : Ftdi) (w : World) (buf : List Nat) :
    (ftdi_write_data F w buf).2.calls = w.calls := rfl

@[simp] theorem ftdi_write_data_out (F : Ftdi) (w : World) (buf : List Nat) :
    (ftdi_write_data F w buf).2.out = w.out := rfl

@[simp] theorem ftdi_read_data_calls (F : Ftdi) (w : World) (n : Nat) :
    (ftdi_read_data F w n).2.2.calls = w.calls := rfl

@[simp] theorem ftdi_read_data_out (F : Ftdi) (w : World) (n : Nat) :
    (ftdi_read_data F w n).2.2.out = w.out := rfl

@[simp] theorem ConfigControl_calls (F : Ftdi) (w : World) (n : Nat) :
    (ConfigControl F w n).2.calls = w.calls := rfl

@[simp] theorem ConfigControl_out (F : Ftdi) (w : World) (n : Nat) :
    (ConfigControl F w n).2.out = w.out := rfl

@[simp] theorem ConfigChipSelect_calls (F : Ftdi) (w : World) (b : Bool) :
    (ConfigChipSelect F w b).2.calls = w.calls := rfl

@[simp] theorem ConfigChipSelect_out (F : Ftdi) (w : World) (b : Bool) :
    (ConfigChipSelect F w b).2.out = w.out := rfl

theorem ConfigWriteSPI.fill_calls_out (F : Ftdi) (byte : Nat) (count : Nat) (w : World) :
    (ConfigWriteSPI.fill F byte count w).2.calls = w.calls ∧
    (ConfigWriteSPI.fill F byte count w).2.out = w.out := by
  induction count generalizing w with
  | zero => exact ⟨rfl, rfl⟩
  | succ k ih =>
    unfold ConfigWriteSPI.fill
    simp only []
    split_ifs
    · have h := ih (ftdi_write_data F w [byte]).2
      simpa using h
    · exact ⟨rfl, rfl⟩

@[simp] theorem ConfigWriteSPI.fill_calls (F : Ftdi) (byte : Nat) (count : Nat) (w : World) :
    (ConfigWriteSPI.fill F byte count w).2.calls = w.calls :=
  (ConfigWriteSPI.fill_calls_out F byte count w).1

@[simp] theorem ConfigWriteSPI.fill_out (F : Ftdi) (byte : Nat) (count : Nat) (w : World) :
    (ConfigWriteSPI.fill F byte count w).2.out = w.out :=
  (ConfigWriteSPI.fill_calls_out F byte count w).2

@[simp] theorem ConfigWriteSPI_calls (F : Ftdi) (w : World) (o : OutData) (n : Nat) (i : Bool) :
    (ConfigWriteSPI F w o n i).2.2.calls = w.calls := by
  cases o <;> simp only [ConfigWriteSPI] <;> split_ifs <;> simp

@[simp] theorem ConfigWriteSPI_out (F : Ftdi) (w : World) (o : OutData) (n : Nat) (i : Bool) :
    (ConfigWriteSPI F w o n i).2.2.out = w.out := by
  cases o <;> simp only [ConfigWriteSPI] <;> split_ifs <;> simp

@[simp] theorem ConfigWriteCommand_calls (F : Ftdi) (w : World) (cmd : Nat) :
    (ConfigWriteCommand F w cmd).2.calls = w.calls := rfl

@[simp] theorem ConfigWriteCommand_out (F : Ftdi) (w : World) (cmd : Nat) :
    (ConfigWriteCommand F w cmd).2.out = w.out := rfl

@[simp] theorem ConfigWriteEnable_calls (F : Ftdi) (w : World) :
    (ConfigWriteEnable F w).2.calls = w.calls := rfl

@[simp] theorem ConfigWriteEnable_out (F : Ftdi) (w : World) :
    (ConfigWriteEnable F w).2.out = w.out := rfl

@[simp] theorem ConfigWriteCommandWithAddrAndData_calls (F : Ftdi) (w : World) (cmd addr : Nat)
    (o : OutData) (i : Bool) (size : Nat) :
    (ConfigWriteCommandWithAddrAndData F w cmd addr o i size).2.2.calls = w.calls := by
  simp only [ConfigWriteCommandWithAddrAndData]
  split_ifs <;> rfl

@[simp] theorem ConfigWriteCommandWithAddrAndData_out (F : Ftdi) (w : World) (cmd addr : Nat)
    (o : OutData) (i : Bool) (size : Nat) :
    (ConfigWriteCommandWithAddrAndData F w cmd addr o i size).2.2.out = w.out := by
  simp only [ConfigWriteCommandWithAddrAndData]
  split_ifs <;> rfl

theorem ConfigPollStatusComplete.loop_calls_out (F : Ftdi) (t : Nat) (w : World) :
    (ConfigPollStatusComplete.loop F t w).2.2.calls = w.calls ∧
    (ConfigPollStatusComplete.loop F t w).2.2.out = w.out := by
  induction t generalizing w with
  | zero => exact ⟨rfl, rfl⟩
  | succ k ih =>
    simp only [ConfigPollStatusComplete.loop]
    split_ifs
    · have h := ih (ConfigWriteSPI F w (OutData.imm 0) 1 true).2.2
      simpa using h
    · simp

@[simp] theorem ConfigPollStatusComplete_calls (F : Ftdi) (w : World) :
    (ConfigPollStatusComplete F w).2.calls = w.calls := by
  simp only [ConfigPollStatusComplete]
  split_ifs <;> simp [(ConfigPollStatusComplete.loop_calls_out F 20 _).1]

@[simp] theorem ConfigPollStatusComplete_out (F : Ftdi) (w : World) :
    (ConfigPollStatusComplete F w).2.out = w.out := by
  simp only [ConfigPollStatusComplete]
  split_ifs <;> simp [(ConfigPollStatusComplete.loop_calls_out F 20 _).2]

@[simp] theorem World.call_calls (w : World) (op : FlashOp) :
    (w.call op).calls = w.calls ++ [op] := rfl

@[simp] theorem World.call_out (w : World) (op : FlashOp) : (w.call op).out = w.out := rfl

@[simp] theorem World.print_calls (w : World) (m : Msg) : (w.print m).calls = w.calls := rfl

@[simp] theorem World.print_out (w : World) (m : Msg) : (w.print m).out = w.out ++ [m] := rfl

@[simp] theorem ConfigEraseSector_calls (F : Ftdi) (w : World) (addr : Nat) :
    (ConfigEraseSector F w addr).2.calls = w.calls ++ [FlashOp.eraseSector addr] := by
  simp only [ConfigEraseSector]
  split_ifs <;> simp

@[simp] theorem ConfigEraseBlock32_calls (F : Ftdi) (w : World) (addr : Nat) :
    (ConfigEraseBlock32 F w addr).2.calls = w.calls ++ [FlashOp.eraseBlock32 addr] := by
  simp only [ConfigEraseBlock32]
  split_ifs <;> simp

@[simp] theorem ConfigEraseBlock64_calls (F : Ftdi) (w : World) (addr : Nat) :
    (ConfigEraseBlock64 F w addr).2.calls = w.calls ++ [FlashOp.eraseBlock64 addr] := by
  simp only [ConfigEraseBlock64]
  split_ifs <;> simp

/-! ## The erase loop against its plan -/

theorem ConfigEraseArea_loop_spec (F : Ftdi) (fuel : Nat) :
    ∀ (bOk : Bool) (addr size : Nat) (w : World),
      size % 4096 = 0 → size < 4294967296 → size / 4096 ≤ fuel →
      ∃ r L, ConfigEraseArea.loop F fuel bOk addr size w = some r ∧
        r.2.calls = w.calls ++ L ∧ r.2.out = w.out ∧
        L <+: (if bOk then ConfigEraseArea.plan fuel addr size else []) ∧
        (r.1 = true → bOk = true ∧ L = ConfigEraseArea.plan fuel addr size) := by
  induction fuel with
  | zero =>
    intro bOk addr size w h1 h2 h3
    have hs : size = 0 := by omega
    subst hs
    refine ⟨(bOk, w), [], ?_, by simp, rfl, by simp, ?_⟩
    · unfold ConfigEraseArea.loop
      simp
    · intro h
      exact ⟨h, by simp [ConfigEraseArea.plan]⟩
  | succ k ih =>
    intro bOk addr size w h1 h2 h3
    by_cases hb : bOk = true
    · subst hb
      by_cases hs : size = 0
      · subst hs
        refine ⟨(true, w), [], ?_, by simp, rfl, by simp, ?_⟩
        · unfold ConfigEraseArea.loop
          simp
        · intro _
          exact ⟨rfl, by simp [ConfigEraseArea.plan]⟩
      · have step : ∀ (g : Nat) (op : FlashOp) (r : Bool × World),
            4096 ≤ g → g ≤ size → g % 4096 = 0 →
            r.2.calls = w.calls ++ [op] → r.2.out = w.out →
            ∃ r1 L, ConfigEraseArea.loop F k r.1 (u32 (addr + g))
                (u32 (size + 4294967296 - g)) r.2 = some r1 ∧
              r1.2.calls = w.calls ++ L ∧ r1.2.out = w.out ∧
              L <+: (op :: ConfigEraseArea.plan k (u32 (addr + g))
                (u32 (size + 4294967296 - g))) ∧
              (r1.1 = true → L = op :: ConfigEraseArea.plan k (u32 (addr + g))
                (u32 (size + 4294967296 - g))) := by
          intro g op r hg1 hg2 hg3 hc ho
          have e : u32 (size + 4294967296 - g) = size - g := by
            unfold u32; omega
          obtain ⟨r1, L, hr, hcalls, hout, hpre, hfull⟩ :=
            ih r.1 (u32 (addr + g)) (u32 (size + 4294967296 - g)) r.2
              (by rw [e]; omega) (by rw [e]; omega) (by rw [e]; omega)
          refine ⟨r1, op :: L, hr, ?_, ?_, ?_, ?_⟩
          · rw [hcalls, hc]; simp
          · rw [hout, ho]
          · cases hr1 : r.1
            · rw [hr1] at hpre
              simp only [Bool.false_eq_true, if_false] at hpre
              have : L = [] := List.prefix_nil.mp hpre
              subst this
              simp
            · rw [hr1] at hpre
              simp only [if_true] at hpre
              exact (List.cons_prefix_cons).mpr ⟨rfl, hpre⟩
          · intro h
            rw [(hfull h).2]
        have hsz : 4096 ≤ size := by omega
        unfold ConfigEraseArea.loop ConfigEraseArea.plan
        simp only [hs, bne_iff_ne, ne_eq, not_false_eq_true, Bool.true_and, if_true,
          decide_True]
        by_cases c1 : ((addr &&& 65535) == 0 && decide (size ≥ 65536)) = true
        · simp only [c1, if_true]
          have hge : 65536 ≤ size := by
            simp only [Bool.and_eq_true, decide_eq_true_eq] at c1
            exact c1.2
          obtain ⟨r1, L, hr, hcalls, hout, hpre, hfull⟩ :=
            step 65536 (FlashOp.eraseBlock64 addr) (ConfigEraseBlock64 F w addr)
              (by omega) hge (by omega) (by simp) (by simp [ConfigEraseBlock64]; split_ifs <;> simp)
          exact ⟨r1, L, hr, hcalls, hout, hpre, fun h => ⟨trivial, hfull h⟩⟩
        · simp only [c1, if_false]
          by_cases c2 : ((addr &&& 32767) == 0 && decide (size ≥ 32768)) = true
          · simp only [c2, if_true]
            have hge : 32768 ≤ size := by
              simp only [Bool.and_eq_true, decide_eq_true_eq] at c2
              exact c2.2
            obtain ⟨r1, L, hr, hcalls, hout, hpre, hfull⟩ :=
              step 32768 (FlashOp.eraseBlock32 addr) (ConfigEraseBlock32 F w addr)
                (by omega) hge (by omega) (by simp) (by simp [ConfigEraseBlock32]; split_ifs <;> simp)
            exact ⟨r1, L, hr, hcalls, hout, hpre, fun h => ⟨trivial, hfull h⟩⟩
          · simp only [c2, if_false]
            obtain ⟨r1, L, hr, hcalls, hout, hpre, hfull⟩ :=
              step 4096 (FlashOp.eraseSector addr) (ConfigEraseSector F w addr)
                (by omega) hsz (by omega) (by simp) (by simp [ConfigEraseSector]; split_ifs <;> simp)
            exact ⟨r1, L, hr, hcalls, hout, hpre, fun h => ⟨trivial, hfull h⟩⟩
    · have hb2 : bOk = false := by simpa using hb
      subst hb2
      refine ⟨(false, w), [], ?_, by simp, rfl, by simp, ?_⟩
      · unfold ConfigEraseArea.loop
        simp
      · intro h
        simp at h

theorem ConfigEraseArea.plan_length_le (fuel : Nat) :
    ∀ addr size : Nat, (ConfigEraseArea.plan fuel addr size).length ≤ fuel := by
  induction fuel with
  | zero => intro addr size; simp [ConfigEraseArea.plan]
  | succ k ih =>
    intro addr size
    unfold ConfigEraseArea.plan
    split_ifs
    · simpa using ih _ _
    · simpa using ih _ _
    · simpa using ih _ _
    · simp

theorem ConfigEraseArea.plan_eraseRange (fuel : Nat) :
    ∀ (addr size : Nat) (op : FlashOp), op ∈ ConfigEraseArea.plan fuel addr size →
      op.eraseRange ≠ none := by
  induction fuel with
  | zero => intro addr size op h; simp [ConfigEraseArea.plan] at h
  | succ k ih =>
    intro addr size op h
    unfold ConfigEraseArea.plan at h
    split_ifs at h
    · rcases List.mem_cons.mp h with h | h
      · subst h; simp [FlashOp.eraseRange]
      · exact ih _ _ _ h
    · rcases List.mem_cons.mp h with h | h
      · subst h; simp [FlashOp.eraseRange]
      · exact ih _ _ _ h
    · rcases List.mem_cons.mp h with h | h
      · subst h; simp [FlashOp.eraseRange]
      · exact ih _ _ _ h
    · simp at h

theorem ConfigEraseArea.alignedSize_eq (addr size : Nat) :
    ConfigEraseArea.alignedSize addr size =
      ((size + (4096 - addr % 4096) % 4096) % 4294967296 + 4095) % 4294967296 / 4096 * 4096 := by
  unfold ConfigEraseArea.alignedSize
  rw [and_NOT_4095, and_4095, and_4095]
  unfold u32
  simp

theorem ConfigEraseArea.alignedSize_mod (addr size : Nat) :
    ConfigEraseArea.alignedSize addr size % 4096 = 0 := by
  rw [ConfigEraseArea.alignedSize_eq]; omega

theorem ConfigEraseArea.alignedSize_lt (addr size : Nat) :
    ConfigEraseArea.alignedSize addr size < 4294967296 := by
  rw [ConfigEraseArea.alignedSize_eq]; omega

/-- The run of `ConfigEraseArea` always ends; the erase operations it enters are
an initial part of its plan, and the whole plan when it returns true. -/
theorem ConfigEraseArea_spec (F : Ftdi) (w : World) (addr size : Nat) :
    ∃ r L, ConfigEraseArea F w addr size = some r ∧
      r.2.calls = w.calls ++ L ∧ r.2.out = w.out ∧
      L <+: ConfigEraseArea.plan (ConfigEraseArea.alignedSize addr size / 4096)
        (addr &&& NOT_4095) (ConfigEraseArea.alignedSize addr size) ∧
      (r.1 = true → L = ConfigEraseArea.plan (ConfigEraseArea.alignedSize addr size / 4096)
        (addr &&& NOT_4095) (ConfigEraseArea.alignedSize addr size)) := by
  obtain ⟨r, L, h1, h2, h3, h4, h5⟩ :=
    ConfigEraseArea_loop_spec F (ConfigEraseArea.alignedSize addr size / 4096) true
      (addr &&& NOT_4095) (ConfigEraseArea.alignedSize addr size) w
      (ConfigEraseArea.alignedSize_mod addr size) (ConfigEraseArea.alignedSize_lt addr size)
      (le_refl _)
  exact ⟨r, L, h1, h2, h3, by simpa using h4, fun h => (h5 h).2⟩

/-! ## Coverage and number of erase commands -/

/-- C1 (fails on the code). `ConfigEraseArea(4095, 2)` on an adapter where every
transfer completes returns true after a single 4K sector erase at address 0:
byte 4096, which lies in the requested range `[4095, 4097)` and in its 4K-aligned
hull `[0, 8192)`, is in no erased range. -/
theorem C1_erase_area_misses_requested_byte :
    (ConfigEraseArea Ftdi.ideal World.init 4095 2).map (fun r => (r.1, r.2.calls))
        = some (true, [FlashOp.eraseSector 0]) ∧
      (4095 ≤ 4096 ∧ 4096 < 4095 + 2) ∧
      (4095 - 4095 % 4096 ≤ 4096 ∧ 4096 < (4095 + 2 + 4095) / 4096 * 4096) ∧
      erased [FlashOp.eraseSector 0] 4096 = false := by
  decide

/-- C2 as stated fails: `ConfigEraseArea(1, 4096)` on an adapter where every
transfer completes enters two sector erases, while `ceil(4096/4096) = 1`. -/
theorem C2_counterexample :
    (ConfigEraseArea Ftdi.ideal World.init 1 4096).map (fun r => r.2.calls)
        = some [FlashOp.eraseSector 0, FlashOp.eraseSector 4096] ∧
      ¬ ([FlashOp.eraseSector 0, FlashOp.eraseSector 4096].length ≤ (4096 + 4095) / 4096) := by
  decide

/-- C2 (amended). For every adapter, state, address `a` and size `s`,
`ConfigEraseArea(a, s)` returns, and the erase operations it enters number at
most `ceil(s/4096)` when `a` is a multiple of 4096 and at most `ceil(s/4096) + 1`
otherwise. -/
theorem C2_erase_count_bound (F : Ftdi) (w : World) (a s : Nat) :
    ∃ r L, ConfigEraseArea F w a s = some r ∧ r.2.calls = w.calls ++ L ∧
      (∀ op ∈ L, op.eraseRange ≠ none) ∧
      L.length ≤ (s + 4095) / 4096 + (if a % 4096 = 0 then 0 else 1) := by
  obtain ⟨r, L, h1, h2, _, h4, _⟩ := ConfigEraseArea_spec F w a s
  refine ⟨r, L, h1, h2, ?_, ?_⟩
  · intro op hop
    have hmem := h4.subset hop
    exact ConfigEraseArea.plan_eraseRange _ _ _ op hmem
  · have hl := h4.length_le
    have hp := ConfigEraseArea.plan_length_le (ConfigEraseArea.alignedSize a s / 4096)
      (a &&& NOT_4095) (ConfigEraseArea.alignedSize a s)
    have hb : ConfigEraseArea.alignedSize a s / 4096 ≤
        (s + 4095) / 4096 + (if a % 4096 = 0 then 0 else 1) := by
      rw [ConfigEraseArea.alignedSize_eq]
      split_ifs <;> omega
    omega

/-! ## The plan is a shortest tiling -/

theorem ConfigEraseArea.plan_fuel (f1 : Nat) :
    ∀ (f2 addr size : Nat), size % 4096 = 0 → size < 4294967296 →
      size / 4096 ≤ f1 → size / 4096 ≤ f2 →
      ConfigEraseArea.plan f1 addr size = ConfigEraseArea.plan f2 addr size := by
  induction f1 with
  | zero =>
    intro f2 addr size h1 _ h3 _
    have hs : size = 0 := by omega
    subst hs
    cases f2 <;> simp [ConfigEraseArea.plan]
  | succ k ih =>
    intro f2 addr size h1 h2 h3 h4
    cases f2 with
    | zero =>
      have hs : size = 0 := by omega
      subst hs
      simp [ConfigEraseArea.plan]
    | succ j =>
      by_cases hs : size = 0
      · subst hs
        simp [ConfigEraseArea.plan]
      · have e : ∀ g, 4096 ≤ g → g ≤ size → u32 (size + 4294967296 - g) = size - g := by
          intro g _ _
          unfold u32; omega
        unfold ConfigEraseArea.plan
        simp only [hs, bne_iff_ne, ne_eq, not_false_eq_true, if_true]
        by_cases c1 : ((addr &&& 65535) == 0 && decide (size ≥ 65536)) = true
        · simp only [c1, if_true]
          have hge : 65536 ≤ size := by
            simp only [Bool.and_eq_true, decide_eq_true_eq] at c1
            exact c1.2
          rw [e 65536 (by omega) hge]
          rw [ih j _ (size - 65536) (by omega) (by omega) (by omega) (by omega)]
        · simp only [c1, if_false]
          by_cases c2 : ((addr &&& 32767) == 0 && decide (size ≥ 32768)) = true
          · simp only [c2, if_true]
            have hge : 32768 ≤ size := by
              simp only [Bool.and_eq_true, decide_eq_true_eq] at c2
              exact c2.2
            rw [e 32768 (by omega) hge]
            rw [ih j _ (size - 32768) (by omega) (by omega) (by omega) (by omega)]
            simp
          · simp only [c2, if_false]
            rw [e 4096 (by omega) (by omega)]
            rw [ih j _ (size - 4096) (by omega) (by omega) (by omega) (by omega)]
            simp

theorem ConfigEraseArea.cost_zero (a : Nat) : ConfigEraseArea.cost a 0 = 0 := by
  simp [ConfigEraseArea.cost, ConfigEraseArea.plan]

theorem ConfigEraseArea.pick_cases (a s : Nat) :
    (ConfigEraseArea.pick a s = 65536 ∧ a % 65536 = 0 ∧ 65536 ≤ s) ∨
    (ConfigEraseArea.pick a s = 32768 ∧ a % 32768 = 0 ∧ 32768 ≤ s ∧
      ¬ (a % 65536 = 0 ∧ 65536 ≤ s)) ∨
    (ConfigEraseArea.pick a s = 4096 ∧ ¬ (a % 65536 = 0 ∧ 65536 ≤ s) ∧
      ¬ (a % 32768 = 0 ∧ 32768 ≤ s)) := by
  unfold ConfigEraseArea.pick
  split_ifs with h1 h2
  · exact Or.inl ⟨rfl, h1.1, h1.2⟩
  · exact Or.inr (Or.inl ⟨rfl, h2.1, h2.2, h1⟩)
  · exact Or.inr (Or.inr ⟨rfl, h1, h2⟩)

/-- The head of the plan, without wrap-around: the block chosen by `pick`. -/
theorem ConfigEraseArea.plan_pos (a s : Nat) (hs0 : s ≠ 0) (hs : s % 4096 = 0)
    (hw : a + s < 4294967296) :
    ConfigEraseArea.plan (s / 4096) a s =
      (if ConfigEraseArea.pick a s = 65536 then FlashOp.eraseBlock64 a
       else if ConfigEraseArea.pick a s = 32768 then FlashOp.eraseBlock32 a
       else FlashOp.eraseSector a) ::
      ConfigEraseArea.plan ((s - ConfigEraseArea.pick a s) / 4096)
        (a + ConfigEraseArea.pick a s) (s - ConfigEraseArea.pick a s) := by
  obtain ⟨k, hk⟩ : ∃ k, s / 4096 = k + 1 := ⟨s / 4096 - 1, by omega⟩
  have e : ∀ g, 4096 ≤ g → g ≤ s → u32 (s + 4294967296 - g) = s - g := by
    intro g _ _
    unfold u32; omega
  have ea : ∀ g, g ≤ s → u32 (a + g) = a + g := by
    intro g _
    unfold u32; omega
  rw [hk, ConfigEraseArea.plan]
  simp only [hs0, bne_iff_ne, ne_eq, not_false_eq_true, if_true, and_65535, and_32767,
    beq_iff_eq, Bool.and_eq_true, decide_eq_true_eq, ge_iff_le]
  rcases ConfigEraseArea.pick_cases a s with ⟨hp, h1, h2⟩ | ⟨hp, h1, h2, h3⟩ | ⟨hp, h3, h4⟩
  · rw [hp]
    simp only [h1, h2, and_self, if_true]
    rw [e 65536 (by omega) h2, ea 65536 h2]
    rw [ConfigEraseArea.plan_fuel k ((s - 65536) / 4096) _ _ (by omega) (by omega) (by omega)
      (le_refl _)]
  · rw [hp]
    simp only [h3, if_false, h1, h2, and_self, if_true]
    rw [e 32768 (by omega) h2, ea 32768 h2]
    rw [ConfigEraseArea.plan_fuel k ((s - 32768) / 4096) _ _ (by omega) (by omega) (by omega)
      (le_refl _)]
    simp
  · rw [hp]
    simp only [h3, h4, if_false]
    rw [e 4096 (by omega) (by omega), ea 4096 (by omega)]
    rw [ConfigEraseArea.plan_fuel k ((s - 4096) / 4096) _ _ (by omega) (by omega) (by omega)
      (le_refl _)]
    simp

theorem ConfigEraseArea.cost_pos (a s : Nat) (hs0 : s ≠ 0) (hs : s % 4096 = 0)
    (hw : a + s < 4294967296) :
    ConfigEraseArea.cost a s =
      1 + ConfigEraseArea.cost (a + ConfigEraseArea.pick a s) (s - ConfigEraseArea.pick a s) := by
  unfold ConfigEraseArea.cost
  rw [ConfigEraseArea.plan_pos a s hs0 hs hw]
  simp [Nat.add_comm]

theorem ConfigEraseArea.pick_bounds (a s : Nat) (hs0 : s ≠ 0) (hs : s % 4096 = 0) :
    4096 ≤ ConfigEraseArea.pick a s ∧ ConfigEraseArea.pick a s ≤ s ∧
      ConfigEraseArea.pick a s % 4096 = 0 := by
  rcases ConfigEraseArea.pick_cases a s with ⟨hp, _, _⟩ | ⟨hp, _, _, _⟩ | ⟨hp, _, _⟩ <;>
    rw [hp] <;> omega

/-- Inside an aligned 32K or 64K block the plan does not depend on how far the
range extends beyond the block: it first runs to the end of the block. -/
theorem ConfigEraseArea.cost_inside (n : Nat) :
    ∀ (G g p e : Nat), (g = 32768 ∨ g = 65536) → G % g = 0 → G < p → p < G + g →
      p % 4096 = 0 → G + g ≤ e → e % 4096 = 0 → e < 4294967296 → (G + g - p) / 4096 ≤ n →
      ConfigEraseArea.cost p (e - p) =
          ConfigEraseArea.cost p (G + g - p) + ConfigEraseArea.cost (G + g) (e - (G + g)) ∧
        1 ≤ ConfigEraseArea.cost p (G + g - p) := by
  induction n with
  | zero =>
    intro G g p e hg hG h1 h2 hp he he4 hew hn
    rcases hg with hg | hg <;> subst hg <;> omega
  | succ k ih =>
    intro G g p e hg hG h1 h2 hp he he4 hew hn
    have hc1 := ConfigEraseArea.cost_pos p (e - p) (by omega) (by omega) (by omega)
    have hc2 := ConfigEraseArea.cost_pos p (G + g - p) (by omega)
      (by rcases hg with hg | hg <;> subst hg <;> omega) (by omega)
    have hq : ConfigEraseArea.pick p (e - p) = ConfigEraseArea.pick p (G + g - p) ∧
        p + ConfigEraseArea.pick p (G + g - p) ≤ G + g ∧
        4096 ≤ ConfigEraseArea.pick p (G + g - p) := by
      rcases hg with hg | hg <;> subst hg <;>
      rcases ConfigEraseArea.pick_cases p (e - p) with ⟨q1, _, _⟩ | ⟨q1, _, _, _⟩ | ⟨q1, _, _⟩ <;>
      rcases ConfigEraseArea.pick_cases p (G + _ - p) with
        ⟨q2, _, _⟩ | ⟨q2, _, _, _⟩ | ⟨q2, _, _⟩ <;>
      rw [q1, q2] <;> omega
    obtain ⟨hq1, hq2, hq3⟩ := hq
    rw [hq1] at hc1
    have hq4 : ConfigEraseArea.pick p (G + g - p) % 4096 = 0 :=
      (ConfigEraseArea.pick_bounds p (G + g - p) (by omega)
        (by rcases hg with hg | hg <;> subst hg <;> omega)).2.2
    generalize ConfigEraseArea.pick p (G + g - p) = q at hc1 hc2 hq2 hq3 hq4
    by_cases hend : p + q = G + g
    · have e1 : e - p - q = e - (G + g) := by omega
      have e2 : G + g - p - q = 0 := by omega
      rw [hend, e1] at hc1
      rw [hend, e2, ConfigEraseArea.cost_zero] at hc2
      omega
    · obtain ⟨i1, _⟩ := ih G g (p + q) e hg hG (by omega) (by omega) (by omega) he he4 hew
        (by rcases hg with hg | hg <;> subst hg <;> omega)
      have e1 : e - p - q = e - (p + q) := by omega
      have e2 : G + g - p - q = G + g - (p + q) := by omega
      rw [e1] at hc1
      rw [e2] at hc2
      omega

/-- Cutting a range in two never shortens the plans. -/
theorem ConfigEraseArea.cost_subadd (n : Nat) :
    ∀ (a s1 s2 : Nat), a % 4096 = 0 → s1 % 4096 = 0 → s2 % 4096 = 0 →
      a + s1 + s2 < 4294967296 → s1 / 4096 ≤ n →
      ConfigEraseArea.cost a (s1 + s2) ≤
        ConfigEraseArea.cost a s1 + ConfigEraseArea.cost (a + s1) s2 := by
  induction n with
  | zero =>
    intro a s1 s2 _ h1 _ _ hn
    have : s1 = 0 := by omega
    subst this
    simp [ConfigEraseArea.cost_zero]
  | succ k ih =>
    intro a s1 s2 ha h1 h2 hw hn
    by_cases hs1 : s1 = 0
    · subst hs1
      simp [ConfigEraseArea.cost_zero]
    by_cases hs2 : s2 = 0
    · subst hs2
      simp
    have hc1 := ConfigEraseArea.cost_pos a s1 hs1 h1 (by omega)
    have hc := ConfigEraseArea.cost_pos a (s1 + s2) (by omega) (by omega) (by omega)
    have hb := ConfigEraseArea.pick_bounds a s1 hs1 h1
    by_cases hq : ConfigEraseArea.pick a (s1 + s2) = ConfigEraseArea.pick a s1
    · rw [hq] at hc
      generalize ConfigEraseArea.pick a s1 = q at hc1 hc hb
      have i := ih (a + q) (s1 - q) s2 (by omega) (by omega) h2 (by omega) (by omega)
      have e1 : s1 - q + s2 = s1 + s2 - q := by omega
      have e2 : a + q + (s1 - q) = a + s1 := by omega
      rw [e1, e2] at i
      omega
    · have hg : (ConfigEraseArea.pick a (s1 + s2) = 32768 ∨
            ConfigEraseArea.pick a (s1 + s2) = 65536) ∧
          a % ConfigEraseArea.pick a (s1 + s2) = 0 ∧
          s1 < ConfigEraseArea.pick a (s1 + s2) ∧
          ConfigEraseArea.pick a (s1 + s2) ≤ s1 + s2 := by
        rcases ConfigEraseArea.pick_cases a (s1 + s2) with
          ⟨q1, _, _⟩ | ⟨q1, _, _, _⟩ | ⟨q1, _, _⟩ <;>
        rcases ConfigEraseArea.pick_cases a s1 with ⟨q2, _, _⟩ | ⟨q2, _, _, _⟩ | ⟨q2, _, _⟩ <;>
        rw [q1] at hq ⊢ <;> rw [q2] at hq <;>
        first
          | exact absurd rfl hq
          | (refine ⟨by omega, by omega, by omega, by omega⟩)
      generalize ConfigEraseArea.pick a (s1 + s2) = g at hc hg
      obtain ⟨hg1, hg2, hg3, hg4⟩ := hg
      obtain ⟨i1, i2⟩ := ConfigEraseArea.cost_inside ((a + g - (a + s1)) / 4096) a g (a + s1)
        (a + s1 + s2) hg1 hg2 (by omega) (by omega) (by omega) (by omega) (by omega) hw
        (le_refl _)
      have e1 : a + s1 + s2 - (a + s1) = s2 := by omega
      have e2 : a + s1 + s2 - (a + g) = s1 + s2 - g := by omega
      rw [e1, e2] at i1
      omega

/-- A single valid erase is its own plan. -/
theorem ConfigEraseArea.cost_block (x g : Nat) (hv : ValidErase (x, g))
    (hw : x + g < 4294967296) : ConfigEraseArea.cost x g = 1 := by
  obtain ⟨hg, hx⟩ := hv
  simp only at hg hx
  have hc := ConfigEraseArea.cost_pos x g (by omega) (by omega) hw
  have hp : ConfigEraseArea.pick x g = g := by
    have pc := ConfigEraseArea.pick_cases x g
    rcases hg with hg | hg | hg <;> subst hg <;>
    rcases pc with ⟨q1, _, _⟩ | ⟨q1, _, _, _⟩ | ⟨q1, _, _⟩ <;>
    omega
  rw [hp, Nat.sub_self, ConfigEraseArea.cost_zero] at hc
  exact hc

theorem Tiles.empty_range (a s : Nat) (hT : Tiles [] a s) : s = 0 := by
  by_contra h
  have := (hT.2.2 a).mpr ⟨le_refl _, by omega⟩
  simp at this

/-- No tiling of an aligned range by valid, pairwise disjoint erases is shorter
than the plan. -/
theorem Tiles.cost_le (n : Nat) :
    ∀ (T : List (Nat × Nat)) (a s : Nat), T.length ≤ n → a % 4096 = 0 → s % 4096 = 0 →
      a + s < 4294967296 → Tiles T a s → ConfigEraseArea.cost a s ≤ T.length := by
  induction n with
  | zero =>
    intro T a s hn _ _ _ hT
    have hT0 : T = [] := List.length_eq_zero.mp (by omega)
    subst hT0
    have := Tiles.empty_range a s hT
    subst this
    simp [ConfigEraseArea.cost_zero]
  | succ k ih =>
    intro T a s hn ha hs hw hT
    cases T with
    | nil =>
      have := Tiles.empty_range a s hT
      subst this
      simp [ConfigEraseArea.cost_zero]
    | cons B T1 =>
      obtain ⟨hv, hd, hu⟩ := hT
      obtain ⟨x, g⟩ := B
      have hvB : ValidErase (x, g) := hv _ (List.mem_cons_self _ _)
      have hx4 : x % 4096 = 0 ∧ g % 4096 = 0 ∧ 4096 ≤ g := by
        obtain ⟨hg, hx⟩ := hvB
        simp only at hg hx
        rcases hg with hg | hg | hg <;> subst hg <;> omega
      obtain ⟨hx4a, hx4b, hx4c⟩ := hx4
      have hx1 := (hu x).mp ⟨(x, g), List.mem_cons_self _ _, le_refl _, by simp; omega⟩
      have hx2 := (hu (x + g - 1)).mp
        ⟨(x, g), List.mem_cons_self _ _, by simp; omega, by simp; omega⟩
      rw [List.pairwise_cons] at hd
      obtain ⟨hdB, hd1⟩ := hd
      have hlen := List.length_eq_length_filter_add (l := T1) (fun e => decide (e.1 < x))
      have hL : Tiles (T1.filter (fun e => decide (e.1 < x))) a (x - a) := by
        refine ⟨?_, hd1.filter _, ?_⟩
        · intro e he
          exact hv e (List.mem_cons_of_mem _ (List.mem_filter.mp he).1)
        · intro y
          constructor
          · rintro ⟨e, he, h1, h2⟩
            obtain ⟨he1, he2⟩ := List.mem_filter.mp he
            have he2 : e.1 < x := by simpa using he2
            have hy := (hu y).mp ⟨e, List.mem_cons_of_mem _ he1, h1, h2⟩
            have hdis := hdB e he1
            unfold DisjointErase at hdis
            simp only at hdis
            omega
          · rintro ⟨h1, h2⟩
            obtain ⟨e, he, h3, h4⟩ := (hu y).mpr ⟨h1, by omega⟩
            rcases List.mem_cons.mp he with he | he
            · subst he
              simp only at h3
              omega
            · exact ⟨e, List.mem_filter.mpr ⟨he, by simp; omega⟩, h3, h4⟩
      have hR : Tiles (T1.filter (fun e => !decide (e.1 < x))) (x + g) (a + s - (x + g)) := by
        refine ⟨?_, hd1.filter _, ?_⟩
        · intro e he
          exact hv e (List.mem_cons_of_mem _ (List.mem_filter.mp he).1)
        · intro y
          constructor
          · rintro ⟨e, he, h1, h2⟩
            obtain ⟨he1, he2⟩ := List.mem_filter.mp he
            have he2 : ¬ e.1 < x := by simpa using he2
            have hy := (hu y).mp ⟨e, List.mem_cons_of_mem _ he1, h1, h2⟩
            have hdis := hdB e he1
            unfold DisjointErase at hdis
            simp only at hdis
            omega
          · rintro ⟨h1, h2⟩
            obtain ⟨e, he, h3, h4⟩ := (hu y).mpr ⟨by omega, by omega⟩
            rcases List.mem_cons.mp he with he | he
            · subst he
              simp only at h4
              omega
            · have hdis := hdB e he
              unfold DisjointErase at hdis
              simp only at hdis
              exact ⟨e, List.mem_filter.mpr ⟨he, by simp; omega⟩, h3, h4⟩
      simp only [List.length_cons] at hn ⊢
      have iL := ih _ a (x - a) (by omega) ha (by omega) (by omega) hL
      have iR := ih _ (x + g) (a + s - (x + g)) (by omega) (by omega) (by omega) (by omega) hR
      have s1 := ConfigEraseArea.cost_subadd ((x - a) / 4096) a (x - a) (s - (x - a)) ha
        (by omega) (by omega) (by omega) (le_refl _)
      have s2 := ConfigEraseArea.cost_subadd (g / 4096) x g (a + s - (x + g)) hx4a hx4b
        (by omega) (by omega) (le_refl _)
      have hb := ConfigEraseArea.cost_block x g hvB (by omega)
      have e1 : x - a + (s - (x - a)) = s := by omega
      have e2 : a + (x - a) = x := by omega
      have e3 : s - (x - a) = g + (a + s - (x + g)) := by omega
      rw [e1, e2, e3] at s1
      omega

theorem ConfigEraseArea.aligned_args (a s : Nat) (ha : a % 4096 = 0) (hs : s % 4096 = 0)
    (hw : a + s < 4294967296) :
    ConfigEraseArea.alignedSize a s = s ∧ a &&& NOT_4095 = a := by
  rw [ConfigEraseArea.alignedSize_eq, and_NOT_4095]
  constructor <;> omega

/-- C3. For every 4K-aligned address `a` and every size `s` that is a multiple
of 4096 with `a + s < 2^32`, on every adapter and from every state,
`ConfigEraseArea(a, s)` returns, and the erase operations it enters are no more
than the erases of any list `T` of erases `(address, size)` with size 4096,
32768 or 65536, address a multiple of the size, ranges pairwise disjoint and
union exactly `[a, a + s)`. -/
theorem C3_erase_sequence_minimal (F : Ftdi) (w : World) (a s : Nat)
    (ha : a % 4096 = 0) (hs : s % 4096 = 0) (hw : a + s < 4294967296)
    (T : List (Nat × Nat)) (hT : Tiles T a s) :
    ∃ r L, ConfigEraseArea F w a s = some r ∧ r.2.calls = w.calls ++ L ∧
      L.length ≤ T.length := by
  obtain ⟨r, L, h1, h2, _, h4, _⟩ := ConfigEraseArea_spec F w a s
  obtain ⟨e1, e2⟩ := ConfigEraseArea.aligned_args a s ha hs hw
  rw [e1, e2] at h4
  have hl := h4.length_le
  have hc := Tiles.cost_le T.length T a s (le_refl _) ha hs hw hT
  unfold ConfigEraseArea.cost at hc
  exact ⟨r, L, h1, h2, by omega⟩

/-- C3 at a concrete input: the range `[28672, 69632)` tiled by ten sector
erases. -/
theorem C3_erase_sequence_minimal_witness :
    Tiles [(28672, 4096), (32768, 4096), (36864, 4096), (40960, 4096), (45056, 4096),
        (49152, 4096), (53248, 4096), (57344, 4096), (61440, 4096), (65536, 4096)]
        28672 40960 ∧
      ∃ r L, ConfigEraseArea Ftdi.ideal World.init 28672 40960 = some r ∧
        r.2.calls = World.init.calls ++ L ∧ L.length ≤ 10 := by
  have hT : Tiles [(28672, 4096), (32768, 4096), (36864, 4096), (40960, 4096), (45056, 4096),
      (49152, 4096), (53248, 4096), (57344, 4096), (61440, 4096), (65536, 4096)]
      28672 40960 := by
    refine ⟨?_, ?_, ?_⟩
    · simp [ValidErase]
    · simp [DisjointErase]
    · intro x
      simp
      omega
  exact ⟨hT, C3_erase_sequence_minimal Ftdi.ideal World.init 28672 40960 (by decide)
    (by decide) (by decide) _ hT⟩

/-! ## The hex decoder -/

set_option maxRecDepth 100000 in
theorem hexDigit_char : ∀ b : Byte,
    (match hexDigit b with
      | none =>
        decide (¬ (97 ≤ tolower (toChar b) ∧ tolower (toChar b) ≤ 102) ∧
          ¬ (48 ≤ tolower (toChar b) ∧ tolower (toChar b) ≤ 57))
      | some v =>
        decide (v < 16) &&
        (decide (97 ≤ tolower (toChar b) ∧ tolower (toChar b) ≤ 102 ∧
            u8OfInt (tolower (toChar b) - (97 - 10)) = v) ||
          decide (¬ (97 ≤ tolower (toChar b) ∧ tolower (toChar b) ≤ 102) ∧
            (48 ≤ tolower (toChar b) ∧ tolower (toChar b) ≤ 57) ∧
            u8OfInt (tolower (toChar b) - 48) = v))) = true := by
  decide

theorem or_nibble : ∀ h v : Fin 16, (h.val * 16) ||| v.val = h.val * 16 + v.val := by
  decide

theorem shift_or_nibble (data v : Nat) (hv : v < 16) :
    u8 (u8 (data <<< 4) ||| v) = data % 16 * 16 + v := by
  have h1 : u8 (data <<< 4) = data % 16 * 16 := by
    rw [Nat.shiftLeft_eq]
    unfold u8
    omega
  have h2 := or_nibble ⟨data % 16, by omega⟩ ⟨v, hv⟩
  simp only at h2
  rw [h1, h2]
  unfold u8
  omega

/-- One turn of the loop of `HexGetBytes`, by the kind of character read. -/
theorem HexGetBytes.loop_cons (b : Byte) (rest : List Byte) (size data nibbles : Nat)
    (out : List Nat) (hs : size ≠ 0) :
    HexGetBytes.loop (b :: rest) size data nibbles out =
      match hexDigit b with
      | none => HexGetBytes.loop rest size data nibbles out
      | some v =>
        if nibbles % 2 = 1 then
          HexGetBytes.loop rest (size - 1) (data % 16 * 16 + v) (u32 (nibbles + 1))
            (out ++ [data % 16 * 16 + v])
        else HexGetBytes.loop rest size (data % 16 * 16 + v) (u32 (nibbles + 1)) out := by
  have hc := hexDigit_char b
  rw [HexGetBytes.loop]
  simp only [hs, if_false, and_one_ne_zero, decide_eq_true_eq]
  cases hd : hexDigit b with
  | none =>
    rw [hd] at hc
    simp only [decide_eq_true_eq] at hc
    simp only [hc.1, hc.2, if_false]
  | some v =>
    rw [hd] at hc
    simp only [Bool.and_eq_true, Bool.or_eq_true, decide_eq_true_eq] at hc
    obtain ⟨hv, hc | hc⟩ := hc
    · obtain ⟨h1, h2, h3⟩ := hc
      simp only [h1, h2, and_self, if_true, h3, shift_or_nibble data v hv]
    · obtain ⟨h1, h2, h3⟩ := hc
      simp only [h1, if_false, h2, and_self, if_true, h3, shift_or_nibble data v hv]

theorem hexDigit_lt (b : Byte) (v : Nat) (h : hexDigit b = some v) : v < 16 := by
  have hc := hexDigit_char b
  rw [h] at hc
  simp only [Bool.and_eq_true, decide_eq_true_eq] at hc
  exact hc.1

/-- The loop of `HexGetBytes` from any state: the bytes stored, the digit
count, and what the characters left over decode to. -/
theorem HexGetBytes_loop_spec (t : List Byte) :
    ∀ (size data nibbles : Nat) (out : List Nat), nibbles < 4294967296 →
      (HexGetBytes.loop t size data nibbles out).1 =
          out ++ (pairUp ((if nibbles % 2 = 1 then [data % 16] else []) ++ hexDigits t)).take size ∧
      (HexGetBytes.loop t size data nibbles out).2.1 =
          (nibbles + min (hexDigits t).length
            (2 * size - (if nibbles % 2 = 1 then 1 else 0))) % 4294967296 ∧
      (size ≠ 0 ∨ nibbles % 2 = 0 →
        pairUp (hexDigits (HexGetBytes.loop t size data nibbles out).2.2) =
          (pairUp ((if nibbles % 2 = 1 then [data % 16] else []) ++ hexDigits t)).drop size) := by
  induction t with
  | nil =>
    intro size data nibbles out hn
    simp only [HexGetBytes.loop, hexDigits, List.filterMap_nil, List.append_nil, List.length_nil,
      Nat.zero_min, Nat.add_zero]
    refine ⟨?_, ?_, ?_⟩
    · split_ifs <;> simp [pairUp]
    · omega
    · intro _
      split_ifs <;> simp [pairUp]
  | cons b rest ih =>
    intro size data nibbles out hn
    by_cases hs : size = 0
    · subst hs
      simp only [HexGetBytes.loop, if_true, List.take_zero, List.append_nil, List.drop_zero]
      refine ⟨trivial, ?_, ?_⟩
      · simp
        omega
      · intro h
        have h0 : nibbles % 2 = 0 := by omega
        have h1 : ¬ nibbles % 2 = 1 := by omega
        simp [h1]
    · rw [HexGetBytes.loop_cons b rest size data nibbles out hs]
      cases hd : hexDigit b with
      | none =>
        have e : hexDigits (b :: rest) = hexDigits rest := by
          simp [hexDigits, List.filterMap_cons, hd]
        simp only [e]
        exact ih size data nibbles out hn
      | some v =>
        have hv := hexDigit_lt b v hd
        have e : hexDigits (b :: rest) = v :: hexDigits rest := by
          simp [hexDigits, List.filterMap_cons, hd]
        simp only [e]
        by_cases hodd : nibbles % 2 = 1
        · simp only [hodd, if_true]
          have hn1 : u32 (nibbles + 1) < 4294967296 := by unfold u32; omega
          have hev : ¬ u32 (nibbles + 1) % 2 = 1 := by unfold u32; omega
          obtain ⟨i1, i2, i3⟩ := ih (size - 1) (data % 16 * 16 + v) (u32 (nibbles + 1))
            (out ++ [data % 16 * 16 + v]) hn1
          simp only [hev, if_false, List.nil_append] at i1 i2 i3
          obtain ⟨k, hk⟩ : ∃ k, size = k + 1 := ⟨size - 1, by omega⟩
          subst hk
          simp only [Nat.add_sub_cancel] at i1 i2 i3 ⊢
          refine ⟨?_, ?_, ?_⟩
          · rw [i1]
            simp [pairUp]
          · rw [i2]
            simp only [List.length_cons]
            unfold u32
            omega
          · intro _
            rw [i3 (Or.inr (by unfold u32; omega))]
            simp [pairUp]
        · simp only [hodd, if_false, List.nil_append]
          have hn1 : u32 (nibbles + 1) < 4294967296 := by unfold u32; omega
          have hod : u32 (nibbles + 1) % 2 = 1 := by unfold u32; omega
          obtain ⟨i1, i2, i3⟩ := ih size (data % 16 * 16 + v) (u32 (nibbles + 1)) out hn1
          have hm : (data % 16 * 16 + v) % 16 = v := by omega
          simp only [hod, if_true, hm, List.singleton_append] at i1 i2 i3
          refine ⟨i1, ?_, ?_⟩
          · rw [i2]
            simp only [List.length_cons]
            unfold u32
            omega
          · intro _
            exact i3 (Or.inl hs)

theorem pairUp_nibblesOf (B : List Nat) : pairUp (nibblesOf B) = B := by
  induction B with
  | nil => rfl
  | cons b B ih =>
    have e : nibblesOf (b :: B) = b / 16 :: b % 16 :: nibblesOf B := by
      simp [nibblesOf, List.flatMap_cons]
    rw [e, pairUp]
    have ih1 : pairUp (nibblesOf B) = B := ih
    rw [ih1]
    congr 1
    omega

theorem length_nibblesOf (B : List Nat) : (nibblesOf B).length = 2 * B.length := by
  induction B with
  | nil => rfl
  | cons b B ih =>
    have e : nibblesOf (b :: B) = b / 16 :: b % 16 :: nibblesOf B := by
      simp [nibblesOf, List.flatMap_cons]
    rw [e]
    simp only [List.length_cons]
    have ih1 : (nibblesOf B).length = 2 * B.length := ih
    omega

/-- `HexGetBytes` on any text: the count returned, the bytes stored, and what
the characters left over decode to. -/
theorem HexGetBytes_spec (t : List Byte) (size : Nat) :
    (HexGetBytes t size).1 = min (hexDigits t).length (2 * size) % 4294967296 / 2 ∧
    (HexGetBytes t size).2.1 = (pairUp (hexDigits t)).take size ∧
    pairUp (hexDigits (HexGetBytes t size).2.2) = (pairUp (hexDigits t)).drop size := by
  obtain ⟨h1, h2, h3⟩ := HexGetBytes_loop_spec t size 0 0 [] (by omega)
  simp only [Nat.zero_mod, Nat.zero_ne_one, if_false, List.nil_append, Nat.sub_zero,
    Nat.zero_add] at h1 h2 h3
  refine ⟨?_, h1, h3 (Or.inr trivial)⟩
  simp only [HexGetBytes, h2, Nat.shiftRight_eq_div_pow]

/-- Round trip of `HexGetBytes`, with the count as the `u32` digit counter
leaves it. -/
theorem HexGetBytes_of_HexText (B : List Nat) (t : List Byte) (maxBytes : Nat)
    (ht : HexText B t) (hN : B.length ≤ maxBytes) :
    (HexGetBytes t maxBytes).1 = 2 * B.length % 4294967296 / 2 ∧
    (HexGetBytes t maxBytes).2.1 = B := by
  obtain ⟨h1, h2, _⟩ := HexGetBytes_spec t maxBytes
  rw [ht.2, pairUp_nibblesOf] at h2
  rw [ht.2, length_nibblesOf] at h1
  refine ⟨?_, ?_⟩
  · rw [h1, Nat.min_eq_left (by omega)]
  · rw [h2, List.take_of_length_le hN]

theorem hexDigits_replicate_zero (n : Nat) :
    hexDigits (List.replicate n (48 : Byte)) = List.replicate n 0 := by
  induction n with
  | zero => rfl
  | succ k ih =>
    rw [List.replicate_succ, List.replicate_succ]
    have e : hexDigits ((48 : Byte) :: List.replicate k 48) =
        0 :: hexDigits (List.replicate k (48 : Byte)) := rfl
    rw [e, ih]

theorem nibblesOf_replicate_zero (m : Nat) :
    nibblesOf (List.replicate m 0) = List.replicate (2 * m) 0 := by
  induction m with
  | zero => rfl
  | succ k ih =>
    have e : nibblesOf (0 :: List.replicate k 0) = 0 :: 0 :: nibblesOf (List.replicate k 0) := rfl
    rw [List.replicate_succ, e, ih, Nat.mul_succ, List.replicate_succ, List.replicate_succ]

theorem HexText_replicate_zero (m : Nat) :
    HexText (List.replicate m 0) (List.replicate (2 * m) (48 : Byte)) := by
  refine ⟨?_, ?_⟩
  · intro c hc
    rw [List.eq_of_mem_replicate hc]
    decide
  · rw [hexDigits_replicate_zero, nibblesOf_replicate_zero]

/-- C4 as stated fails for `N = 2^31`: the text of `2^32` characters `0` writes
`2^31` zero bytes, and `HexGetBytes` with `maxBytes = 2^31` returns the count 0,
its `u32` digit counter having wrapped. -/
theorem C4_counterexample :
    HexText (List.replicate 2147483648 0) (List.replicate (2 * 2147483648) (48 : Byte)) ∧
      (List.replicate 2147483648 0).length ≤ 2147483648 ∧
      (HexGetBytes (List.replicate (2 * 2147483648) (48 : Byte)) 2147483648).1 = 0 ∧
      (List.replicate 2147483648 0).length = 2147483648 := by
  have hl : (List.replicate 2147483648 0).length = 2147483648 := List.length_replicate _ _
  have ht := HexText_replicate_zero 2147483648
  have h := (HexGetBytes_of_HexText _ _ 2147483648 ht (le_of_eq hl)).1
  rw [hl] at h
  exact ⟨ht, le_of_eq hl, h, hl⟩

/-- C4 (amended). For every byte sequence `B` of length `N < 2^31` and every
text that writes each byte of `B` as two hex digits (either case, high nibble
first) with separators tab, LF, CR, space anywhere, `HexGetBytes` with
`maxBytes ≥ N` stores exactly the bytes of `B` and returns the count `N`. -/
theorem C4_hex_round_trip (B : List Nat) (t : List Byte) (maxBytes : Nat)
    (ht : HexText B t) (hN : B.length ≤ maxBytes) (h31 : B.length < 2147483648) :
    (HexGetBytes t maxBytes).1 = B.length ∧ (HexGetBytes t maxBytes).2.1 = B := by
  obtain ⟨h1, h2⟩ := HexGetBytes_of_HexText B t maxBytes ht hN
  refine ⟨?_, h2⟩
  rw [h1]
  omega

set_option maxRecDepth 100000 in
/-- C4 at a concrete input: the text `0a 1B`, LF, tab, `f`, CR, `F` for the
bytes `0a 1b ff`. -/
theorem C4_hex_round_trip_witness :
    HexText [0x0a, 0x1b, 0xff] [48, 97, 32, 49, 66, 10, 9, 102, 13, 70] ∧
      (HexGetBytes [48, 97, 32, 49, 66, 10, 9, 102, 13, 70] 3).1 = 3 ∧
      (HexGetBytes [48, 97, 32, 49, 66, 10, 9, 102, 13, 70] 3).2.1 = [0x0a, 0x1b, 0xff] :=
  have ht : HexText [0x0a, 0x1b, 0xff] [48, 97, 32, 49, 66, 10, 9, 102, 13, 70] :=
    ⟨by decide, by decide⟩
  ⟨ht, C4_hex_round_trip [0x0a, 0x1b, 0xff] [48, 97, 32, 49, 66, 10, 9, 102, 13, 70] 3 ht
    (by decide) (by decide)⟩

set_option maxRecDepth 100000 in
theorem isAccepted_char : ∀ b : Byte,
    (decide ((97 ≤ tolower (toChar b) ∧ tolower (toChar b) ≤ 102) ∨
        (48 ≤ tolower (toChar b) ∧ tolower (toChar b) ≤ 57)) == (hexDigit b).isSome) &&
    (decide (tolower (toChar b) ≠ 9 ∧ tolower (toChar b) ≠ 32 ∧ tolower (toChar b) ≠ 10 ∧
        tolower (toChar b) ≠ 13 ∧ tolower (toChar b) ≠ 0) ==
      !(isSeparator b || b.val == 0)) = true := by
  decide

theorem s32_range (x : Int) : -2147483648 ≤ s32 x ∧ s32 x < 2147483648 := by
  unfold s32
  omega

theorem s32_s32_add (x : Int) (k : Nat) : s32 (s32 (x + 1) + k) = s32 (x + (k + 1 : Nat)) := by
  unfold s32
  push_cast
  omega

theorem s32_id (x : Int) (h1 : -2147483648 ≤ x) (h2 : x < 2147483648) : s32 x = x := by
  unfold s32
  omega

/-- The loop of `HexGetSize` from any count: `-1` as soon as a character is not
accepted, else the count of hex digits added in `s32`. -/
theorem HexGetSize_loop_spec (s : List Byte) :
    ∀ n : Int, -2147483648 ≤ n → n < 2147483648 →
      HexGetSize.loop s n =
        if s.all isAccepted then s32 (n + (hexDigits s).length) else -1 := by
  induction s with
  | nil =>
    intro n h1 h2
    simp [HexGetSize.loop, hexDigits, s32_id n h1 h2]
  | cons b rest ih =>
    intro n hn1 hn2
    have hc := isAccepted_char b
    simp only [Bool.and_eq_true, beq_iff_eq] at hc
    obtain ⟨hc1, hc2⟩ := hc
    rw [HexGetSize.loop]
    cases hd : hexDigit b with
    | some v =>
      rw [hd] at hc1
      simp only [Option.isSome_some, decide_eq_true_eq] at hc1
      have e : hexDigits (b :: rest) = v :: hexDigits rest := by
        simp [hexDigits, List.filterMap_cons, hd]
      have ea : isAccepted b = true := by simp [isAccepted, hd]
      rw [if_pos hc1, ih _ (s32_range _).1 (s32_range _).2, e]
      simp only [List.all_cons, ea, Bool.true_and, List.length_cons, s32_s32_add]
    | none =>
      rw [hd] at hc1
      simp only [Option.isSome_none, decide_eq_false_iff_not] at hc1
      have e : hexDigits (b :: rest) = hexDigits rest := by
        simp [hexDigits, List.filterMap_cons, hd]
      rw [if_neg hc1, e]
      by_cases hsep : (isSeparator b || b.val == 0) = true
      · have ea : isAccepted b = true := by
          simp only [isAccepted, hd, Option.isSome_none, Bool.false_or]
          exact hsep
        rw [hsep] at hc2
        simp only [Bool.not_true, decide_eq_false_iff_not, decide_eq_true_eq] at hc2
        rw [if_neg hc2, ih n hn1 hn2]
        simp only [List.all_cons, ea, Bool.true_and]
      · have ea : isAccepted b = false := by
          simp only [isAccepted, hd, Option.isSome_none, Bool.false_or]
          simpa using hsep
        have hsep2 : (isSeparator b || b.val == 0) = false := by simpa using hsep
        rw [hsep2] at hc2
        simp only [Bool.not_false, decide_eq_true_eq] at hc2
        rw [if_pos hc2]
        simp only [List.all_cons, ea, Bool.false_and, Bool.false_eq_true, if_false]

theorem all_isAccepted_replicate (n : Nat) :
    (List.replicate n (48 : Byte)).all isAccepted = true := by
  rw [List.all_eq_true]
  intro c hc
  rw [List.eq_of_mem_replicate hc]
  decide

/-- C5 as stated fails: a stream of `2^31` characters `0` holds hex digits only,
and `HexGetSize` returns a negative value for it, its `s32` counter having
wrapped. -/
theorem C5_counterexample :
    (∀ c ∈ List.replicate 2147483648 (48 : Byte), isAccepted c = true) ∧
      HexGetSize (some (List.replicate 2147483648 (48 : Byte))) < 0 := by
  have ha := all_isAccepted_replicate 2147483648
  refine ⟨List.all_eq_true.mp ha, ?_⟩
  have hl : (hexDigits (List.replicate 2147483648 (48 : Byte))).length = 2147483648 := by
    rw [hexDigits_replicate_zero, List.length_replicate]
  have h : HexGetSize (some (List.replicate 2147483648 (48 : Byte))) = -1073741824 := by
    unfold HexGetSize
    simp only []
    rw [HexGetSize_loop_spec _ 0 (by decide) (by decide), ha, hl]
    rfl
  rw [h]
  decide

/-- C5 (amended). For every character stream that holds, at any position, a
character other than a hex digit, tab, LF, CR, space or NUL, `HexGetSize`
returns `-1`; and for every stream made only of those characters with fewer than
`2^31` hex digits it returns half the number of hex digits, rounded down, which
is not negative. -/
theorem C5_hex_get_size (s : List Byte) :
    ((∃ c ∈ s, isAccepted c = false) → HexGetSize (some s) = -1) ∧
    ((∀ c ∈ s, isAccepted c = true) → (hexDigits s).length < 2147483648 →
      HexGetSize (some s) = (((hexDigits s).length / 2 : Nat) : Int) ∧
        0 ≤ HexGetSize (some s)) := by
  have hspec := HexGetSize_loop_spec s 0 (by decide) (by decide)
  refine ⟨?_, ?_⟩
  · rintro ⟨c, hc, hbad⟩
    have hall : s.all isAccepted = false := by
      rw [List.all_eq_false]
      exact ⟨c, hc, by simp [hbad]⟩
    unfold HexGetSize
    simp only []
    rw [hspec, hall]
    rfl
  · intro hall hlen
    have hall1 : s.all isAccepted = true := List.all_eq_true.mpr hall
    have hv : HexGetSize (some s) = (((hexDigits s).length / 2 : Nat) : Int) := by
      unfold HexGetSize
      simp only []
      rw [hspec, hall1, Int.shiftRight_eq_div_pow]
      simp only [if_true]
      unfold s32
      push_cast
      omega
    exact ⟨hv, by rw [hv]; exact Int.natCast_nonneg _⟩

set_option maxRecDepth 100000 in
/-- C5 at concrete inputs: a stream with the character `g` in the middle, and a
stream of five hex digits with separators and a NUL. -/
theorem C5_hex_get_size_witness :
    HexGetSize (some [48, 97, 103, 49]) = -1 ∧
      HexGetSize (some [48, 97, 32, 49, 66, 10, 0, 102]) = 2 :=
  ⟨(C5_hex_get_size [48, 97, 103, 49]).1 ⟨103, by decide, by decide⟩,
   ((C5_hex_get_size [48, 97, 32, 49, 66, 10, 0, 102]).2 (by decide) (by decide)).1⟩

/-! ## The programming engine on a corrupt image -/

/-- C6. For every hex source for which `HexGetSize` returns a negative value,
every adapter, state, write address and mode, `ConfigProgramHex` returns having
made no request to the byte channel (no write, no read), entered no flash
operation and left `gGPIO` unchanged; it only prints the corrupt-file message. -/
theorem C6_corrupt_image_no_device_action (F : Ftdi) (w : World) (file : Option (List Byte))
    (writeAddr mode : Nat) (h : HexGetSize file < 0) :
    ∃ w1, ConfigProgramHex F w file writeAddr mode = some w1 ∧
      w1.chan = w.chan ∧ w1.gGPIO = w.gGPIO ∧ w1.calls = w.calls ∧
      w1.out = w.out ++ [Msg.corrupt] := by
  refine ⟨w.print Msg.corrupt, ?_, rfl, rfl, rfl, rfl⟩
  unfold ConfigProgramHex
  simp only [h, if_true]

set_option maxRecDepth 100000 in
/-- C6 at a concrete input: the source `0g`, all three passes asked for. -/
theorem C6_corrupt_image_no_device_action_witness :
    HexGetSize (some [48, 103]) < 0 ∧
      ∃ w1, ConfigProgramHex Ftdi.ideal World.init (some [48, 103]) 0 7 = some w1 ∧
        w1.chan = World.init.chan ∧ w1.gGPIO = World.init.gGPIO ∧
        w1.calls = World.init.calls ∧ w1.out = World.init.out ++ [Msg.corrupt] :=
  ⟨by decide, C6_corrupt_image_no_device_action Ftdi.ideal World.init (some [48, 103]) 0 7
    (by decide)⟩

/-! ## Status polling -/

set_option maxRecDepth 100000 in
/-- C7 (fails on the code). On an adapter where every transfer completes and the
flash reports busy on the first 19 status reads and ready on the 20th,
`ConfigPollStatusComplete` makes 20 status reads, the 20th of which returns a
status byte with the busy bit clear, and returns false.  With ready on the 19th
read it returns true. -/
theorem C7_poll_fails_when_ready_at_read_20 :
    (ConfigPollStatusComplete (Ftdi.withStatus fun i => if i < 19 then 1 else 0) World.init).1
        = false ∧
      (ConfigPollStatusComplete (Ftdi.withStatus fun i => if i < 19 then 1 else 0)
          World.init).2.chan
        = pollRequests (Ftdi.withStatus fun i => if i < 19 then 1 else 0) World.init.gGPIO 20 ∧
      (Ftdi.withStatus fun i => if i < 19 then 1 else 0).read_data
          ((pollRequests (Ftdi.withStatus fun i => if i < 19 then 1 else 0)
            World.init.gGPIO 20).take 62) 1 = (1, [0]) ∧
      (ConfigPollStatusComplete (Ftdi.withStatus fun i => if i < 18 then 1 else 0) World.init).1
        = true := by
  decide

/-! ## Runs on an adapter where every write completes -/

theorem eqU32_length (n : Nat) : eqU32 (n : Int) n = true := by
  unfold eqU32 u32OfInt u32
  simp only [beq_iff_eq]
  omega

theorem ftdi_write_data_ok (F : Ftdi) (hw : ∀ h buf, F.write_data h buf = (buf.length : Int))
    (w : World) (buf : List Nat) :
    ftdi_write_data F w buf = ((buf.length : Int), { w with chan := w.chan ++ [Ev.write buf] }) := by
  simp [ftdi_write_data, hw]

theorem ConfigControl_ok (F : Ftdi) (hw : ∀ h buf, F.write_data h buf = (buf.length : Int))
    (w : World) (nBits : Nat) :
    ConfigControl F w nBits =
      (true, { w with chan := w.chan ++ [Ev.write [u8 F.SET_BITS_LOW, nBits, PIN_OUTPUTS]] }) := by
  simp only [ConfigControl, ftdi_write_data_ok F hw]
  rfl

theorem ConfigChipSelect_ok (F : Ftdi) (hw : ∀ h buf, F.write_data h buf = (buf.length : Int))
    (w : World) (bSelect : Bool) :
    ConfigChipSelect F w bSelect =
      (true,
        { w with
          gGPIO := if bSelect then w.gGPIO &&& (0xff ^^^ CA_SS_N) else u8 (w.gGPIO ||| CA_SS_N)
          chan := w.chan ++ [Ev.write [u8 F.SET_BITS_LOW,
            if bSelect then w.gGPIO &&& (0xff ^^^ CA_SS_N) else u8 (w.gGPIO ||| CA_SS_N),
            PIN_OUTPUTS]] }) := by
  simp only [ConfigChipSelect, ConfigControl_ok F hw]

/-- A shift of one fill byte, with or without read-back, when the writes
complete and the read (if any) returns one byte. -/
theorem ConfigWriteSPI_fill_one (F : Ftdi)
    (hw : ∀ h buf, F.write_data h buf = (buf.length : Int)) (w : World) (v : Nat)
    (pInData : Bool)
    (hr : pInData = true → ∀ h, (F.read_data h 1).1 = 1) :
    ConfigWriteSPI F w (OutData.imm v) 1 pInData =
      (true,
        if pInData then (F.read_data (w.chan ++
            [Ev.write [u8 (F.MPSSE_DO_WRITE ||| F.MPSSE_WRITE_NEG |||
                (if pInData then F.MPSSE_DO_READ else 0)), 0, 0],
              Ev.write [u8 v]]) 1).2
        else [],
        { w with
          chan := w.chan ++
            [Ev.write [u8 (F.MPSSE_DO_WRITE ||| F.MPSSE_WRITE_NEG |||
                (if pInData then F.MPSSE_DO_READ else 0)), 0, 0],
              Ev.write [u8 v]] ++ (if pInData then [Ev.read 1] else []) }) := by
  have e1 : u8OfInt (((1 : Nat) : Int) - 1) = 0 := by decide
  have e2 : u8OfInt ((((1 : Nat) : Int) - 1) >>> (8 : Nat)) = 0 := by decide
  have e3 : u32 1 = 1 := by decide
  have e4 : eqU32 3 3 = true := by decide
  cases pInData with
  | false =>
    simp only [ConfigWriteSPI, ftdi_write_data_ok F hw, e1, e2, e3, ConfigWriteSPI.fill]
    simp [e4, eqInt]
  | true =>
    have hr1 := hr rfl
    simp only [ConfigWriteSPI, ftdi_write_data_ok F hw, e1, e2, e3, ConfigWriteSPI.fill,
      ftdi_read_data]
    simp [e4, eqInt, hr1]

theorem u8_and_one (x : Nat) : ((u8 x &&& STATUS_IN_PROGRESS) != 0) = decide (x % 2 = 1) := by
  unfold STATUS_IN_PROGRESS
  rw [and_one_ne_zero]
  unfold u8
  congr 1
  apply propext
  omega

/-- The poll loop when every transfer completes and every status byte has the
busy bit set: it reads the status `timeout` times and leaves with the counter
at 0. -/
theorem ConfigPollStatusComplete.loop_busy (F : Ftdi)
    (hw : ∀ h buf, F.write_data h buf = (buf.length : Int))
    (hr : ∀ h, (F.read_data h 1).1 = 1 ∧ (F.read_data h 1).2.headD 0 % 2 = 1) (t : Nat) :
    ∀ w : World, ConfigPollStatusComplete.loop F (t + 1) w =
      (true, 0,
        { w with
          chan := w.chan ++ (List.replicate (t + 1)
            [Ev.write [u8 (F.MPSSE_DO_WRITE ||| F.MPSSE_WRITE_NEG ||| F.MPSSE_DO_READ), 0, 0],
             Ev.write [0], Ev.read 1]).flatten }) := by
  have hr2 : ∀ h, (F.read_data h 1).2.head?.getD 0 % 2 = 1 := by
    intro h
    simpa using (hr h).2
  induction t with
  | zero =>
    intro w
    rw [ConfigPollStatusComplete.loop]
    simp only [ConfigWriteSPI_fill_one F hw w 0 true (fun _ h => (hr h).1)]
    simp [u8]
  | succ k ih =>
    intro w
    rw [ConfigPollStatusComplete.loop]
    simp only [ConfigWriteSPI_fill_one F hw w 0 true (fun _ h => (hr h).1), u8_and_one]
    simp only [if_true, List.headD_eq_head?_getD, hr2, bne_iff_ne, ne_eq, Nat.add_one_ne_zero,
      not_false_eq_true, decide_True, Bool.and_self]
    rw [ih]
    simp [u8, List.replicate_succ]

/-- The poll loop when every transfer completes and the first status byte has
the busy bit clear: one status read. -/
theorem ConfigPollStatusComplete.loop_ready (F : Ftdi)
    (hw : ∀ h buf, F.write_data h buf = (buf.length : Int))
    (hr : ∀ h, (F.read_data h 1).1 = 1 ∧ (F.read_data h 1).2.headD 0 % 2 = 0) (t : Nat)
    (w : World) :
    ConfigPollStatusComplete.loop F (t + 1) w =
      (true, t,
        { w with
          chan := w.chan ++
            [Ev.write [u8 (F.MPSSE_DO_WRITE ||| F.MPSSE_WRITE_NEG ||| F.MPSSE_DO_READ), 0, 0],
             Ev.write [0], Ev.read 1] }) := by
  have hr2 : ∀ h, (F.read_data h 1).2.head?.getD 0 % 2 = 0 := by
    intro h
    simpa using (hr h).2
  rw [ConfigPollStatusComplete.loop]
  simp only [ConfigWriteSPI_fill_one F hw w 0 true (fun _ h => (hr h).1), u8_and_one]
  simp [u8, hr2]

/-- `ConfigPollStatusComplete` when every transfer completes and the flash is
busy at every status read. -/
theorem ConfigPollStatusComplete_busy (F : Ftdi)
    (hw : ∀ h buf, F.write_data h buf = (buf.length : Int))
    (hr : ∀ h, (F.read_data h 1).1 = 1 ∧ (F.read_data h 1).2.headD 0 % 2 = 1) (w : World) :
    ConfigPollStatusComplete F w =
      (false,
        { w with
          gGPIO := u8 ((w.gGPIO &&& (0xff ^^^ CA_SS_N)) ||| CA_SS_N)
          chan := w.chan ++ pollRequests F w.gGPIO 20 }) := by
  simp only [ConfigPollStatusComplete, ConfigChipSelect_ok F hw,
    ConfigWriteSPI_fill_one F hw _ CMD_READ_STATUS_REGISTER1 false (fun h => by simp at h),
    ConfigPollStatusComplete.loop_busy F hw hr 19]
  simp [pollRequests, u8, CMD_READ_STATUS_REGISTER1]

/-- `ConfigPollStatusComplete` when every transfer completes and the flash is
ready at every status read. -/
theorem ConfigPollStatusComplete_ready (F : Ftdi)
    (hw : ∀ h buf, F.write_data h buf = (buf.length : Int))
    (hr : ∀ h, (F.read_data h 1).1 = 1 ∧ (F.read_data h 1).2.headD 0 % 2 = 0) (w : World) :
    ConfigPollStatusComplete F w =
      (true,
        { w with
          gGPIO := u8 ((w.gGPIO &&& (0xff ^^^ CA_SS_N)) ||| CA_SS_N)
          chan := w.chan ++ pollRequests F w.gGPIO 1 }) := by
  simp only [ConfigPollStatusComplete, ConfigChipSelect_ok F hw,
    ConfigWriteSPI_fill_one F hw _ CMD_READ_STATUS_REGISTER1 false (fun h => by simp at h),
    ConfigPollStatusComplete.loop_ready F hw hr 19]
  simp [pollRequests, u8, CMD_READ_STATUS_REGISTER1]

theorem count_flatten_replicate (x : Ev) (B : List Ev) (n : Nat) :
    ((List.replicate n B).flatten).count x = n * B.count x := by
  induction n with
  | zero => simp
  | succ k ih =>
    rw [List.replicate_succ, List.flatten_cons, List.count_append, ih]
    ring

theorem filter_flatten_replicate (p : Ev → Bool) (B : List Ev) (n : Nat) :
    ((List.replicate n B).flatten).filter p = (List.replicate n (B.filter p)).flatten := by
  induction n with
  | zero => simp
  | succ k ih =>
    rw [List.replicate_succ, List.flatten_cons, List.filter_append, ih, List.replicate_succ,
      List.flatten_cons]

theorem flatten_replicate_singleton (x : Ev) (n : Nat) :
    (List.replicate n [x]).flatten = List.replicate n x := by
  induction n with
  | zero => simp
  | succ k ih =>
    rw [List.replicate_succ, List.flatten_cons, ih, List.replicate_succ]
    rfl

theorem pollRequests_counts (F : Ftdi) (g n : Nat) :
    (pollRequests F g n).count (Ev.write [CMD_READ_STATUS_REGISTER1]) = 1 ∧
    (pollRequests F g n).filter Ev.isRead = List.replicate n (Ev.read 1) := by
  constructor
  · simp only [pollRequests, List.count_append, count_flatten_replicate]
    simp [List.count_cons, CMD_READ_STATUS_REGISTER1]
  · simp only [pollRequests, List.filter_append, filter_flatten_replicate]
    have e : List.filter Ev.isRead
        [Ev.write [u8 (F.MPSSE_DO_WRITE ||| F.MPSSE_WRITE_NEG ||| F.MPSSE_DO_READ), 0, 0],
          Ev.write [0], Ev.read 1] = [Ev.read 1] := rfl
    rw [e, flatten_replicate_singleton]
    simp [List.filter_cons, Ev.isRead]

/-- C8. When every transfer completes and every status byte read has the busy
bit set, `ConfigPollStatusComplete` writes the status-read opcode once, makes
exactly 20 reads, each of one byte, and returns false; and `ConfigEraseSector`,
`ConfigEraseBlock32`, `ConfigEraseBlock64`, `ConfigEraseAll` and
`ConfigWritePage` each return false. -/
theorem C8_stuck_busy_fails (F : Ftdi)
    (hw : ∀ h buf, F.write_data h buf = (buf.length : Int))
    (hr : ∀ h, (F.read_data h 1).1 = 1 ∧ (F.read_data h 1).2.headD 0 % 2 = 1)
    (w : World) (addr : Nat) (pData : List Nat) (nSize : Nat) :
    (ConfigPollStatusComplete F w).1 = false ∧
    (ConfigPollStatusComplete F w).2.chan = w.chan ++ pollRequests F w.gGPIO 20 ∧
    (pollRequests F w.gGPIO 20).count (Ev.write [CMD_READ_STATUS_REGISTER1]) = 1 ∧
    (pollRequests F w.gGPIO 20).filter Ev.isRead = List.replicate 20 (Ev.read 1) ∧
    (ConfigEraseSector F w addr).1 = false ∧
    (ConfigEraseBlock32 F w addr).1 = false ∧
    (ConfigEraseBlock64 F w addr).1 = false ∧
    (ConfigEraseAll F w).1 = false ∧
    (ConfigWritePage F w addr pData nSize).1 = false := by
  have hp : ∀ w1, (ConfigPollStatusComplete F w1).1 = false := fun w1 => by
    rw [ConfigPollStatusComplete_busy F hw hr w1]
  refine ⟨hp w, ?_, (pollRequests_counts F w.gGPIO 20).1, (pollRequests_counts F w.gGPIO 20).2,
    ?_, ?_, ?_, ?_, ?_⟩
  · rw [ConfigPollStatusComplete_busy F hw hr w]
  · simp only [ConfigEraseSector]
    split_ifs <;> simp [hp]
  · simp only [ConfigEraseBlock32]
    split_ifs <;> simp [hp]
  · simp only [ConfigEraseBlock64]
    split_ifs <;> simp [hp]
  · simp only [ConfigEraseAll]
    split_ifs <;> simp [hp]
  · simp only [ConfigWritePage]
    split_ifs <;> simp [hp]

/-- C8 at a concrete input: the adapter whose every status byte is 1. -/
theorem C8_stuck_busy_fails_witness :
    (ConfigPollStatusComplete (Ftdi.withStatus fun _ => 1) World.init).1 = false ∧
    (ConfigPollStatusComplete (Ftdi.withStatus fun _ => 1) World.init).2.chan =
      World.init.chan ++ pollRequests (Ftdi.withStatus fun _ => 1) World.init.gGPIO 20 ∧
    (ConfigEraseSector (Ftdi.withStatus fun _ => 1) World.init 4096).1 = false ∧
    (ConfigWritePage (Ftdi.withStatus fun _ => 1) World.init 4096 [1, 2, 3] 3).1 = false :=
  have h := C8_stuck_busy_fails (Ftdi.withStatus fun _ => 1) (fun _ _ => rfl)
    (fun _ => ⟨rfl, rfl⟩) World.init 4096 [1, 2, 3] 3
  ⟨h.1, h.2.1, h.2.2.2.2.1, h.2.2.2.2.2.2.2.2⟩

/-! ## Flash operations on an adapter where every transfer completes -/

theorem ConfigWriteCommand_ok (F : Ftdi) (hw : ∀ h buf, F.write_data h buf = (buf.length : Int))
    (w : World) (cmd : Nat) :
    ConfigWriteCommand F w cmd =
      (true, { w with chan := w.chan ++ [Ev.write (ConfigWriteCommand.frame F w.gGPIO cmd)] }) := by
  simp only [ConfigWriteCommand, ftdi_write_data_ok F hw]
  rfl

theorem ConfigWriteCommandWithAddrAndData.frame_length (F : Ftdi) (g cmd addr : Nat)
    (bufOut : OutData) (bufIn : Bool) (size : Nat)
    (hlen : ∀ data, bufOut = OutData.ptr data → size ≤ data.length) :
    (ConfigWriteCommandWithAddrAndData.frame F g cmd addr bufOut bufIn size).length =
      14 + (if size > 0 then size + 3 else 0) := by
  unfold ConfigWriteCommandWithAddrAndData.frame
  by_cases hs : size = 0
  · subst hs
    simp
  · have hp : size > 0 := Nat.pos_of_ne_zero hs
    cases bufOut with
    | ptr data =>
      have := hlen data rfl
      simp [hs, hp, List.length_take, Nat.min_eq_left this]
      omega
    | imm v =>
      simp [hs, hp]
      omega

/-- `ConfigWriteCommandWithAddrAndData` when the write completes and the read,
if any, returns the count asked. -/
theorem ConfigWriteCommandWithAddrAndData_ok (F : Ftdi)
    (hw : ∀ h buf, F.write_data h buf = (buf.length : Int))
    (hr : ∀ h n, (F.read_data h n).1 = (n : Int))
    (w : World) (cmd addr : Nat) (bufOut : OutData) (bufIn : Bool) (size : Nat)
    (hsize : size + 17 < 4294967296)
    (hlen : ∀ data, bufOut = OutData.ptr data → size ≤ data.length) :
    ConfigWriteCommandWithAddrAndData F w cmd addr bufOut bufIn size =
      (true,
        if bufIn then (F.read_data (w.chan ++ [Ev.write
          (ConfigWriteCommandWithAddrAndData.frame F w.gGPIO cmd addr bufOut bufIn size)]) size).2
        else [],
        { w with
          chan := w.chan ++ [Ev.write
            (ConfigWriteCommandWithAddrAndData.frame F w.gGPIO cmd addr bufOut bufIn size)] ++
            (if bufIn then [Ev.read size] else []) }) := by
  have hl := ConfigWriteCommandWithAddrAndData.frame_length F w.gGPIO cmd addr bufOut bufIn size hlen
  have hb : u32 (14 + (if size > 0 then u32 (size + 3) else 0)) =
      14 + (if size > 0 then size + 3 else 0) := by
    unfold u32
    split_ifs <;> omega
  have he : eqU32 ((14 + (if size > 0 then size + 3 else 0) : Nat) : Int)
      (14 + (if size > 0 then size + 3 else 0)) = true := eqU32_length _
  cases bufIn with
  | false =>
    simp only [ConfigWriteCommandWithAddrAndData, ftdi_write_data_ok F hw, hl, hb, he]
    simp
  | true =>
    simp only [ConfigWriteCommandWithAddrAndData, ftdi_write_data_ok F hw, hl, hb, he,
      ftdi_read_data, hr]
    simp [eqU32_length]

theorem ConfigWritePage_calls (F : Ftdi) (w : World) (a : Nat) (d : List Nat) (n : Nat) :
    (ConfigWritePage F w a d n).2.calls = w.calls ++ [FlashOp.writePage a d n] := by
  simp only [ConfigWritePage]
  split_ifs <;> simp

theorem ConfigReadBytes_calls (F : Ftdi) (w : World) (a n : Nat) :
    (ConfigReadBytes F w a n).2.2.calls = w.calls ++ [FlashOp.readBytes a n] := by
  simp [ConfigReadBytes]

/-- `ConfigWritePage` returns true when every transfer completes and the flash
is ready at every status read. -/
theorem ConfigWritePage_ok (F : Ftdi)
    (hw : ∀ h buf, F.write_data h buf = (buf.length : Int))
    (hr : ∀ h n, (F.read_data h n).1 = (n : Int))
    (hst : ∀ h, (F.read_data h 1).2.headD 0 % 2 = 0)
    (w : World) (a : Nat) (d : List Nat) (n : Nat) (hn : n ≤ 256) (hd : n ≤ d.length) :
    (ConfigWritePage F w a d n).1 = true := by
  have hn2 : ¬ n > 256 := by omega
  simp only [ConfigWritePage, hn2, if_false, ConfigWriteEnable, ConfigWriteCommand_ok F hw,
    if_true]
  rw [ConfigWriteCommandWithAddrAndData_ok F hw hr _ _ _ _ _ _ (by omega)
    (fun data h => by cases h; exact hd)]
  simp only [if_true]
  rw [ConfigPollStatusComplete_ready F hw (fun h => ⟨by simpa using hr h 1, hst h⟩)]

/-- An erase operation returns true when every transfer completes and the
flash is ready at every status read. -/
theorem ConfigEraseSector_ok (F : Ftdi)
    (hw : ∀ h buf, F.write_data h buf = (buf.length : Int))
    (hr : ∀ h n, (F.read_data h n).1 = (n : Int))
    (hst : ∀ h, (F.read_data h 1).2.headD 0 % 2 = 0)
    (w : World) (a : Nat) :
    (ConfigEraseSector F w a).1 = true := by
  simp only [ConfigEraseSector, ConfigWriteEnable, ConfigWriteCommand_ok F hw, if_true]
  rw [ConfigWriteCommandWithAddrAndData_ok F hw hr _ _ _ _ _ _ (by omega)
    (fun data h => by cases h)]
  simp only [if_true]
  rw [ConfigPollStatusComplete_ready F hw (fun h => ⟨by simpa using hr h 1, hst h⟩)]

/-- `ConfigReadBytes` returns true with the bytes the adapter delivers when
every transfer completes. -/
theorem ConfigReadBytes_ok (F : Ftdi)
    (hw : ∀ h buf, F.write_data h buf = (buf.length : Int))
    (hr : ∀ h n, (F.read_data h n).1 = (n : Int))
    (w : World) (a n : Nat) (hn : n + 17 < 4294967296) :
    (ConfigReadBytes F w a n).1 = true ∧
    (ConfigReadBytes F w a n).2.1 =
      (F.read_data (w.chan ++ [Ev.write (ConfigWriteCommandWithAddrAndData.frame F w.gGPIO
        CMD_READ_BYTES a (OutData.imm 0) true n)]) n).2 := by
  unfold ConfigReadBytes
  rw [ConfigWriteCommandWithAddrAndData_ok F hw hr _ _ _ _ _ _ hn (fun data h => by cases h)]
  exact ⟨rfl, rfl⟩

theorem length_pairUp : ∀ (k : Nat) (l : List Nat), l.length ≤ k →
    (pairUp l).length = l.length / 2 := by
  intro k
  induction k using Nat.strong_induction_on with
  | _ k ih =>
    intro l hl
    match l with
    | [] => simp [pairUp]
    | [_] => simp [pairUp]
    | h :: m :: r =>
      simp only [pairUp, List.length_cons] at hl ⊢
      rw [ih (k - 2) (by omega) r (by omega)]
      omega

theorem u32OfInt_natCast (n : Nat) (h : n < 4294967296) : u32OfInt (n : Int) = n := by
  unfold u32OfInt
  omega

/-! ## Paging of a pass -/

/-- One call of `HexGetBytes` for a page, when the characters left decode to
the image from offset `off`. -/
theorem HexGetBytes_page (f : List Byte) (image : List Nat) (off : Nat)
    (hf : pairUp (hexDigits f) = image.drop off) :
    (HexGetBytes f 256).1 = min 256 (image.length - off) ∧
    (HexGetBytes f 256).2.1 = (image.drop off).take 256 ∧
    pairUp (hexDigits (HexGetBytes f 256).2.2) = image.drop (off + 256) := by
  obtain ⟨h1, h2, h3⟩ := HexGetBytes_spec f 256
  have hl := length_pairUp _ (hexDigits f) (le_refl _)
  rw [hf, List.length_drop] at hl
  refine ⟨?_, ?_, ?_⟩
  · rw [h1]
    omega
  · rw [h2, hf]
  · rw [h3, hf, List.drop_drop]

/-- The loop of a pass when no page operation fails: it ends with `totalOut`
equal to the image size, and enters one page operation per 256 bytes. -/
theorem ConfigProgramHex.pages_run (F : Ftdi) (n A : Nat) (image : List Nat)
    (hN : image.length < 4294967296) (op : Nat → FlashOp)
    (hop : ∀ w off, off % 256 = 0 → off < image.length →
      (ConfigProgramHex.page F n w (u32 (A + off)) ((image.drop off).take 256)
        (min 256 (image.length - off))).1 = true ∧
      (ConfigProgramHex.page F n w (u32 (A + off)) ((image.drop off).take 256)
        (min 256 (image.length - off))).2.calls = w.calls ++ [op off] ∧
      (ConfigProgramHex.page F n w (u32 (A + off)) ((image.drop off).take 256)
        (min 256 (image.length - off))).2.out = w.out)
    (m : Nat) :
    ∀ (fuel : Nat) (w : World) (f : List Byte) (off : Nat) (percent : Int),
      pairUp (hexDigits f) = image.drop off → (off % 256 = 0 ∨ off = image.length) →
      off ≤ image.length → (image.length - off + 255) / 256 = m → m ≤ fuel →
      ∃ w1, ConfigProgramHex.pages F n (image.length : Int) fuel w f (u32 (A + off)) off percent
          = some (image.length, w1) ∧
        w1.calls = w.calls ++ (List.range m).map (fun j => op (off + 256 * j)) ∧
        ∃ msgs, w1.out = w.out ++ msgs ∧ ∀ x ∈ msgs, x.isPercent = true := by
  induction m with
  | zero =>
    intro fuel w f off percent _ _ hle hm _
    have hoff : off = image.length := by omega
    refine ⟨w, ?_, by simp, [], by simp, by simp⟩
    unfold ConfigProgramHex.pages
    rw [u32OfInt_natCast _ hN, hoff]
    simp
  | succ k ih =>
    intro fuel w f off percent hf hal hle hm hfuel
    have hlt : off < image.length := by omega
    have hal1 : off % 256 = 0 := by omega
    obtain ⟨fuel1, hfu⟩ : ∃ fuel1, fuel = fuel1 + 1 := ⟨fuel - 1, by omega⟩
    subst hfu
    obtain ⟨g1, g2, g3⟩ := HexGetBytes_page f image off hf
    obtain ⟨p1, p2, p3⟩ := hop w off hal1 hlt
    rw [ConfigProgramHex.pages]
    simp only [u32OfInt_natCast _ hN, hlt, if_true, g1, g2, p1, Bool.not_true,
      Bool.false_eq_true, if_false]
    have haddr : u32 (u32 (A + off) + min 256 (image.length - off)) =
        u32 (A + (off + min 256 (image.length - off))) := by
      unfold u32; omega
    have htot : u32 (off + min 256 (image.length - off)) =
        off + min 256 (image.length - off) := by
      unfold u32; omega
    rw [haddr, htot]
    have hf1 : pairUp (hexDigits (HexGetBytes f 256).2.2) =
        image.drop (off + min 256 (image.length - off)) := by
      rw [g3]
      by_cases hlast : image.length - off ≤ 256
      · rw [List.drop_eq_nil_of_le (by omega), List.drop_eq_nil_of_le (by omega)]
      · congr 1
        omega
    obtain ⟨w1, q1, q2, msgs, q3, q4⟩ := ih fuel1 _ (HexGetBytes f 256).2.2
      (off + min 256 (image.length - off)) _ hf1 (by omega) (by omega) (by omega) (by omega)
    refine ⟨w1, q1, ?_, ?_⟩
    swap
    · by_cases hpc : s32 ((u32 (off * 100) / image.length : Nat) : Int) ≠ percent
      · refine ⟨Msg.percent (s32 ((u32 (off * 100) / image.length : Nat) : Int)) :: msgs, ?_, ?_⟩
        · rw [q3, if_pos hpc, World.print_out, p3]
          simp
        · intro x hx
          rcases List.mem_cons.mp hx with hx | hx
          · subst hx; rfl
          · exact q4 x hx
      · exact ⟨msgs, by rw [q3, if_neg hpc, p3], q4⟩
    rw [q2]
    have hc : ∀ w2 : World, (if s32 ((u32 (off * 100) / image.length : Nat) : Int) ≠ percent
        then w2.print (Msg.percent (s32 ((u32 (off * 100) / image.length : Nat) : Int)))
        else w2).calls = w2.calls := by
      intro w2
      split_ifs <;> rfl
    rw [hc, p2, List.range_succ_eq_map, List.map_cons, List.map_map, List.append_assoc]
    simp only [Nat.mul_zero, Nat.add_zero, List.singleton_append]
    congr 2
    by_cases hlast : image.length - off ≤ 256
    · have hk : k = 0 := by omega
      subst hk
      simp
    · apply List.map_congr_left
      intro j _
      simp only [Function.comp]
      congr 1
      omega

theorem ConfigWritePage_out (F : Ftdi) (w : World) (a : Nat) (d : List Nat) (n : Nat) :
    (ConfigWritePage F w a d n).2.out = w.out := by
  simp only [ConfigWritePage]
  split_ifs <;> simp

theorem ConfigReadBytes_out (F : Ftdi) (w : World) (a n : Nat) :
    (ConfigReadBytes F w a n).2.2.out = w.out := by
  simp [ConfigReadBytes]

/-- A Program (`n = 1`) or Verify (`n = 2`) pass when no page operation fails
and read-back matches: one page operation per 256 bytes of the image, then the
success message. -/
theorem ConfigProgramHex.pass_run (F : Ftdi) (n A : Nat) (hn : n = 1 ∨ n = 2)
    (hA : A < 4294967296) (s : List Byte) (hN : (imageOf s).length < 4294967296)
    (hops : ∀ (w1 : World) (k : Nat), 256 * k < (imageOf s).length →
      (n = 1 → (ConfigWritePage F w1 (u32 (A + 256 * k)) (pageData (imageOf s) k)
        (pageLen (imageOf s).length k)).1 = true) ∧
      (n = 2 →
        (ConfigReadBytes F w1 (u32 (A + 256 * k)) (pageLen (imageOf s).length k)).1 = true ∧
        (ConfigReadBytes F w1 (u32 (A + 256 * k)) (pageLen (imageOf s).length k)).2.1.take
          (pageLen (imageOf s).length k) = pageData (imageOf s) k))
    (w : World) :
    ∃ w2 msgs, ConfigProgramHex.pass F n (some s) A ((imageOf s).length : Int) w = some w2 ∧
      w2.calls = w.calls ++
        (List.range (((imageOf s).length + 255) / 256)).map (pageOp n A (imageOf s)) ∧
      w2.out = w.out ++ [if n = 1 then Msg.programming else Msg.verifying] ++ msgs ++ [Msg.ok] ∧
      ∀ x ∈ msgs, x.isPercent = true := by
  have hop : ∀ (w1 : World) (off : Nat), off % 256 = 0 → off < (imageOf s).length →
      (ConfigProgramHex.page F n w1 (u32 (A + off)) (((imageOf s).drop off).take 256)
        (min 256 ((imageOf s).length - off))).1 = true ∧
      (ConfigProgramHex.page F n w1 (u32 (A + off)) (((imageOf s).drop off).take 256)
        (min 256 ((imageOf s).length - off))).2.calls =
          w1.calls ++ [pageOp n A (imageOf s) (off / 256)] ∧
      (ConfigProgramHex.page F n w1 (u32 (A + off)) (((imageOf s).drop off).take 256)
        (min 256 ((imageOf s).length - off))).2.out = w1.out := by
    intro w1 off h1 h2
    have hk : 256 * (off / 256) = off := by omega
    obtain ⟨o1, o2⟩ := hops w1 (off / 256) (by omega)
    simp only [pageData, pageLen, hk] at o1 o2
    rcases hn with hn | hn
    · subst hn
      simp only [ConfigProgramHex.page, pageOp, pageData, pageLen, hk]
      exact ⟨by simpa using o1 rfl, by simp [ConfigWritePage_calls],
        by simp [ConfigWritePage_out]⟩
    · subst hn
      obtain ⟨o3, o4⟩ := o2 rfl
      have hb : (((imageOf s).drop off).take 256).take (min 256 ((imageOf s).length - off)) =
          ((imageOf s).drop off).take 256 := by
        apply List.take_of_length_le
        simp [List.length_take, List.length_drop]
      simp only [ConfigProgramHex.page, pageOp, pageData, pageLen, hk]
      refine ⟨?_, ?_, ?_⟩
      · simp [o3, o4, hb]
      · simp [ConfigReadBytes_calls]
      · simp [ConfigReadBytes_out]
  obtain ⟨w2, r1, r2, msgs, r3, r4⟩ :=
    ConfigProgramHex.pages_run F n A (imageOf s) hN (fun off => pageOp n A (imageOf s) (off / 256))
      hop (((imageOf s).length + 255) / 256) (imageOf s).length
      (w.print (if n == 1 then Msg.programming else Msg.verifying)) s 0 (-1)
      (by simp [imageOf]) (Or.inl rfl) (Nat.zero_le _) (by simp) (by omega)
  have hA0 : u32 (A + 0) = A := by unfold u32; omega
  rw [hA0] at r1
  refine ⟨w2.print Msg.ok, msgs, ?_, ?_, ?_, r4⟩
  · simp only [ConfigProgramHex.pass, u32OfInt_natCast _ hN, r1]
    simp
  · rw [World.print_calls, r2, World.print_calls]
    congr 1
    apply List.map_congr_left
    intro j _
    simp
  · rw [World.print_out, r3, World.print_out]
    rcases hn with hn | hn <;> subst hn <;> simp

theorem HexGetSize_range (s : List Byte) :
    -1073741824 ≤ HexGetSize (some s) ∧ HexGetSize (some s) < 1073741824 := by
  unfold HexGetSize
  simp only []
  rw [HexGetSize_loop_spec s 0 (by decide) (by decide), Int.shiftRight_eq_div_pow]
  split_ifs
  · have := s32_range (0 + ((hexDigits s).length : Int))
    push_cast
    omega
  · decide

theorem length_pageData (image : List Nat) (k : Nat) :
    (pageData image k).length = pageLen image.length k := by
  simp [pageData, pageLen, List.length_take, List.length_drop]

/-- `ConfigProgramHex` with the single pass Program (`n = 1`) or Verify
(`n = 2`) selected, on an image whose size `HexGetSize` reports as the number
of bytes it decodes to, when no page operation fails and read-back matches. -/
theorem ConfigProgramHex_single_pass (F : Ftdi) (w : World) (s : List Byte) (A n : Nat)
    (hn : n = 1 ∨ n = 2) (hA : A < 4294967296)
    (hsize : HexGetSize (some s) = ((imageOf s).length : Int))
    (hops : ∀ (w1 : World) (k : Nat), 256 * k < (imageOf s).length →
      (n = 1 → (ConfigWritePage F w1 (u32 (A + 256 * k)) (pageData (imageOf s) k)
        (pageLen (imageOf s).length k)).1 = true) ∧
      (n = 2 →
        (ConfigReadBytes F w1 (u32 (A + 256 * k)) (pageLen (imageOf s).length k)).1 = true ∧
        (ConfigReadBytes F w1 (u32 (A + 256 * k)) (pageLen (imageOf s).length k)).2.1.take
          (pageLen (imageOf s).length k) = pageData (imageOf s) k)) :
    ∃ w2 msgs, ConfigProgramHex F w (some s) A (if n = 1 then PROG_PROGRAM else PROG_VERIFY)
        = some w2 ∧
      w2.calls = w.calls ++
        (List.range (((imageOf s).length + 255) / 256)).map (pageOp n A (imageOf s)) ∧
      w2.out = w.out ++ [if n = 1 then Msg.programming else Msg.verifying] ++ msgs ++ [Msg.ok] ∧
      ∀ x ∈ msgs, x.isPercent = true := by
  have hN : (imageOf s).length < 4294967296 := by
    have := (HexGetSize_range s).2
    rw [hsize] at this
    omega
  obtain ⟨w2, msgs, h1, h2, h3, h4⟩ := ConfigProgramHex.pass_run F n A hn hA s hN hops w
  refine ⟨w2, msgs, ?_, h2, h3, h4⟩
  have hneg : ¬ (((imageOf s).length : Int) < 0) := by omega
  rcases hn with hn | hn
  · subst hn
    have b0 : ((PROG_PROGRAM &&& (1 <<< 0)) != 0) = false := by decide
    have b1 : ((PROG_PROGRAM &&& (1 <<< 1)) != 0) = true := by decide
    have b2 : ((PROG_PROGRAM &&& (1 <<< 2)) != 0) = false := by decide
    simp only [ConfigProgramHex, hsize, hneg, if_false, if_true, b0, b1, b2, h1,
      Bool.false_eq_true]
  · subst hn
    have b0 : ((PROG_VERIFY &&& (1 <<< 0)) != 0) = false := by decide
    have b1 : ((PROG_VERIFY &&& (1 <<< 1)) != 0) = false := by decide
    have b2 : ((PROG_VERIFY &&& (1 <<< 2)) != 0) = true := by decide
    have e : (if (2 : Nat) = 1 then PROG_PROGRAM else PROG_VERIFY) = PROG_VERIFY := rfl
    simp only [ConfigProgramHex, hsize, hneg, if_false, if_true, e, b0, b1, b2, h1,
      Bool.false_eq_true]

/-! ## The adapter `Ftdi.ideal` on an image of zero bytes -/

theorem imageOf_replicate_zero (m : Nat) :
    imageOf (List.replicate (2 * m) (48 : Byte)) = List.replicate m 0 := by
  unfold imageOf
  rw [hexDigits_replicate_zero, ← nibblesOf_replicate_zero, pairUp_nibblesOf]

theorem HexGetSize_replicate_zero (m : Nat) (hm : m < 1073741824) :
    HexGetSize (some (List.replicate (2 * m) (48 : Byte))) = (m : Int) := by
  unfold HexGetSize
  simp only []
  rw [HexGetSize_loop_spec _ 0 (by decide) (by decide), all_isAccepted_replicate,
    hexDigits_replicate_zero, List.length_replicate, Int.shiftRight_eq_div_pow]
  simp only [if_true]
  unfold s32
  push_cast
  omega

theorem pageData_replicate_zero (m k : Nat) :
    pageData (List.replicate m 0) k = List.replicate (pageLen m k) 0 := by
  simp [pageData, pageLen, List.drop_replicate, List.take_replicate]

/-- On `Ftdi.ideal` every page operation on an image of zero bytes succeeds, and
read-back matches. -/
theorem ideal_page_ops (s : List Byte) (m : Nat) (hs : imageOf s = List.replicate m 0)
    (A n : Nat) (w1 : World) (k : Nat) (_hk : 256 * k < (imageOf s).length) :
    (n = 1 → (ConfigWritePage Ftdi.ideal w1 (u32 (A + 256 * k)) (pageData (imageOf s) k)
      (pageLen (imageOf s).length k)).1 = true) ∧
    (n = 2 →
      (ConfigReadBytes Ftdi.ideal w1 (u32 (A + 256 * k)) (pageLen (imageOf s).length k)).1
        = true ∧
      (ConfigReadBytes Ftdi.ideal w1 (u32 (A + 256 * k)) (pageLen (imageOf s).length k)).2.1.take
        (pageLen (imageOf s).length k) = pageData (imageOf s) k) := by
  have hw : ∀ h buf, Ftdi.ideal.write_data h buf = (buf.length : Int) := fun _ _ => rfl
  have hr : ∀ h n, (Ftdi.ideal.read_data h n).1 = (n : Int) := fun _ _ => rfl
  have hst : ∀ h, (Ftdi.ideal.read_data h 1).2.headD 0 % 2 = 0 := fun _ => rfl
  have hl : pageLen (imageOf s).length k ≤ 256 := by
    unfold pageLen
    omega
  refine ⟨fun _ => ?_, fun _ => ?_⟩
  · exact ConfigWritePage_ok Ftdi.ideal hw hr hst w1 _ _ _ hl
      (le_of_eq (length_pageData _ _).symm)
  · obtain ⟨r1, r2⟩ := ConfigReadBytes_ok Ftdi.ideal hw hr w1 (u32 (A + 256 * k))
      (pageLen (imageOf s).length k) (by omega)
    refine ⟨r1, ?_⟩
    rw [r2, hs, pageData_replicate_zero, List.length_replicate]
    show List.take (pageLen m k) (List.replicate (pageLen m k) 0) = _
    rw [List.take_replicate, Nat.min_self]

/-! ## The Program and Verify passes -/

set_option maxRecDepth 20000 in
/-- C9 (fails on the code). `ConfigProgramHex` at write address 255 with the
image `01 02` and the Program pass alone, on an adapter where every transfer
completes, enters one page program of 2 bytes at address 255 and reports
success: `255 mod 256 + 2 = 257 > 256`, the write crosses the page boundary at
256 (the flash wraps its second byte to address 0). -/
theorem C9_page_program_crosses_page_boundary :
    (ConfigProgramHex Ftdi.ideal World.init (some [48, 49, 48, 50]) 255 PROG_PROGRAM).map
        (fun w => (w.calls, w.out))
      = some ([FlashOp.writePage 255 [1, 2] 2], [Msg.programming, Msg.percent 0, Msg.ok]) ∧
    ¬ (255 % 256 + 2 ≤ 256) := by
  decide

/-- `ConfigEraseArea(0, 300)` is one sector erase at 0. -/
theorem ConfigEraseArea_0_300 (F : Ftdi) (w : World) :
    ConfigEraseArea F w 0 300 =
      some ((ConfigEraseSector F w 0).1, (ConfigEraseSector F w 0).2) := by
  have h1 : ConfigEraseArea.alignedSize 0 300 = 4096 := by decide
  have h2 : 0 &&& NOT_4095 = 0 := by decide
  have h3 : u32 (4096 + 4294967296 - 4096) = 0 := by decide
  have h4 : ((0 &&& 65535) == 0 && decide (4096 ≥ 65536)) = false := by decide
  have h5 : ((0 &&& 32767) == 0 && decide (4096 ≥ 32768)) = false := by decide
  have h6 : (4096 : Nat) / 4096 = 1 := by decide
  unfold ConfigEraseArea
  simp only [h1, h2, h6]
  rw [ConfigEraseArea.loop]
  simp only [Bool.true_and, h4, h5, h3]
  simp [ConfigEraseArea.loop]

/-- Erase, program and verify at address 0 for an image of 300 bytes, when the
sector erase and no page operation fails and read-back matches. -/
theorem ConfigProgramHex_all_passes_300 (F : Ftdi) (w : World) (s : List Byte)
    (hl : (imageOf s).length = 300)
    (hsize : HexGetSize (some s) = ((imageOf s).length : Int))
    (hops : ∀ (n : Nat) (w1 : World) (k : Nat), 256 * k < (imageOf s).length →
      (n = 1 → (ConfigWritePage F w1 (u32 (0 + 256 * k)) (pageData (imageOf s) k)
        (pageLen (imageOf s).length k)).1 = true) ∧
      (n = 2 →
        (ConfigReadBytes F w1 (u32 (0 + 256 * k)) (pageLen (imageOf s).length k)).1 = true ∧
        (ConfigReadBytes F w1 (u32 (0 + 256 * k)) (pageLen (imageOf s).length k)).2.1.take
          (pageLen (imageOf s).length k) = pageData (imageOf s) k))
    (hE : ∀ w1, (ConfigEraseSector F w1 0).1 = true) :
    ∃ w3 m1 m2, ConfigProgramHex F w (some s) 0 (PROG_ERASE ||| PROG_PROGRAM ||| PROG_VERIFY)
        = some w3 ∧
      w3.calls = w.calls ++ [FlashOp.eraseSector 0,
        FlashOp.writePage 0 ((imageOf s).take 256) 256,
        FlashOp.writePage 256 ((imageOf s).drop 256) 44,
        FlashOp.readBytes 0 256, FlashOp.readBytes 256 44] ∧
      w3.out = w.out ++ [Msg.erasing, Msg.ok, Msg.programming] ++ m1 ++
        [Msg.ok, Msg.verifying] ++ m2 ++ [Msg.ok] ∧
      (∀ x ∈ m1, x.isPercent = true) ∧ ∀ x ∈ m2, x.isPercent = true := by
  have e1 := ConfigEraseArea_0_300 F (w.print Msg.erasing)
  have ev1 := hE (w.print Msg.erasing)
  have ev2 := ConfigEraseSector_calls F (w.print Msg.erasing) 0
  have ev3 : (ConfigEraseSector F (w.print Msg.erasing) 0).2.out = (w.print Msg.erasing).out := by
    simp only [ConfigEraseSector]
    split_ifs <;> simp
  generalize ConfigEraseSector F (w.print Msg.erasing) 0 = r at e1 ev1 ev2 ev3
  obtain ⟨wb, m1, p1, p2, p3, p4⟩ := ConfigProgramHex.pass_run F 1 0 (Or.inl rfl)
    (by decide) s (by omega) (hops 1) (r.2.print Msg.ok)
  obtain ⟨wc, m2, q1, q2, q3, q4⟩ := ConfigProgramHex.pass_run F 2 0 (Or.inr rfl)
    (by decide) s (by omega) (hops 2) wb
  have hneg : ¬ (((imageOf s).length : Int) < 0) := by omega
  have b0 : (((PROG_ERASE ||| PROG_PROGRAM ||| PROG_VERIFY) &&& (1 <<< 0)) != 0) = true := by
    decide
  have b1 : (((PROG_ERASE ||| PROG_PROGRAM ||| PROG_VERIFY) &&& (1 <<< 1)) != 0) = true := by
    decide
  have b2 : (((PROG_ERASE ||| PROG_PROGRAM ||| PROG_VERIFY) &&& (1 <<< 2)) != 0) = true := by
    decide
  have hu : u32OfInt ((imageOf s).length : Int) = 300 := by
    rw [u32OfInt_natCast _ (by omega), hl]
  refine ⟨wc, m1, m2, ?_, ?_, ?_, p4, q4⟩
  · simp only [ConfigProgramHex, hsize, hneg, if_false, b0, b1, b2, if_true, hu, e1, ev1, p1,
      q1]
  · have hr : List.range ((300 + 255) / 256) = [0, 1] := by decide
    have l0 : pageLen 300 0 = 256 := by decide
    have l1 : pageLen 300 1 = 44 := by decide
    have a1 : u32 (0 + 256 * 0) = 0 := by decide
    have a2 : u32 (0 + 256 * 1) = 256 := by decide
    have n2 : ¬ ((2 : Nat) = 1) := by decide
    have d0 : pageData (imageOf s) 0 = (imageOf s).take 256 := by
      simp [pageData]
    have d1 : pageData (imageOf s) 1 = (imageOf s).drop 256 := by
      simp only [pageData, Nat.mul_one]
      apply List.take_of_length_le
      rw [List.length_drop, hl]
      decide
    rw [q2, p2, World.print_calls, ev2, World.print_calls, hl, hr]
    simp only [List.map_cons, List.map_nil, pageOp, hl, if_true, if_neg n2, l0, l1, a1, a2, d0,
      d1, List.append_assoc, List.cons_append, List.nil_append]
  · rw [q3, p3, World.print_out, ev3, World.print_out]
    simp

/-- C10 as stated fails: with write address `2^32 - 256` and an image of 257
zero bytes, on an adapter where every transfer completes, the Program pass
enters its second page operation (`k = 1`) at address 0, the `u32` address
having wrapped, not at `A + 256k = 2^32`. -/
theorem C10_counterexample :
    ∃ w2, ConfigProgramHex Ftdi.ideal World.init (some (List.replicate (2 * 257) (48 : Byte)))
        4294967040 PROG_PROGRAM = some w2 ∧
      w2.calls = [FlashOp.writePage 4294967040 (List.replicate 256 0) 256,
        FlashOp.writePage 0 (List.replicate 1 0) 1] ∧
      4294967040 + 256 * 1 ≠ 0 := by
  have hi := imageOf_replicate_zero 257
  have hs := HexGetSize_replicate_zero 257 (by decide)
  revert hi hs
  generalize List.replicate (2 * 257) (48 : Byte) = s
  intro hi hs
  have hl : (imageOf s).length = 257 := by
    rw [hi, List.length_replicate]
  have hsize : HexGetSize (some s) = ((imageOf s).length : Int) := by
    rw [hl, hs]
  obtain ⟨w2, msgs, h1, h2, _, _⟩ := ConfigProgramHex_single_pass Ftdi.ideal World.init s
    4294967040 1 (Or.inl rfl) (by decide) hsize (ideal_page_ops s 257 hi 4294967040 1)
  refine ⟨w2, h1, ?_, by decide⟩
  have hr : List.range ((257 + 255) / 256) = [0, 1] := by decide
  have e1 : pageLen 257 0 = 256 := by decide
  have e2 : pageLen 257 1 = 1 := by decide
  have a1 : u32 (4294967040 + 256 * 0) = 4294967040 := by decide
  have a2 : u32 (4294967040 + 256 * 1) = 0 := by decide
  rw [h2, hi, List.length_replicate, hr]
  simp only [List.map_cons, List.map_nil, pageOp, pageData_replicate_zero,
    List.length_replicate, if_true, e1, e2, a1, a2]
  rfl

/-- C10 (amended). For every hex image whose size `HexGetSize` reports as the
number `N` of bytes it decodes to, and every write address `A < 2^32`: when
every `ConfigWritePage` of a page returns true, `ConfigProgramHex` with the
Program pass enters exactly `ceil(N/256)` page programs, the `k`-th at address
`(A + 256k) mod 2^32` with the image bytes `[256k, 256k + length)` and length
`min(256, N - 256k)`, and prints the success message; when every
`ConfigReadBytes` of a page returns true with the bytes of that page, the same
holds for the page reads of the Verify pass; and for `N = 300`, `A = 0` with
erase, program and verify, the sector erase succeeding too: one sector erase at
0, page programs of 256 bytes at 0 and 44 bytes at 256, read-backs of 256 and 44
bytes, and the success message after each of the three passes. -/
theorem C10_pass_paging (F : Ftdi) (w : World) (s : List Byte) (A : Nat)
    (hA : A < 4294967296)
    (hsize : HexGetSize (some s) = ((imageOf s).length : Int)) :
    ((∀ (w1 : World) (k : Nat), 256 * k < (imageOf s).length →
        (ConfigWritePage F w1 (u32 (A + 256 * k)) (pageData (imageOf s) k)
          (pageLen (imageOf s).length k)).1 = true) →
      ∃ w2 msgs, ConfigProgramHex F w (some s) A PROG_PROGRAM = some w2 ∧
        w2.calls = w.calls ++ (List.range (((imageOf s).length + 255) / 256)).map
          (fun k => FlashOp.writePage (u32 (A + 256 * k)) (pageData (imageOf s) k)
            (pageLen (imageOf s).length k)) ∧
        w2.out = w.out ++ [Msg.programming] ++ msgs ++ [Msg.ok] ∧
        ∀ x ∈ msgs, x.isPercent = true) ∧
    ((∀ (w1 : World) (k : Nat), 256 * k < (imageOf s).length →
        (ConfigReadBytes F w1 (u32 (A + 256 * k)) (pageLen (imageOf s).length k)).1 = true ∧
        (ConfigReadBytes F w1 (u32 (A + 256 * k)) (pageLen (imageOf s).length k)).2.1.take
          (pageLen (imageOf s).length k) = pageData (imageOf s) k) →
      ∃ w2 msgs, ConfigProgramHex F w (some s) A PROG_VERIFY = some w2 ∧
        w2.calls = w.calls ++ (List.range (((imageOf s).length + 255) / 256)).map
          (fun k => FlashOp.readBytes (u32 (A + 256 * k)) (pageLen (imageOf s).length k)) ∧
        w2.out = w.out ++ [Msg.verifying] ++ msgs ++ [Msg.ok] ∧
        ∀ x ∈ msgs, x.isPercent = true) ∧
    ((imageOf s).length = 300 → A = 0 →
      (∀ (w1 : World) (k : Nat), 256 * k < (imageOf s).length →
        (ConfigWritePage F w1 (u32 (A + 256 * k)) (pageData (imageOf s) k)
          (pageLen (imageOf s).length k)).1 = true) →
      (∀ (w1 : World) (k : Nat), 256 * k < (imageOf s).length →
        (ConfigReadBytes F w1 (u32 (A + 256 * k)) (pageLen (imageOf s).length k)).1 = true ∧
        (ConfigReadBytes F w1 (u32 (A + 256 * k)) (pageLen (imageOf s).length k)).2.1.take
          (pageLen (imageOf s).length k) = pageData (imageOf s) k) →
      (∀ w1, (ConfigEraseSector F w1 0).1 = true) →
      ∃ w3 m1 m2, ConfigProgramHex F w (some s) A (PROG_ERASE ||| PROG_PROGRAM ||| PROG_VERIFY)
          = some w3 ∧
        w3.calls = w.calls ++ [FlashOp.eraseSector 0,
          FlashOp.writePage 0 ((imageOf s).take 256) 256,
          FlashOp.writePage 256 ((imageOf s).drop 256) 44,
          FlashOp.readBytes 0 256, FlashOp.readBytes 256 44] ∧
        w3.out = w.out ++ [Msg.erasing, Msg.ok, Msg.programming] ++ m1 ++
          [Msg.ok, Msg.verifying] ++ m2 ++ [Msg.ok] ∧
        (∀ x ∈ m1, x.isPercent = true) ∧ ∀ x ∈ m2, x.isPercent = true) := by
  refine ⟨fun hW => ?_, fun hR => ?_, fun hl hA0 hW hR hE => ?_⟩
  · obtain ⟨w2, msgs, h1, h2, h3, h4⟩ := ConfigProgramHex_single_pass F w s A 1 (Or.inl rfl) hA
      hsize (fun w1 k hk => ⟨fun _ => hW w1 k hk, fun h => absurd h (by decide)⟩)
    refine ⟨w2, msgs, h1, ?_, h3, h4⟩
    rw [h2]
    congr 1
  · obtain ⟨w2, msgs, h1, h2, h3, h4⟩ := ConfigProgramHex_single_pass F w s A 2 (Or.inr rfl) hA
      hsize (fun w1 k hk => ⟨fun h => absurd h (by decide), fun _ => hR w1 k hk⟩)
    refine ⟨w2, msgs, h1, ?_, h3, h4⟩
    rw [h2]
    congr 1
  · subst hA0
    exact ConfigProgramHex_all_passes_300 F w s hl hsize
      (fun n w1 k hk => ⟨fun _ => hW w1 k hk, fun _ => hR w1 k hk⟩) hE

/-- C10 at a concrete input: erase, program and verify for the text of 600
characters `0` (300 zero bytes) at address 0, on an adapter where every transfer
completes, the flash is never busy and reads return zero bytes. -/
theorem C10_pass_paging_witness :
    HexGetSize (some (List.replicate (2 * 300) (48 : Byte))) =
        ((imageOf (List.replicate (2 * 300) (48 : Byte))).length : Int) ∧
      ∃ w3 m1 m2, ConfigProgramHex Ftdi.ideal World.init
          (some (List.replicate (2 * 300) (48 : Byte))) 0
          (PROG_ERASE ||| PROG_PROGRAM ||| PROG_VERIFY) = some w3 ∧
        w3.calls = World.init.calls ++ [FlashOp.eraseSector 0,
          FlashOp.writePage 0 ((imageOf (List.replicate (2 * 300) (48 : Byte))).take 256) 256,
          FlashOp.writePage 256 ((imageOf (List.replicate (2 * 300) (48 : Byte))).drop 256) 44,
          FlashOp.readBytes 0 256, FlashOp.readBytes 256 44] ∧
        w3.out = World.init.out ++ [Msg.erasing, Msg.ok, Msg.programming] ++ m1 ++
          [Msg.ok, Msg.verifying] ++ m2 ++ [Msg.ok] ∧
        (∀ x ∈ m1, x.isPercent = true) ∧ ∀ x ∈ m2, x.isPercent = true :=
  have hi := imageOf_replicate_zero 300
  have hl : (imageOf (List.replicate (2 * 300) (48 : Byte))).length = 300 := by
    rw [hi, List.length_replicate]
  have hsize : HexGetSize (some (List.replicate (2 * 300) (48 : Byte))) =
      ((imageOf (List.replicate (2 * 300) (48 : Byte))).length : Int) := by
    rw [HexGetSize_replicate_zero 300 (by decide), hi, List.length_replicate]
  ⟨hsize, (C10_pass_paging Ftdi.ideal World.init _ 0 (by decide) hsize).2.2 hl rfl
    (fun w1 k hk => (ideal_page_ops _ 300 hi 0 1 w1 k hk).1 rfl)
    (fun w1 k hk => (ideal_page_ops _ 300 hi 0 2 w1 k hk).2 rfl)
    (fun w1 => ConfigEraseSector_ok Ftdi.ideal (fun _ _ => rfl) (fun _ _ => rfl) (fun _ => rfl)
      w1 0)⟩

/-! ## The requests and the cached pin byte of the transport functions -/

@[simp] theorem ftdi_write_data_chan (F : Ftdi) (w : World) (buf : List Nat) :
    (ftdi_write_data F w buf).2.chan = w.chan ++ [Ev.write buf] := rfl

@[simp] theorem ftdi_write_data_pins (F : Ftdi) (w : World) (buf : List Nat) :
    World.gGPIO (ftdi_write_data F w buf).2 = w.gGPIO := rfl

@[simp] theorem ftdi_read_data_chan (F : Ftdi) (w : World) (n : Nat) :
    (ftdi_read_data F w n).2.2.chan = w.chan ++ [Ev.read n] := rfl

@[simp] theorem ftdi_read_data_pins (F : Ftdi) (w : World) (n : Nat) :
    World.gGPIO (ftdi_read_data F w n).2.2 = w.gGPIO := rfl

@[simp] theorem ConfigControl_chan (F : Ftdi) (w : World) (n : Nat) :
    (ConfigControl F w n).2.chan = w.chan ++ [Ev.write [u8 F.SET_BITS_LOW, n, PIN_OUTPUTS]] := rfl

@[simp] theorem ConfigControl_pins (F : Ftdi) (w : World) (n : Nat) :
    World.gGPIO (ConfigControl F w n).2 = w.gGPIO := rfl

@[simp] theorem ConfigIdle_chan (F : Ftdi) (w : World) :
    (ConfigIdle F w).2.chan = w.chan ++ [Ev.write [u8 F.SET_BITS_LOW, CA_SS_N ||| CA_CRESET_N, 0]] :=
  rfl

theorem ConfigChipSelect_pins (F : Ftdi) (w : World) (b : Bool) :
    World.gGPIO (ConfigChipSelect F w b).2 =
      if b then w.gGPIO &&& (0xff ^^^ CA_SS_N) else u8 (w.gGPIO ||| CA_SS_N) := rfl

theorem ConfigChipSelect_chan (F : Ftdi) (w : World) (b : Bool) :
    (ConfigChipSelect F w b).2.chan = w.chan ++ [Ev.write [u8 F.SET_BITS_LOW,
      if b then w.gGPIO &&& (0xff ^^^ CA_SS_N) else u8 (w.gGPIO ||| CA_SS_N), PIN_OUTPUTS]] := rfl

/-- The fill loop of `ConfigWriteSPI` writes the byte at most `count` times,
one byte per write, and `count` times when it returns true. -/
theorem ConfigWriteSPI.fill_chan (F : Ftdi) (byte : Nat) (count : Nat) :
    ∀ w : World, ∃ k, k ≤ count ∧
      (ConfigWriteSPI.fill F byte count w).2.chan = w.chan ++ List.replicate k (Ev.write [byte]) ∧
      World.gGPIO (ConfigWriteSPI.fill F byte count w).2 = w.gGPIO ∧
      ((ConfigWriteSPI.fill F byte count w).1 = true → k = count) ∧
      (0 < count → 0 < k) := by
  induction count with
  | zero =>
    intro w
    exact ⟨0, le_refl _, by simp [ConfigWriteSPI.fill], rfl, fun _ => rfl, fun h => h⟩
  | succ c ih =>
    intro w
    rw [ConfigWriteSPI.fill]
    by_cases h : eqInt (ftdi_write_data F w [byte]).1 1 = true
    · simp only [h, if_true]
      obtain ⟨k, k1, k2, k3, k4, _⟩ := ih (ftdi_write_data F w [byte]).2
      refine ⟨k + 1, by omega, ?_, ?_, ?_, fun _ => by omega⟩
      · rw [k2, ftdi_write_data_chan, List.append_assoc]
        rfl
      · rw [k3]
        rfl
      · intro hk
        rw [k4 hk]
    · simp only [h, if_false, Bool.false_eq_true]
      refine ⟨1, by omega, rfl, rfl, fun hk => ?_, fun _ => by omega⟩
      simp at hk

@[simp] theorem ConfigWriteSPI.fill_pins (F : Ftdi) (byte : Nat) (count : Nat) (w : World) :
    World.gGPIO (ConfigWriteSPI.fill F byte count w).2 = w.gGPIO := by
  obtain ⟨_, _, _, h, _⟩ := ConfigWriteSPI.fill_chan F byte count w
  exact h

@[simp] theorem ConfigWriteSPI_pins (F : Ftdi) (w : World) (o : OutData) (n : Nat) (i : Bool) :
    World.gGPIO (ConfigWriteSPI F w o n i).2.2 = w.gGPIO := by
  cases o <;> simp only [ConfigWriteSPI] <;> split_ifs <;> simp

@[simp] theorem ConfigWriteCommand_pins (F : Ftdi) (w : World) (cmd : Nat) :
    World.gGPIO (ConfigWriteCommand F w cmd).2 = w.gGPIO := rfl

@[simp] theorem ConfigWriteCommand_chan (F : Ftdi) (w : World) (cmd : Nat) :
    (ConfigWriteCommand F w cmd).2.chan =
      w.chan ++ [Ev.write (ConfigWriteCommand.frame F w.gGPIO cmd)] := rfl

@[simp] theorem ConfigWriteCommandWithAddrAndData_pins (F : Ftdi) (w : World) (cmd addr : Nat)
    (o : OutData) (i : Bool) (size : Nat) :
    World.gGPIO (ConfigWriteCommandWithAddrAndData F w cmd addr o i size).2.2 = w.gGPIO := by
  simp only [ConfigWriteCommandWithAddrAndData]
  split_ifs <;> rfl

theorem ConfigWriteCommandWithAddrAndData_chan (F : Ftdi) (w : World) (cmd addr : Nat)
    (o : OutData) (i : Bool) (size : Nat) :
    ∃ rest, (rest = [] ∨ (i = true ∧ rest = [Ev.read size])) ∧
      (ConfigWriteCommandWithAddrAndData F w cmd addr o i size).2.2.chan =
        w.chan ++ Ev.write (ConfigWriteCommandWithAddrAndData.frame F w.gGPIO cmd addr o i size)
          :: rest := by
  cases i with
  | false => exact ⟨[], Or.inl rfl, by simp [ConfigWriteCommandWithAddrAndData]⟩
  | true =>
    by_cases h : eqU32 (ftdi_write_data F w
        (ConfigWriteCommandWithAddrAndData.frame F w.gGPIO cmd addr o true size)).1
        (u32 (14 + (if size > 0 then u32 (size + 3) else 0))) = true
    · exact ⟨[Ev.read size], Or.inr ⟨rfl, rfl⟩, by simp [ConfigWriteCommandWithAddrAndData, h]⟩
    · exact ⟨[], Or.inl rfl, by simp [ConfigWriteCommandWithAddrAndData, h]⟩

theorem ConfigPollStatusComplete.loop_pins (F : Ftdi) (t : Nat) (w : World) :
    World.gGPIO (ConfigPollStatusComplete.loop F t w).2.2 = w.gGPIO := by
  induction t generalizing w with
  | zero => rfl
  | succ k ih =>
    simp only [ConfigPollStatusComplete.loop]
    split_ifs
    · rw [ih]
      simp
    · simp

/-! ## The command frames -/

theorem and_255 (x : Nat) : x &&& 255 = x % 256 :=
  Nat.and_pow_two_sub_one_eq_mod x 8

set_option maxRecDepth 20000 in
theorem selectLow_byte : ∀ r, r < 256 → r &&& 247 = r / 16 % 16 * 16 + r % 8 := by
  decide

set_option maxRecDepth 20000 in
theorem selectHigh_byte : ∀ r, r < 256 → r ||| 8 = r / 16 % 16 * 16 + 8 + r % 8 := by
  decide

/-- The byte `gGPIO & ~CA_SS_N` of the source is the pin byte with select low. -/
theorem selectLow_eq (g : Nat) : g &&& (0xff ^^^ CA_SS_N) = selectLow g := by
  have e : (0xff ^^^ CA_SS_N) = 255 &&& 247 := by decide
  rw [e, ← Nat.and_assoc, and_255, selectLow_byte _ (Nat.mod_lt _ (by decide))]
  unfold selectLow
  omega

/-- The byte `gGPIO | CA_SS_N` of the source is the pin byte with select
high. -/
theorem selectHigh_eq (g : Nat) : u8 (g ||| CA_SS_N) = selectHigh g := by
  have e : (g ||| 8) % 256 = g % 256 ||| 8 := by
    apply Nat.eq_of_testBit_eq
    intro i
    rw [show (256 : Nat) = 2 ^ 8 from rfl]
    simp only [Nat.testBit_mod_two_pow, Nat.testBit_or]
    by_cases h : i < 8
    · simp [h]
    · have h8 : (8 : Nat).testBit i = false :=
        Nat.testBit_lt_two_pow (lt_of_lt_of_le (by decide : 8 < 2 ^ 8)
          (Nat.pow_le_pow_right (by decide) (by omega)))
      simp [h, h8]
  unfold u8 CA_SS_N
  rw [e, selectHigh_byte _ (Nat.mod_lt _ (by decide))]
  unfold selectHigh
  omega

theorem u8_shiftRight_16 (x : Nat) : u8 (x >>> 16) = x / 65536 % 256 := by
  rw [Nat.shiftRight_eq_div_pow]
  rfl

theorem u8_shiftRight_8 (x : Nat) : u8 (x >>> 8) = x / 256 % 256 := by
  rw [Nat.shiftRight_eq_div_pow]
  rfl

/-- The buffer that `ConfigWriteCommandWithAddrAndData` builds has the layout
the specification gives. -/
theorem ConfigWriteCommandWithAddrAndData.frame_eq (F : Ftdi) (g cmd addr : Nat)
    (bufOut : OutData) (bufIn : Bool) (size : Nat) :
    ConfigWriteCommandWithAddrAndData.frame F g cmd addr bufOut bufIn size =
      frameLayout F g cmd addr bufOut bufIn size := by
  unfold ConfigWriteCommandWithAddrAndData.frame frameLayout
  rw [selectLow_eq, selectHigh_eq, u8_shiftRight_16, u8_shiftRight_8, u8_shiftRight_8]
  by_cases hs : size = 0
  · subst hs
    simp [u8]
  · have hp : size > 0 := Nat.pos_of_ne_zero hs
    cases bufOut <;> simp [u8, hs, hp]

theorem frameLayout_length (F : Ftdi) (g cmd addr : Nat) (bufOut : OutData) (bufIn : Bool)
    (size : Nat) (hlen : ∀ data, bufOut = OutData.ptr data → size ≤ data.length) :
    (frameLayout F g cmd addr bufOut bufIn size).length = if size = 0 then 14 else 17 + size := by
  rw [← ConfigWriteCommandWithAddrAndData.frame_eq,
    ConfigWriteCommandWithAddrAndData.frame_length F g cmd addr bufOut bufIn size hlen]
  split_ifs <;> omega

theorem frameLayout_addr (F : Ftdi) (g cmd addr addr2 : Nat) (bufOut : OutData) (bufIn : Bool)
    (size : Nat) (h : addr2 % 16777216 = addr % 16777216) :
    frameLayout F g cmd addr2 bufOut bufIn size = frameLayout F g cmd addr bufOut bufIn size := by
  have h1 : addr2 / 65536 % 256 = addr / 65536 % 256 := by omega
  have h2 : addr2 / 256 % 256 = addr / 256 % 256 := by omega
  have h3 : addr2 % 256 = addr % 256 := by omega
  unfold frameLayout
  rw [h1, h2, h3]

/-- C11. Frame layout of `ConfigWriteCommandWithAddrAndData(cmd, addr, out, in,
size)` for `size ≤ 65536`, a supplied output buffer holding at least `size`
bytes: the function makes one write to the channel, of the buffer
`frameLayout` (set-pins with select low; write opcode, 3, 0, command, address
in three bytes most significant first; when `size > 0` the write opcode with
the read flag iff an input buffer is given, `size - 1` in two bytes, `size`
payload bytes; set-pins with select high, send-immediate), followed by nothing
or by one read of `size` bytes; the buffer has 14 bytes when `size = 0` and
`17 + size` otherwise, which is the `buflen` the returned count is compared
with; the two length bytes hold `size - 1` exactly; addresses congruent modulo
`2^24` give the same buffer. -/
theorem C11_frame_layout (F : Ftdi) (w : World) (cmd addr : Nat) (bufOut : OutData)
    (bufIn : Bool) (size : Nat) (hsize : size ≤ 65536)
    (hbuf : ∀ data, bufOut = OutData.ptr data → size ≤ data.length) :
    (∃ rest, (rest = [] ∨ (bufIn = true ∧ rest = [Ev.read size])) ∧
      (ConfigWriteCommandWithAddrAndData F w cmd addr bufOut bufIn size).2.2.chan =
        w.chan ++ Ev.write (frameLayout F w.gGPIO cmd addr bufOut bufIn size) :: rest) ∧
    (frameLayout F w.gGPIO cmd addr bufOut bufIn size).length
      = (if size = 0 then 14 else 17 + size) ∧
    u32 (14 + (if size > 0 then u32 (size + 3) else 0)) = (if size = 0 then 14 else 17 + size) ∧
    (size - 1) % 256 + 256 * ((size - 1) / 256 % 256) = size - 1 ∧
    (∀ data, bufOut = OutData.ptr data →
      (frameLayout F w.gGPIO cmd addr bufOut bufIn size).drop (if size = 0 then 10 else 13)
        = data.take size ++ [F.SET_BITS_LOW % 256, selectHigh w.gGPIO, PIN_OUTPUTS,
            F.SEND_IMMEDIATE % 256]) ∧
    (∀ addr2, addr2 % 16777216 = addr % 16777216 →
      (ConfigWriteCommandWithAddrAndData F w cmd addr2 bufOut bufIn size).2.2.chan.take
          (w.chan.length + 1) =
        (ConfigWriteCommandWithAddrAndData F w cmd addr bufOut bufIn size).2.2.chan.take
          (w.chan.length + 1)) := by
  have hch : ∀ a, ∃ rest, (rest = [] ∨ (bufIn = true ∧ rest = [Ev.read size])) ∧
      (ConfigWriteCommandWithAddrAndData F w cmd a bufOut bufIn size).2.2.chan =
        w.chan ++ Ev.write (frameLayout F w.gGPIO cmd a bufOut bufIn size) :: rest := by
    intro a
    obtain ⟨rest, h1, h2⟩ := ConfigWriteCommandWithAddrAndData_chan F w cmd a bufOut bufIn size
    exact ⟨rest, h1, by rw [h2, ConfigWriteCommandWithAddrAndData.frame_eq]⟩
  have htake : ∀ (x : Ev) (rest : List Ev),
      (w.chan ++ x :: rest).take (w.chan.length + 1) = w.chan ++ [x] := by
    intro x rest
    rw [List.take_append_eq_append_take]
    simp
  refine ⟨hch addr, frameLayout_length F _ cmd addr bufOut bufIn size hbuf, ?_, by omega, ?_, ?_⟩
  · unfold u32
    split_ifs <;> omega
  · intro data hd
    subst hd
    unfold frameLayout
    by_cases hs : size = 0
    · subst hs
      simp
    · have hp : size > 0 := Nat.pos_of_ne_zero hs
      simp [hs, hp]
  · intro addr2 h
    obtain ⟨r1, _, e1⟩ := hch addr
    obtain ⟨r2, _, e2⟩ := hch addr2
    rw [e1, e2, htake, htake, frameLayout_addr F _ cmd addr addr2 bufOut bufIn size h]

/-- C11 at a concrete input: a page program of three bytes at address
`0x123456`. -/
theorem C11_frame_layout_witness :
    (∃ rest, (rest = [] ∨ (false = true ∧ rest = [Ev.read 3])) ∧
      (ConfigWriteCommandWithAddrAndData Ftdi.ideal World.init 2 0x123456 (OutData.ptr [1, 2, 3])
          false 3).2.2.chan =
        World.init.chan ++ Ev.write (frameLayout Ftdi.ideal World.init.gGPIO 2 0x123456
          (OutData.ptr [1, 2, 3]) false 3) :: rest) ∧
    frameLayout Ftdi.ideal World.init.gGPIO 2 0x123456 (OutData.ptr [1, 2, 3]) false 3 =
      [0x80, 0x10, 0x1b, 0x11, 3, 0, 2, 0x12, 0x34, 0x56, 0x11, 2, 0, 1, 2, 3,
        0x80, 0x18, 0x1b, 0x87] :=
  ⟨(C11_frame_layout Ftdi.ideal World.init 2 0x123456 (OutData.ptr [1, 2, 3]) false 3
      (by decide) (fun data h => by cases h; decide)).1, by decide⟩

/-! ## The requests of a shift and of a status poll -/

/-- The requests of `ConfigWriteSPI`: the three-byte header, then the data in
one write or the fill byte in one write per byte, then at most one read; all of
them when it returns true. -/
theorem ConfigWriteSPI_chan (F : Ftdi) (w : World) (o : OutData) (n : Nat) (i : Bool) :
    ∃ ws rs, (ConfigWriteSPI F w o n i).2.2.chan =
        w.chan ++ Ev.write
          [u8 (F.MPSSE_DO_WRITE ||| F.MPSSE_WRITE_NEG ||| (if i then F.MPSSE_DO_READ else 0)),
           u8OfInt ((n : Int) - 1), u8OfInt (((n : Int) - 1) >>> (8 : Nat))] :: (ws ++ rs) ∧
      (∃ k, k ≤ (match o with
                 | OutData.ptr _ => 1
                 | OutData.imm _ => u32 n) ∧
        ws = List.replicate k (Ev.write (match o with
                 | OutData.ptr data => data.take n
                 | OutData.imm v => [u8 v])) ∧
        ((ConfigWriteSPI F w o n i).1 = true → k = (match o with
                 | OutData.ptr _ => 1
                 | OutData.imm _ => u32 n)) ∧
        (eqU32 (F.write_data w.chan
          [u8 (F.MPSSE_DO_WRITE ||| F.MPSSE_WRITE_NEG ||| (if i then F.MPSSE_DO_READ else 0)),
           u8OfInt ((n : Int) - 1), u8OfInt (((n : Int) - 1) >>> (8 : Nat))]) 3 = true →
          0 < u32 n → 0 < k)) ∧
      (rs = [] ∨ (i = true ∧ rs = [Ev.read n])) ∧
      ((ConfigWriteSPI F w o n i).1 = true → rs = if i then [Ev.read n] else []) := by
  simp only [ConfigWriteSPI]
  generalize [u8 (F.MPSSE_DO_WRITE ||| F.MPSSE_WRITE_NEG ||| (if i then F.MPSSE_DO_READ else 0)),
    u8OfInt ((n : Int) - 1), u8OfInt (((n : Int) - 1) >>> (8 : Nat))] = hdr
  have hd : F.write_data w.chan hdr = (ftdi_write_data F w hdr).1 := rfl
  rw [hd]
  by_cases h1 : eqU32 (ftdi_write_data F w hdr).1 3 = true
  · simp only [h1, if_true]
    cases o with
    | ptr data =>
      simp only []
      by_cases h2 : eqInt (ftdi_write_data F (ftdi_write_data F w hdr).2 (data.take n)).1 n = true
      · cases i with
        | false =>
          exact ⟨[Ev.write (data.take n)], [], by simp [h2], ⟨1, le_refl _, rfl, fun _ => rfl, fun _ _ => Nat.one_pos⟩,
            Or.inl rfl, fun _ => rfl⟩
        | true =>
          exact ⟨[Ev.write (data.take n)], [Ev.read n], by simp [h2],
            ⟨1, le_refl _, rfl, fun _ => rfl, fun _ _ => Nat.one_pos⟩, Or.inr ⟨rfl, rfl⟩, fun _ => rfl⟩
      · exact ⟨[Ev.write (data.take n)], [], by simp [h2], ⟨1, le_refl _, rfl, fun _ => rfl, fun _ _ => Nat.one_pos⟩,
          Or.inl rfl, fun hr => by simp [h2] at hr⟩
    | imm v =>
      simp only []
      obtain ⟨k, k1, k2, _, k4, k5⟩ := ConfigWriteSPI.fill_chan F (u8 v) (u32 n)
        (ftdi_write_data F w hdr).2
      by_cases h2 : (ConfigWriteSPI.fill F (u8 v) (u32 n) (ftdi_write_data F w hdr).2).1 = true
      · cases i with
        | false =>
          exact ⟨List.replicate k (Ev.write [u8 v]), [], by simp [h2, k2],
            ⟨k, k1, rfl, fun _ => k4 h2, fun _ => k5⟩, Or.inl rfl, fun _ => rfl⟩
        | true =>
          exact ⟨List.replicate k (Ev.write [u8 v]), [Ev.read n], by simp [h2, k2],
            ⟨k, k1, rfl, fun _ => k4 h2, fun _ => k5⟩, Or.inr ⟨rfl, rfl⟩, fun _ => rfl⟩
      · exact ⟨List.replicate k (Ev.write [u8 v]), [], by simp [h2, k2],
          ⟨k, k1, rfl, fun hr => by simp [h2] at hr, fun _ => k5⟩, Or.inl rfl, fun hr => by simp [h2] at hr⟩
  · simp only [h1, if_false, Bool.false_eq_true]
    exact ⟨[], [], by simp, ⟨0, Nat.zero_le _, rfl, fun hr => by simp at hr, fun hr => by simp at hr⟩, Or.inl rfl,
      fun hr => by simp at hr⟩

/-- Every request of a shift of one fill byte has at most three bytes. -/
theorem ConfigWriteSPI_one_small (F : Ftdi) (w : World) (v : Nat) (i : Bool) :
    ∃ evs, (ConfigWriteSPI F w (OutData.imm v) 1 i).2.2.chan = w.chan ++ evs ∧
      ∀ e ∈ evs, e.size ≤ 3 := by
  obtain ⟨ws, rs, h1, ⟨k, _, k2, _⟩, h3, _⟩ := ConfigWriteSPI_chan F w (OutData.imm v) 1 i
  refine ⟨_, h1, ?_⟩
  intro e he
  rcases List.mem_cons.mp he with he | he
  · subst he
    simp [Ev.size]
  · rcases List.mem_append.mp he with he | he
    · rw [k2] at he
      rw [(List.mem_replicate.mp he).2]
      simp [Ev.size]
    · rcases h3 with h3 | ⟨_, h3⟩
      · rw [h3] at he
        simp at he
      · rw [h3] at he
        rw [List.mem_singleton.mp he]
        simp [Ev.size]

theorem ConfigPollStatusComplete.loop_small (F : Ftdi) (t : Nat) :
    ∀ w : World, ∃ evs, (ConfigPollStatusComplete.loop F t w).2.2.chan = w.chan ++ evs ∧
      ∀ e ∈ evs, e.size ≤ 3 := by
  induction t with
  | zero =>
    intro w
    exact ⟨[], by simp [ConfigPollStatusComplete.loop], by simp⟩
  | succ k ih =>
    intro w
    obtain ⟨e1, a1, a2⟩ := ConfigWriteSPI_one_small F w 0 true
    simp only [ConfigPollStatusComplete.loop]
    split_ifs
    · obtain ⟨e2, b1, b2⟩ := ih (ConfigWriteSPI F w (OutData.imm 0) 1 true).2.2
      refine ⟨e1 ++ e2, by rw [b1, a1, List.append_assoc], ?_⟩
      intro e he
      rcases List.mem_append.mp he with he | he
      · exact a2 e he
      · exact b2 e he
    · exact ⟨e1, a1, a2⟩

/-- Every request of a status poll has at most three bytes. -/
theorem ConfigPollStatusComplete_small (F : Ftdi) (w : World) :
    ∃ evs, (ConfigPollStatusComplete F w).2.chan = w.chan ++ evs ∧ ∀ e ∈ evs, e.size ≤ 3 := by
  have c1 : ∀ (w1 : World) (b : Bool), ∃ evs, (ConfigChipSelect F w1 b).2.chan = w1.chan ++ evs ∧
      ∀ e ∈ evs, e.size ≤ 3 := by
    intro w1 b
    refine ⟨_, ConfigChipSelect_chan F w1 b, ?_⟩
    intro e he
    rw [List.mem_singleton.mp he]
    simp [Ev.size]
  obtain ⟨e1, a1, a2⟩ := c1 w true
  obtain ⟨e2, b1, b2⟩ := ConfigWriteSPI_one_small F (ConfigChipSelect F w true).2
    CMD_READ_STATUS_REGISTER1 false
  obtain ⟨e3, d1, d2⟩ := ConfigPollStatusComplete.loop_small F 20
    (ConfigWriteSPI F (ConfigChipSelect F w true).2 (OutData.imm CMD_READ_STATUS_REGISTER1) 1
      false).2.2
  obtain ⟨e4, f1, f2⟩ := c1 (ConfigPollStatusComplete.loop F 20
    (ConfigWriteSPI F (ConfigChipSelect F w true).2 (OutData.imm CMD_READ_STATUS_REGISTER1) 1
      false).2.2).2.2 false
  simp only [ConfigPollStatusComplete]
  split_ifs
  · refine ⟨e1 ++ e2 ++ e3 ++ e4, ?_, ?_⟩
    · simp only [f1, d1, b1, a1, List.append_assoc]
    · intro e he
      simp only [List.mem_append] at he
      rcases he with ((he | he) | he) | he
      · exact a2 e he
      · exact b2 e he
      · exact d2 e he
      · exact f2 e he
  · refine ⟨e1 ++ e2, ?_, ?_⟩
    · simp only [b1, a1, List.append_assoc]
    · intro e he
      rcases List.mem_append.mp he with he | he
      · exact a2 e he
      · exact b2 e he
  · exact ⟨e1, a1, a2⟩

/-! ## Write enable before every operation that changes the flash -/

theorem ConfigWriteCommandWithAddrAndData.frame_length_le (F : Ftdi) (g cmd addr : Nat)
    (bufOut : OutData) (bufIn : Bool) (size : Nat) :
    (ConfigWriteCommandWithAddrAndData.frame F g cmd addr bufOut bufIn size).length
      ≤ 17 + size := by
  unfold ConfigWriteCommandWithAddrAndData.frame
  by_cases hs : size = 0
  · subst hs
    simp
  · cases bufOut with
    | ptr data =>
      simp [hs, List.length_take]
      omega
    | imm v =>
      simp [hs]
      omega

theorem eqU32_short (r : Int) (n : Nat) (hn : n < 2147483648) (h1 : -2147483648 ≤ r)
    (h2 : r < n) : eqU32 r n = false := by
  unfold eqU32 u32OfInt u32
  simp only [beq_eq_false_iff_ne, ne_eq]
  omega

/-- The three ways an operation that changes the flash runs: the write-enable
frame is short; the write-enable frame completes and the command frame is
short; both complete and the status poll follows. -/
theorem FlashOp.run_mutates (F : Ftdi) (w : World) (op : FlashOp) (hop : op.mutates = true) :
    (eqU32 (F.write_data w.chan (ConfigWriteCommand.frame F w.gGPIO CMD_WRITE_ENABLE)) 11 = false →
      op.run F w = (false, { w.call op with chan := w.chan ++
        [Ev.write (ConfigWriteCommand.frame F w.gGPIO CMD_WRITE_ENABLE)] })) ∧
    (eqU32 (F.write_data w.chan (ConfigWriteCommand.frame F w.gGPIO CMD_WRITE_ENABLE)) 11 = true →
      eqU32 (F.write_data (w.chan ++
        [Ev.write (ConfigWriteCommand.frame F w.gGPIO CMD_WRITE_ENABLE)])
        (op.command F w.gGPIO)) op.commandLen = false →
      op.run F w = (false, { w.call op with chan := w.chan ++
        [Ev.write (ConfigWriteCommand.frame F w.gGPIO CMD_WRITE_ENABLE),
         Ev.write (op.command F w.gGPIO)] })) ∧
    (eqU32 (F.write_data w.chan (ConfigWriteCommand.frame F w.gGPIO CMD_WRITE_ENABLE)) 11 = true →
      eqU32 (F.write_data (w.chan ++
        [Ev.write (ConfigWriteCommand.frame F w.gGPIO CMD_WRITE_ENABLE)])
        (op.command F w.gGPIO)) op.commandLen = true →
      op.run F w = ConfigPollStatusComplete F { w.call op with chan := w.chan ++
        [Ev.write (ConfigWriteCommand.frame F w.gGPIO CMD_WRITE_ENABLE),
         Ev.write (op.command F w.gGPIO)] }) := by
  cases op with
  | eraseAll =>
    refine ⟨fun h1 => ?_, fun h1 h2 => ?_, fun h1 h2 => ?_⟩
    · simp only [FlashOp.run, ConfigEraseAll, ConfigWriteEnable, ConfigWriteCommand,
        ftdi_write_data, World.call, h1]
      simp
    · simp only [FlashOp.command, FlashOp.commandLen] at h2
      simp only [FlashOp.run, FlashOp.command, ConfigEraseAll, ConfigWriteEnable,
        ConfigWriteCommand, ftdi_write_data, World.call, h1, h2]
      simp
    · simp only [FlashOp.command, FlashOp.commandLen] at h2
      simp only [FlashOp.run, FlashOp.command, ConfigEraseAll, ConfigWriteEnable,
        ConfigWriteCommand, ftdi_write_data, World.call, h1, h2]
      simp
  | eraseSector addr =>
    refine ⟨fun h1 => ?_, fun h1 h2 => ?_, fun h1 h2 => ?_⟩
    · simp only [FlashOp.run, ConfigEraseSector, ConfigWriteEnable, ConfigWriteCommand,
        ftdi_write_data, World.call, h1]
      simp
    · simp only [FlashOp.command, FlashOp.commandLen] at h2
      simp only [FlashOp.run, FlashOp.command, ConfigEraseSector, ConfigWriteEnable,
        ConfigWriteCommand, ConfigWriteCommandWithAddrAndData, ftdi_write_data, World.call, h1]
      simp [u32, h2]
    · simp only [FlashOp.command, FlashOp.commandLen] at h2
      simp only [FlashOp.run, FlashOp.command, ConfigEraseSector, ConfigWriteEnable,
        ConfigWriteCommand, ConfigWriteCommandWithAddrAndData, ftdi_write_data, World.call, h1]
      simp [u32, h2]
  | eraseBlock32 addr =>
    refine ⟨fun h1 => ?_, fun h1 h2 => ?_, fun h1 h2 => ?_⟩
    · simp only [FlashOp.run, ConfigEraseBlock32, ConfigWriteEnable, ConfigWriteCommand,
        ftdi_write_data, World.call, h1]
      simp
    · simp only [FlashOp.command, FlashOp.commandLen] at h2
      simp only [FlashOp.run, FlashOp.command, ConfigEraseBlock32, ConfigWriteEnable,
        ConfigWriteCommand, ConfigWriteCommandWithAddrAndData, ftdi_write_data, World.call, h1]
      simp [u32, h2]
    · simp only [FlashOp.command, FlashOp.commandLen] at h2
      simp only [FlashOp.run, FlashOp.command, ConfigEraseBlock32, ConfigWriteEnable,
        ConfigWriteCommand, ConfigWriteCommandWithAddrAndData, ftdi_write_data, World.call, h1]
      simp [u32, h2]
  | eraseBlock64 addr =>
    refine ⟨fun h1 => ?_, fun h1 h2 => ?_, fun h1 h2 => ?_⟩
    · simp only [FlashOp.run, ConfigEraseBlock64, ConfigWriteEnable, ConfigWriteCommand,
        ftdi_write_data, World.call, h1]
      simp
    · simp only [FlashOp.command, FlashOp.commandLen] at h2
      simp only [FlashOp.run, FlashOp.command, ConfigEraseBlock64, ConfigWriteEnable,
        ConfigWriteCommand, ConfigWriteCommandWithAddrAndData, ftdi_write_data, World.call, h1]
      simp [u32, h2]
    · simp only [FlashOp.command, FlashOp.commandLen] at h2
      simp only [FlashOp.run, FlashOp.command, ConfigEraseBlock64, ConfigWriteEnable,
        ConfigWriteCommand, ConfigWriteCommandWithAddrAndData, ftdi_write_data, World.call, h1]
      simp [u32, h2]
  | writePage addr data size =>
    have hs : ¬ size > 256 := by
      simp only [FlashOp.mutates, decide_eq_true_eq] at hop
      omega
    refine ⟨fun h1 => ?_, fun h1 h2 => ?_, fun h1 h2 => ?_⟩
    · simp only [FlashOp.run, ConfigWritePage, hs, if_false, ConfigWriteEnable,
        ConfigWriteCommand, ftdi_write_data, World.call, h1]
      simp
    · simp only [FlashOp.command, FlashOp.commandLen] at h2
      simp only [FlashOp.run, FlashOp.command, ConfigWritePage, hs, if_false, ConfigWriteEnable,
        ConfigWriteCommand, ConfigWriteCommandWithAddrAndData, ftdi_write_data, World.call, h1,
        h2]
      simp
    · simp only [FlashOp.command, FlashOp.commandLen] at h2
      simp only [FlashOp.run, FlashOp.command, ConfigWritePage, hs, if_false, ConfigWriteEnable,
        ConfigWriteCommand, ConfigWriteCommandWithAddrAndData, ftdi_write_data, World.call, h1,
        h2]
      simp
  | readBytes addr size => simp [FlashOp.mutates] at hop

/-- The requests of an operation that changes the flash start with the
write-enable frame; each of the others is the command frame of the operation or
a request of the status poll, of at most three bytes. -/
theorem FlashOp.run_chan (F : Ftdi) (w : World) (op : FlashOp) (hop : op.mutates = true) :
    ∃ evs, (op.run F w).2.chan =
        w.chan ++ Ev.write (ConfigWriteCommand.frame F w.gGPIO CMD_WRITE_ENABLE) :: evs ∧
      ∀ e ∈ evs, e = Ev.write (op.command F w.gGPIO) ∨ e.size ≤ 3 := by
  obtain ⟨c1, c2, c3⟩ := FlashOp.run_mutates F w op hop
  by_cases h1 : eqU32 (F.write_data w.chan (ConfigWriteCommand.frame F w.gGPIO CMD_WRITE_ENABLE))
      11 = true
  · by_cases h2 : eqU32 (F.write_data (w.chan ++
        [Ev.write (ConfigWriteCommand.frame F w.gGPIO CMD_WRITE_ENABLE)])
        (op.command F w.gGPIO)) op.commandLen = true
    · obtain ⟨evs, p1, p2⟩ := ConfigPollStatusComplete_small F { w.call op with chan := w.chan ++
        [Ev.write (ConfigWriteCommand.frame F w.gGPIO CMD_WRITE_ENABLE),
         Ev.write (op.command F w.gGPIO)] }
      refine ⟨Ev.write (op.command F w.gGPIO) :: evs, ?_, ?_⟩
      · rw [c3 h1 h2, p1]
        simp
      · intro e he
        rcases List.mem_cons.mp he with he | he
        · exact Or.inl he
        · exact Or.inr (p2 e he)
    · refine ⟨[Ev.write (op.command F w.gGPIO)], ?_, ?_⟩
      · rw [c2 h1 (by simpa using h2)]
      · intro e he
        exact Or.inl (List.mem_singleton.mp he)
  · refine ⟨[], ?_, by simp⟩
    rw [c1 (by simpa using h1)]

/-- C12. `ConfigWritePage` with a size above 256 returns false and makes no
request to the channel (no write, no read), whatever the address; the cached
pin byte is unchanged.  And no call of `ConfigWritePage` writes a buffer of
more than `17 + 256` bytes: a page program frame carries at most 256 bytes of
data. -/
theorem C12_write_page_rejects_long_page (F : Ftdi) (w : World) (addr : Nat) (data : List Nat)
    (size : Nat) (hsize : size > 256) :
    (ConfigWritePage F w addr data size).1 = false ∧
    (ConfigWritePage F w addr data size).2.chan = w.chan ∧
    World.gGPIO (ConfigWritePage F w addr data size).2 = w.gGPIO ∧
    ∀ (w1 : World) (addr1 : Nat) (data1 : List Nat) (size1 : Nat),
      ∃ evs, (ConfigWritePage F w1 addr1 data1 size1).2.chan = w1.chan ++ evs ∧
        ∀ buf, Ev.write buf ∈ evs → buf.length ≤ 17 + 256 := by
  refine ⟨by simp [ConfigWritePage, hsize], by simp [ConfigWritePage, hsize, World.call],
    by simp [ConfigWritePage, hsize, World.call], ?_⟩
  intro w1 addr1 data1 size1
  by_cases hs : size1 > 256
  · exact ⟨[], by simp [ConfigWritePage, hs, World.call], by simp⟩
  · obtain ⟨evs, h1, h2⟩ := FlashOp.run_chan F w1 (FlashOp.writePage addr1 data1 size1)
      (by simp only [FlashOp.mutates, decide_eq_true_eq]; omega)
    refine ⟨_, h1, ?_⟩
    intro buf hb
    rcases List.mem_cons.mp hb with hb | hb
    · cases hb
      simp [ConfigWriteCommand.frame]
    · rcases h2 _ hb with h | h
      · cases h
        have := ConfigWriteCommandWithAddrAndData.frame_length_le F w1.gGPIO CMD_PROGRAM_PAGE
          addr1 (OutData.ptr data1) false size1
        simp only [FlashOp.command]
        omega
      · simp only [Ev.size] at h
        omega

/-- C12 at a concrete input: a page of 257 bytes at address 0. -/
theorem C12_write_page_rejects_long_page_witness :
    (257 > 256) ∧
    (ConfigWritePage Ftdi.ideal World.init 0 (List.replicate 257 0) 257).1 = false ∧
    (ConfigWritePage Ftdi.ideal World.init 0 (List.replicate 257 0) 257).2.chan = [] :=
  have h := C12_write_page_rejects_long_page Ftdi.ideal World.init 0 (List.replicate 257 0) 257
    (by decide)
  ⟨by decide, h.1, h.2.1⟩

/-- C13. Each of `ConfigEraseAll`, `ConfigEraseSector`, `ConfigEraseBlock32`,
`ConfigEraseBlock64` and `ConfigWritePage` with a size of at most 256 first
writes the write-enable frame (command byte `0x06`) to the channel.  When the
count returned for it is short, the operation returns false and that frame is
all it has written.  When it is complete the operation writes its own command
frame next; when the count returned for that is short it returns false with
nothing more written, and when it is complete the rest of the run, and the
result, are those of `ConfigPollStatusComplete`. -/
theorem C13_write_enable_first (F : Ftdi) (w : World) (op : FlashOp)
    (hop : op.mutates = true) :
    (ConfigWriteCommand.frame F w.gGPIO CMD_WRITE_ENABLE)[6]? = some 0x06 ∧
    (∃ rest, (op.run F w).2.chan =
      w.chan ++ Ev.write (ConfigWriteCommand.frame F w.gGPIO CMD_WRITE_ENABLE) :: rest) ∧
    (-2147483648 ≤ F.write_data w.chan (ConfigWriteCommand.frame F w.gGPIO CMD_WRITE_ENABLE) →
      F.write_data w.chan (ConfigWriteCommand.frame F w.gGPIO CMD_WRITE_ENABLE) < 11 →
      op.run F w = (false, { w.call op with chan := w.chan ++
        [Ev.write (ConfigWriteCommand.frame F w.gGPIO CMD_WRITE_ENABLE)] })) ∧
    (F.write_data w.chan (ConfigWriteCommand.frame F w.gGPIO CMD_WRITE_ENABLE) = 11 →
      -2147483648 ≤ F.write_data (w.chan ++
        [Ev.write (ConfigWriteCommand.frame F w.gGPIO CMD_WRITE_ENABLE)])
        (op.command F w.gGPIO) →
      F.write_data (w.chan ++
        [Ev.write (ConfigWriteCommand.frame F w.gGPIO CMD_WRITE_ENABLE)])
        (op.command F w.gGPIO) < (op.commandLen : Int) →
      op.run F w = (false, { w.call op with chan := w.chan ++
        [Ev.write (ConfigWriteCommand.frame F w.gGPIO CMD_WRITE_ENABLE),
         Ev.write (op.command F w.gGPIO)] })) ∧
    (F.write_data w.chan (ConfigWriteCommand.frame F w.gGPIO CMD_WRITE_ENABLE) = 11 →
      F.write_data (w.chan ++
        [Ev.write (ConfigWriteCommand.frame F w.gGPIO CMD_WRITE_ENABLE)])
        (op.command F w.gGPIO) = (op.commandLen : Int) →
      op.run F w = ConfigPollStatusComplete F { w.call op with chan := w.chan ++
        [Ev.write (ConfigWriteCommand.frame F w.gGPIO CMD_WRITE_ENABLE),
         Ev.write (op.command F w.gGPIO)] }) := by
  obtain ⟨c1, c2, c3⟩ := FlashOp.run_mutates F w op hop
  obtain ⟨evs, e1, _⟩ := FlashOp.run_chan F w op hop
  have hlen : op.commandLen < 2147483648 := by
    cases op with
    | writePage addr data size =>
      simp only [FlashOp.mutates, decide_eq_true_eq] at hop
      simp only [FlashOp.commandLen, u32]
      split_ifs <;> omega
    | readBytes addr size => simp [FlashOp.mutates] at hop
    | _ => simp [FlashOp.commandLen]
  have h11 : eqU32 11 11 = true := by decide
  refine ⟨rfl, ⟨evs, e1⟩, fun a b => c1 (eqU32_short _ 11 (by decide) a b),
    fun a b d => ?_, fun a b => ?_⟩
  · rw [a] at c2
    exact c2 h11 (eqU32_short _ _ hlen b d)
  · rw [a] at c3
    rw [b] at c3
    exact c3 h11 (eqU32_length _)

/-- C13 at a concrete input: a sector erase on an adapter whose first write
transfers nothing. -/
theorem C13_write_enable_first_witness :
    FlashOp.mutates (FlashOp.eraseSector 4096) = true ∧
    FlashOp.run (Ftdi.failAfter 0) World.init (FlashOp.eraseSector 4096) =
      (false, { World.init.call (FlashOp.eraseSector 4096) with
        chan := World.init.chan ++ [Ev.write
          (ConfigWriteCommand.frame (Ftdi.failAfter 0) World.init.gGPIO CMD_WRITE_ENABLE)] }) :=
  ⟨rfl, (C13_write_enable_first (Ftdi.failAfter 0) World.init (FlashOp.eraseSector 4096)
    rfl).2.2.1 (by decide) (by decide)⟩

/-! ## Chip select -/

theorem selectHigh_selectLow (g : Nat) : selectHigh (selectLow g) = selectHigh g := by
  unfold selectHigh selectLow
  omega

set_option maxRecDepth 20000 in
theorem select_bit_byte : ∀ q, q < 16 → ∀ r, r < 8 →
    (q * 16 + r) &&& 8 = 0 ∧ (q * 16 + 8 + r) &&& 8 = 8 ∧
    (q * 16 + r) &&& 16 = (q * 16 + 8 + r) &&& 16 := by
  decide

theorem selectLow_and_SS_N (g : Nat) : selectLow g &&& CA_SS_N = 0 :=
  (select_bit_byte (g / 16 % 16) (Nat.mod_lt _ (by decide)) (g % 8) (Nat.mod_lt _ (by decide))).1

theorem selectHigh_and_SS_N (g : Nat) : selectHigh g &&& CA_SS_N = CA_SS_N :=
  (select_bit_byte (g / 16 % 16) (Nat.mod_lt _ (by decide)) (g % 8) (Nat.mod_lt _ (by decide))).2.1

/-- C18 as stated fails: on an adapter whose first write transfers nothing (the
write that asserts select is short), and on adapters whose second or third
write is the first to transfer nothing (the header or the opcode of the
status-read shift is short), `ConfigPollStatusComplete` from the state at
process start returns false and leaves the cached pin byte `0x10`, the `SS_N`
bit cleared. -/
theorem C18_counterexample :
    (ConfigPollStatusComplete (Ftdi.failAfter 0) World.init).1 = false ∧
    World.gGPIO (ConfigPollStatusComplete (Ftdi.failAfter 0) World.init).2 = 0x10 ∧
    World.gGPIO (ConfigPollStatusComplete (Ftdi.failAfter 1) World.init).2 = 0x10 ∧
    World.gGPIO (ConfigPollStatusComplete (Ftdi.failAfter 2) World.init).2 = 0x10 ∧
    0x10 &&& CA_SS_N = 0 ∧ World.init.gGPIO &&& CA_SS_N = CA_SS_N := by
  decide

/-- C18 (amended). When the write that asserts select and the shift of the
status-read opcode both complete, `ConfigPollStatusComplete` returns with the
`SS_N` bit set in the cached pin byte, whatever the channel does afterwards
(short reads or writes while polling, a short write when select is released):
the byte is the one it had on entry with bit 3 set.  In every other case it
returns false and the cached pin byte is the one it had on entry with bit 3
cleared. -/
theorem C18_poll_select_release (F : Ftdi) (w : World) :
    ((ConfigChipSelect F w true).1 = true →
      (ConfigWriteSPI F (ConfigChipSelect F w true).2 (OutData.imm CMD_READ_STATUS_REGISTER1) 1
        false).1 = true →
      World.gGPIO (ConfigPollStatusComplete F w).2 = selectHigh w.gGPIO ∧
      World.gGPIO (ConfigPollStatusComplete F w).2 &&& CA_SS_N = CA_SS_N) ∧
    (¬ ((ConfigChipSelect F w true).1 = true ∧
        (ConfigWriteSPI F (ConfigChipSelect F w true).2 (OutData.imm CMD_READ_STATUS_REGISTER1) 1
          false).1 = true) →
      (ConfigPollStatusComplete F w).1 = false ∧
      World.gGPIO (ConfigPollStatusComplete F w).2 = selectLow w.gGPIO ∧
      World.gGPIO (ConfigPollStatusComplete F w).2 &&& CA_SS_N = 0) := by
  have hlow : World.gGPIO (ConfigChipSelect F w true).2 = selectLow w.gGPIO := by
    rw [ConfigChipSelect_pins, if_pos rfl, selectLow_eq]
  constructor
  · intro h1 h2
    have e : World.gGPIO (ConfigPollStatusComplete F w).2 = selectHigh w.gGPIO := by
      simp only [ConfigPollStatusComplete, h1, h2, if_true]
      rw [ConfigChipSelect_pins]
      simp only [Bool.false_eq_true, if_false]
      rw [selectHigh_eq, ConfigPollStatusComplete.loop_pins, ConfigWriteSPI_pins, hlow,
        selectHigh_selectLow]
    exact ⟨e, by rw [e, selectHigh_and_SS_N]⟩
  · intro h
    by_cases h1 : (ConfigChipSelect F w true).1 = true
    · have h2 : ¬ (ConfigWriteSPI F (ConfigChipSelect F w true).2
          (OutData.imm CMD_READ_STATUS_REGISTER1) 1 false).1 = true := fun h2 => h ⟨h1, h2⟩
      have e : World.gGPIO (ConfigPollStatusComplete F w).2 = selectLow w.gGPIO := by
        simp only [ConfigPollStatusComplete, h1, h2, if_true, if_false, Bool.false_eq_true]
        rw [ConfigWriteSPI_pins, hlow]
      refine ⟨?_, e, by rw [e, selectLow_and_SS_N]⟩
      simp only [ConfigPollStatusComplete, h1, h2, if_true, if_false, Bool.false_eq_true]
    · have e : World.gGPIO (ConfigPollStatusComplete F w).2 = selectLow w.gGPIO := by
        simp only [ConfigPollStatusComplete, h1, if_false, Bool.false_eq_true]
        rw [hlow]
      refine ⟨?_, e, by rw [e, selectLow_and_SS_N]⟩
      simp only [ConfigPollStatusComplete, h1, if_false, Bool.false_eq_true]

/-- C18 at a concrete input: the process-start state on an adapter where every
transfer completes. -/
theorem C18_poll_select_release_witness :
    (ConfigChipSelect Ftdi.ideal World.init true).1 = true ∧
    (ConfigWriteSPI Ftdi.ideal (ConfigChipSelect Ftdi.ideal World.init true).2
      (OutData.imm CMD_READ_STATUS_REGISTER1) 1 false).1 = true ∧
    World.gGPIO (ConfigPollStatusComplete Ftdi.ideal World.init).2 = selectHigh World.init.gGPIO ∧
    World.gGPIO (ConfigPollStatusComplete Ftdi.ideal World.init).2 &&& CA_SS_N = CA_SS_N :=
  have h1 : (ConfigChipSelect Ftdi.ideal World.init true).1 = true := by decide
  have h2 : (ConfigWriteSPI Ftdi.ideal (ConfigChipSelect Ftdi.ideal World.init true).2
      (OutData.imm CMD_READ_STATUS_REGISTER1) 1 false).1 = true := by decide
  ⟨h1, h2, (C18_poll_select_release Ftdi.ideal World.init).1 h1 h2⟩

set_option maxRecDepth 100000 in
theorem select_testBit_byte : ∀ g, g < 256 → ∀ i, i < 8 →
    (selectLow g).testBit i = (decide (i ≠ 3) && g.testBit i) ∧
    (selectHigh g).testBit i = (decide (i = 3) || g.testBit i) := by
  decide

theorem select_testBit (g : Nat) (hg : g < 256) (i : Nat) :
    (selectLow g).testBit i = (decide (i ≠ 3) && g.testBit i) ∧
    (selectHigh g).testBit i = (decide (i = 3) || g.testBit i) := by
  by_cases hi : i < 8
  · exact select_testBit_byte g hg i hi
  · have hp : 256 ≤ 2 ^ i :=
      le_trans (by decide : 256 ≤ 2 ^ 8) (Nat.pow_le_pow_right (by decide) (by omega))
    have h1 : (selectLow g).testBit i = false :=
      Nat.testBit_lt_two_pow (lt_of_lt_of_le (by unfold selectLow; omega) hp)
    have h2 : (selectHigh g).testBit i = false :=
      Nat.testBit_lt_two_pow (lt_of_lt_of_le (by unfold selectHigh; omega) hp)
    have h3 : g.testBit i = false := Nat.testBit_lt_two_pow (lt_of_lt_of_le hg hp)
    have h4 : i ≠ 3 := by omega
    simp [h1, h2, h3, h4]

theorem frameLayout_bracket (F : Ftdi) (g cmd addr : Nat) (bufOut : OutData) (bufIn : Bool)
    (size : Nat) :
    ∃ mid, frameLayout F g cmd addr bufOut bufIn size =
      [F.SET_BITS_LOW % 256, selectLow g, PIN_OUTPUTS] ++ mid ++
        [F.SET_BITS_LOW % 256, selectHigh g, PIN_OUTPUTS, F.SEND_IMMEDIATE % 256] := by
  refine ⟨[(F.MPSSE_DO_WRITE ||| F.MPSSE_WRITE_NEG) % 256, 3, 0,
      cmd, addr / 65536 % 256, addr / 256 % 256, addr % 256]
    ++ (if size > 0 then
          [(F.MPSSE_DO_WRITE ||| F.MPSSE_WRITE_NEG |||
              (if bufIn then F.MPSSE_DO_READ else 0)) % 256,
           (size - 1) % 256, (size - 1) / 256 % 256]
          ++ (match bufOut with
              | OutData.ptr data => data.take size
              | OutData.imm v => List.replicate size (v % 256))
        else []), ?_⟩
  unfold frameLayout
  simp only [List.append_assoc]

/-- C19. For every cached pin byte `g` (a `u8`) and every command byte, the
one buffer that `ConfigWriteCommand` writes is the 11 bytes set-pins, `g` with
select low, direction mask, write opcode, 0, 0, command, set-pins, `g` with
select high, direction mask, send-immediate.  The buffer of
`ConfigWriteCommandWithAddrAndData` starts and ends with the same set-pins
triples.  The two pin bytes have bit 3 (`SS_N`) cleared and set, and every
other bit as in `g`, so the level of the reset line is that of `g`.  Neither
function changes the cached pin byte. -/
theorem C19_select_bracketing (F : Ftdi) (w : World) (cmd addr : Nat) (bufOut : OutData)
    (bufIn : Bool) (size : Nat) (hg : w.gGPIO < 256) :
    (ConfigWriteCommand F w cmd).2.chan = w.chan ++
      [Ev.write [F.SET_BITS_LOW % 256, selectLow w.gGPIO, PIN_OUTPUTS,
        (F.MPSSE_DO_WRITE ||| F.MPSSE_WRITE_NEG) % 256, 0, 0, cmd,
        F.SET_BITS_LOW % 256, selectHigh w.gGPIO, PIN_OUTPUTS, F.SEND_IMMEDIATE % 256]] ∧
    (∃ mid rest, (ConfigWriteCommandWithAddrAndData F w cmd addr bufOut bufIn size).2.2.chan =
      w.chan ++ Ev.write ([F.SET_BITS_LOW % 256, selectLow w.gGPIO, PIN_OUTPUTS] ++ mid ++
        [F.SET_BITS_LOW % 256, selectHigh w.gGPIO, PIN_OUTPUTS, F.SEND_IMMEDIATE % 256])
        :: rest ∧ ∀ e ∈ rest, e.isRead = true) ∧
    (selectLow w.gGPIO).testBit 3 = false ∧ (selectHigh w.gGPIO).testBit 3 = true ∧
    (∀ i, i ≠ 3 → (selectLow w.gGPIO).testBit i = w.gGPIO.testBit i ∧
      (selectHigh w.gGPIO).testBit i = w.gGPIO.testBit i) ∧
    selectLow w.gGPIO &&& CA_CRESET_N = w.gGPIO &&& CA_CRESET_N ∧
    selectHigh w.gGPIO &&& CA_CRESET_N = w.gGPIO &&& CA_CRESET_N ∧
    World.gGPIO (ConfigWriteCommand F w cmd).2 = w.gGPIO ∧
    World.gGPIO (ConfigWriteCommandWithAddrAndData F w cmd addr bufOut bufIn size).2.2 = w.gGPIO := by
  have hbit : ∀ x y : Nat, (∀ i, i ≠ 3 → x.testBit i = y.testBit i) →
      x &&& CA_CRESET_N = y &&& CA_CRESET_N := by
    intro x y h
    apply Nat.eq_of_testBit_eq
    intro i
    rw [Nat.testBit_and, Nat.testBit_and]
    by_cases hi : i = 3
    · subst hi
      have : CA_CRESET_N.testBit 3 = false := by decide
      simp [this]
    · rw [h i hi]
  refine ⟨?_, ?_, ?_, ?_, ?_, ?_, ?_, rfl, ConfigWriteCommandWithAddrAndData_pins _ _ _ _ _ _ _⟩
  · rw [ConfigWriteCommand_chan]
    unfold ConfigWriteCommand.frame
    rw [selectLow_eq, selectHigh_eq]
    rfl
  · obtain ⟨rest, h1, h2⟩ := ConfigWriteCommandWithAddrAndData_chan F w cmd addr bufOut bufIn size
    obtain ⟨mid, hmid⟩ := frameLayout_bracket F w.gGPIO cmd addr bufOut bufIn size
    refine ⟨mid, rest, ?_, ?_⟩
    · rw [h2, ConfigWriteCommandWithAddrAndData.frame_eq, hmid]
    · intro e he
      rcases h1 with h1 | ⟨_, h1⟩
      · rw [h1] at he
        simp at he
      · rw [h1] at he
        rw [List.mem_singleton.mp he]
        rfl
  · simpa using (select_testBit w.gGPIO hg 3).1
  · simpa using (select_testBit w.gGPIO hg 3).2
  · intro i hi
    have h := select_testBit w.gGPIO hg i
    simpa [hi] using h
  · exact hbit _ _ fun i hi => by
      have h := select_testBit w.gGPIO hg i
      simpa [hi] using h.1
  · exact hbit _ _ fun i hi => by
      have h := select_testBit w.gGPIO hg i
      simpa [hi] using h.2

/-- C19 at a concrete input: the write-enable command from the process-start
state. -/
theorem C19_select_bracketing_witness :
    World.init.gGPIO < 256 ∧
    (ConfigWriteCommand Ftdi.ideal World.init CMD_WRITE_ENABLE).2.chan =
      [Ev.write [0x80, 0x10, 0x1b, 0x11, 0, 0, 0x06, 0x80, 0x18, 0x1b, 0x87]] :=
  ⟨by decide, (C19_select_bracketing Ftdi.ideal World.init CMD_WRITE_ENABLE 0 (OutData.imm 0)
    false 0 (by decide)).1⟩

/-! ## Requests per transport call -/

/-- C20 as stated fails: on an adapter where every transfer completes, a shift
of one fill byte with read-back makes two writes before its read, a shift of a
buffer makes two writes, and a shift of three fill bytes makes four. -/
theorem C20_counterexample :
    (ConfigWriteSPI Ftdi.ideal World.init (OutData.imm 0) 1 true).2.2.chan =
      [Ev.write [0x31, 0, 0], Ev.write [0], Ev.read 1] ∧
    (ConfigWriteSPI Ftdi.ideal World.init (OutData.ptr [1, 2, 3]) 3 false).2.2.chan =
      [Ev.write [0x11, 2, 0], Ev.write [1, 2, 3]] ∧
    (ConfigWriteSPI Ftdi.ideal World.init (OutData.imm 0xff) 3 false).2.2.chan =
      [Ev.write [0x11, 2, 0], Ev.write [0xff], Ev.write [0xff], Ev.write [0xff]] ∧
    [Ev.write [0x31, 0, 0], Ev.write [0], Ev.read 1].countP Ev.isWrite ≠ 1 := by
  decide

/-- C20 (amended). `ConfigControl` and `ConfigIdle` make exactly one request to
the channel, a write of three bytes.  `ConfigWriteSPI` with a length
`1 ≤ n < 2^31` first writes the three-byte header; then `k` data writes, where
`k ≤ 1` for a buffer (the first `n` bytes in one write) and `k ≤ n` for a fill
byte (one byte per write), and `k ≥ 1` when the count returned for the header
is complete; then at most one read, of `n` bytes, and none without an input
buffer.  When it returns true, `k` is 1 for a buffer and `n` for a fill byte,
and there is one read iff an input buffer is given. -/
theorem C20_transport_requests (F : Ftdi) (w : World) (nBits : Nat) (o : OutData) (n : Nat)
    (i : Bool) (hn1 : 1 ≤ n) (hn2 : n < 2147483648) :
    (ConfigControl F w nBits).2.chan = w.chan ++ [Ev.write [u8 F.SET_BITS_LOW, nBits, PIN_OUTPUTS]] ∧
    (ConfigIdle F w).2.chan = w.chan ++ [Ev.write [u8 F.SET_BITS_LOW, CA_SS_N ||| CA_CRESET_N, 0]] ∧
    ∃ k rs, (ConfigWriteSPI F w o n i).2.2.chan =
        w.chan ++ Ev.write
          [u8 (F.MPSSE_DO_WRITE ||| F.MPSSE_WRITE_NEG ||| (if i then F.MPSSE_DO_READ else 0)),
           (n - 1) % 256, (n - 1) / 256 % 256] ::
          (List.replicate k (Ev.write (match o with
            | OutData.ptr data => data.take n
            | OutData.imm v => [u8 v])) ++ rs) ∧
      k ≤ (match o with
           | OutData.ptr _ => 1
           | OutData.imm _ => n) ∧
      (rs = [] ∨ (i = true ∧ rs = [Ev.read n])) ∧
      (eqU32 (F.write_data w.chan
          [u8 (F.MPSSE_DO_WRITE ||| F.MPSSE_WRITE_NEG ||| (if i then F.MPSSE_DO_READ else 0)),
           (n - 1) % 256, (n - 1) / 256 % 256]) 3 = true → 1 ≤ k) ∧
      ((ConfigWriteSPI F w o n i).1 = true →
        k = (match o with
             | OutData.ptr _ => 1
             | OutData.imm _ => n) ∧
        rs = if i then [Ev.read n] else []) := by
  have hu : u32 n = n := by unfold u32; omega
  have e1 : u8OfInt ((n : Int) - 1) = (n - 1) % 256 := by unfold u8OfInt; omega
  have e2 : u8OfInt (((n : Int) - 1) >>> (8 : Nat)) = (n - 1) / 256 % 256 := by
    rw [Int.shiftRight_eq_div_pow]
    unfold u8OfInt
    omega
  obtain ⟨ws, rs, h1, ⟨k, k1, k2, k3, k4⟩, h3, h4⟩ := ConfigWriteSPI_chan F w o n i
  rw [e1, e2] at h1 k4
  refine ⟨rfl, rfl, k, rs, ?_, ?_, h3, ?_, ?_⟩
  · rw [h1, k2]
  · cases o with
    | ptr data => exact k1
    | imm v => simpa [hu] using k1
  · intro h
    exact k4 h (by omega)
  · intro h
    refine ⟨?_, h4 h⟩
    have := k3 h
    cases o with
    | ptr data => exact this
    | imm v => simpa [hu] using this

/-- C20 at a concrete input: the shift of one fill byte with read-back that the
status poll makes. -/
theorem C20_transport_requests_witness :
    (1 ≤ 1 ∧ 1 < 2147483648) ∧
    (ConfigControl Ftdi.ideal World.init 0x10).2.chan = [Ev.write [0x80, 0x10, 0x1b]] :=
  ⟨by decide, (C20_transport_requests Ftdi.ideal World.init 0x10 (OutData.imm 0) 1 true
    (by decide) (by decide)).1⟩

/-! ## Steps and end of the erase loop -/

theorem ConfigEraseArea.pick_le (p r : Nat) (hr0 : r ≠ 0) (hr : r % 4096 = 0) :
    ConfigEraseArea.pick p r ≤ r ∧ (r - ConfigEraseArea.pick p r) % 4096 = 0 ∧
    (ConfigEraseArea.pick p r = 4096 ∨ ConfigEraseArea.pick p r = 32768 ∨
      ConfigEraseArea.pick p r = 65536) := by
  rcases ConfigEraseArea.pick_cases p r with ⟨h, _, h2⟩ | ⟨h, _, h2, _⟩ | ⟨h, _, _⟩ <;>
    rw [h] <;> omega

/-- One turn of the loop of `ConfigEraseArea`, with the bit tests written as
divisibility and the `u32` subtraction as a difference. -/
theorem ConfigEraseArea.loop_step (F : Ftdi) (fuel p r : Nat) (w : World) (hr0 : r ≠ 0)
    (hr : r % 4096 = 0) (hr2 : r < 4294967296) :
    ConfigEraseArea.loop F (fuel + 1) true p r w =
      (if p % 65536 = 0 ∧ 65536 ≤ r then
        ConfigEraseArea.loop F fuel (ConfigEraseBlock64 F w p).1 ((p + 65536) % 4294967296)
          (r - 65536) (ConfigEraseBlock64 F w p).2
      else if p % 32768 = 0 ∧ 32768 ≤ r then
        ConfigEraseArea.loop F fuel (ConfigEraseBlock32 F w p).1 ((p + 32768) % 4294967296)
          (r - 32768) (ConfigEraseBlock32 F w p).2
      else
        ConfigEraseArea.loop F fuel (ConfigEraseSector F w p).1 ((p + 4096) % 4294967296)
          (r - 4096) (ConfigEraseSector F w p).2) := by
  have e : ∀ g, g ≤ r → u32 (r + 4294967296 - g) = r - g := by
    intro g _
    unfold u32; omega
  rw [ConfigEraseArea.loop]
  simp only [hr0, bne_iff_ne, ne_eq, not_false_eq_true, Bool.true_and, if_true, decide_True,
    and_65535, and_32767, beq_iff_eq, Bool.and_eq_true, decide_eq_true_eq, ge_iff_le]
  by_cases c1 : p % 65536 = 0 ∧ 65536 ≤ r
  · rw [if_pos c1, if_pos c1, e 65536 c1.2]
    rfl
  · rw [if_neg c1, if_neg c1]
    by_cases c2 : p % 32768 = 0 ∧ 32768 ≤ r
    · rw [if_pos c2, if_pos c2, e 32768 c2.2]
      rfl
    · rw [if_neg c2, if_neg c2, e 4096 (by omega)]
      rfl

/-- The loop of `ConfigEraseArea` entered with `bOk` false ends at once. -/
theorem ConfigEraseArea.loop_false (F : Ftdi) (fuel p r : Nat) (w : World) :
    ConfigEraseArea.loop F fuel false p r w = some (false, w) := by
  unfold ConfigEraseArea.loop
  simp

/-- More iterations allowed do not change the result of the erase loop. -/
theorem ConfigEraseArea.loop_mono (F : Ftdi) (fuel : Nat) :
    ∀ (bOk : Bool) (p r : Nat) (w : World) (res : Bool × World),
      ConfigEraseArea.loop F fuel bOk p r w = some res →
      ∀ k, ConfigEraseArea.loop F (fuel + k) bOk p r w = some res := by
  induction fuel with
  | zero =>
    intro bOk p r w res h k
    unfold ConfigEraseArea.loop at h ⊢
    by_cases c : (bOk && r != 0) = true
    · simp [c] at h
    · simp only [c, Bool.false_eq_true, if_false] at h ⊢
      exact h
  | succ f ih =>
    intro bOk p r w res h k
    have ek : f + 1 + k = (f + k) + 1 := by omega
    rw [ek]
    rw [ConfigEraseArea.loop] at h ⊢
    by_cases c : (bOk && r != 0) = true
    · simp only [c, if_true] at h ⊢
      split_ifs at h ⊢
      · exact ih _ _ _ _ _ h k
      · exact ih _ _ _ _ _ h k
      · exact ih _ _ _ _ _ h k
    · simp only [c, Bool.false_eq_true, if_false] at h ⊢
      exact h

/-- When the erase loop, entered with `bOk` true, returns false, its final state
is the one in which an erase operation returned false. -/
theorem ConfigEraseArea.loop_failed (F : Ftdi) (fuel : Nat) :
    ∀ (p r : Nat) (w w2 : World),
      ConfigEraseArea.loop F fuel true p r w = some (false, w2) →
      ∃ (w1 : World) (op : FlashOp), op.isErase = true ∧ op.run F w1 = (false, w2) := by
  induction fuel with
  | zero =>
    intro p r w w2 h
    unfold ConfigEraseArea.loop at h
    by_cases c : (true && r != 0) = true
    · simp [c] at h
    · simp only [c, Bool.false_eq_true, if_false, Option.some.injEq, Prod.mk.injEq] at h
      exact absurd h.1 (by decide)
  | succ f ih =>
    intro p r w w2 h
    have key : ∀ (op : FlashOp) (q r1 : Nat), op.isErase = true →
        ConfigEraseArea.loop F f (op.run F w).1 q r1 (op.run F w).2 = some (false, w2) →
        ∃ (w1 : World) (op : FlashOp), op.isErase = true ∧ op.run F w1 = (false, w2) := by
      intro op q r1 hop h1
      cases hb : (op.run F w).1 with
      | true =>
        rw [hb] at h1
        exact ih _ _ _ _ h1
      | false =>
        rw [hb, ConfigEraseArea.loop_false] at h1
        simp only [Option.some.injEq, Prod.mk.injEq, true_and] at h1
        exact ⟨w, op, hop, by rw [← h1, ← hb]⟩
    rw [ConfigEraseArea.loop] at h
    by_cases c : (true && r != 0) = true
    · simp only [c, if_true] at h
      split_ifs at h
      · exact key (FlashOp.eraseBlock64 p) _ _ rfl h
      · exact key (FlashOp.eraseBlock32 p) _ _ rfl h
      · exact key (FlashOp.eraseSector p) _ _ rfl h
    · simp only [c, Bool.false_eq_true, if_false, Option.some.injEq, Prod.mk.injEq] at h
      exact absurd h.1 (by decide)

/-- C16. One step of the loop of `ConfigEraseArea` with remaining size `r > 0`
(a multiple of 4096 below `2^32`, as at every step of a run) at address `p`:
the operation entered is `ConfigEraseBlock64(p)` if `p` is a multiple of 65536
and `r ≥ 65536`, otherwise `ConfigEraseBlock32(p)` if `p` is a multiple of
32768 and `r ≥ 32768`, otherwise `ConfigEraseSector(p)`; the loop goes on with
the result of that operation, the address `p` plus the erased size (a `u32`)
and the size `r` minus the erased size.  The erased size is at most `r`, and
what remains is again a multiple of 4096 below `2^32`.  The run of
`ConfigEraseArea` is this loop from the aligned address and size, the size a
multiple of 4096 below `2^32`. -/
theorem C16_greedy_step (F : Ftdi) (fuel p r : Nat) (w : World) (hr0 : r ≠ 0)
    (hr : r % 4096 = 0) (hr2 : r < 4294967296) :
    ConfigEraseArea.loop F (fuel + 1) true p r w =
      (if p % 65536 = 0 ∧ 65536 ≤ r then
        ConfigEraseArea.loop F fuel (ConfigEraseBlock64 F w p).1 ((p + 65536) % 4294967296)
          (r - 65536) (ConfigEraseBlock64 F w p).2
      else if p % 32768 = 0 ∧ 32768 ≤ r then
        ConfigEraseArea.loop F fuel (ConfigEraseBlock32 F w p).1 ((p + 32768) % 4294967296)
          (r - 32768) (ConfigEraseBlock32 F w p).2
      else
        ConfigEraseArea.loop F fuel (ConfigEraseSector F w p).1 ((p + 4096) % 4294967296)
          (r - 4096) (ConfigEraseSector F w p).2) ∧
    (ConfigEraseBlock64 F w p).2.calls = w.calls ++ [FlashOp.eraseBlock64 p] ∧
    (ConfigEraseBlock32 F w p).2.calls = w.calls ++ [FlashOp.eraseBlock32 p] ∧
    (ConfigEraseSector F w p).2.calls = w.calls ++ [FlashOp.eraseSector p] ∧
    ConfigEraseArea.pick p r =
      (if p % 65536 = 0 ∧ 65536 ≤ r then 65536
       else if p % 32768 = 0 ∧ 32768 ≤ r then 32768 else 4096) ∧
    ConfigEraseArea.pick p r ≤ r ∧
    (r - ConfigEraseArea.pick p r) % 4096 = 0 ∧ r - ConfigEraseArea.pick p r < 4294967296 ∧
    (∀ (w0 : World) (addr size : Nat),
      ConfigEraseArea F w0 addr size =
        ConfigEraseArea.loop F (ConfigEraseArea.alignedSize addr size / 4096) true
          (addr &&& NOT_4095) (ConfigEraseArea.alignedSize addr size) w0 ∧
      ConfigEraseArea.alignedSize addr size % 4096 = 0 ∧
      ConfigEraseArea.alignedSize addr size < 4294967296) := by
  obtain ⟨h1, h2, _⟩ := ConfigEraseArea.pick_le p r hr0 hr
  exact ⟨ConfigEraseArea.loop_step F fuel p r w hr0 hr hr2, ConfigEraseBlock64_calls F w p,
    ConfigEraseBlock32_calls F w p, ConfigEraseSector_calls F w p, rfl, h1, h2, by omega,
    fun w0 addr size => ⟨rfl, ConfigEraseArea.alignedSize_mod addr size,
      ConfigEraseArea.alignedSize_lt addr size⟩⟩

/-- C16 at a concrete input: 68K left at address `0x10000`, a 64K block erase
and then 4K left at `0x20000`. -/
theorem C16_greedy_step_witness :
    ((69632 : Nat) ≠ 0 ∧ 69632 % 4096 = 0 ∧ 69632 < 4294967296) ∧
    ConfigEraseArea.loop Ftdi.ideal (1 + 1) true 65536 69632 World.init =
      ConfigEraseArea.loop Ftdi.ideal 1 (ConfigEraseBlock64 Ftdi.ideal World.init 65536).1
        131072 4096 (ConfigEraseBlock64 Ftdi.ideal World.init 65536).2 :=
  ⟨by decide, (C16_greedy_step Ftdi.ideal 1 65536 69632 World.init (by decide) (by decide)
    (by decide)).1⟩

/-- C17. For every address and size, also when the alignment arithmetic wraps
modulo `2^32`: the size after alignment is a multiple of 4096; the run of
`ConfigEraseArea` ends within `size / 4096` turns of its loop (more turns
allowed give the same result) and enters at most that many erase operations;
each turn takes 4096, 32768 or 65536 off a remaining size that is at least as
large.  The loop entered after a failed erase ends at once with no further
operation, so that when `ConfigEraseArea` returns false its final state is the
state in which an erase operation returned false. -/
theorem C17_erase_area_terminates (F : Ftdi) (w : World) (a s : Nat) :
    ConfigEraseArea.alignedSize a s % 4096 = 0 ∧
    (∃ res L, ConfigEraseArea F w a s = some res ∧
      res.2.calls = w.calls ++ L ∧ L.length ≤ ConfigEraseArea.alignedSize a s / 4096 ∧
      (∀ op ∈ L, op.isErase = true) ∧
      (∀ fuel, ConfigEraseArea.alignedSize a s / 4096 ≤ fuel →
        ConfigEraseArea.loop F fuel true (a &&& NOT_4095) (ConfigEraseArea.alignedSize a s) w
          = some res) ∧
      (res.1 = false → ∃ (w1 : World) (op : FlashOp), op.isErase = true ∧ op.run F w1 = (false, res.2))) ∧
    (∀ p r : Nat, r ≠ 0 → r % 4096 = 0 →
      ConfigEraseArea.pick p r ≤ r ∧ (r - ConfigEraseArea.pick p r) % 4096 = 0 ∧
      (ConfigEraseArea.pick p r = 4096 ∨ ConfigEraseArea.pick p r = 32768 ∨
        ConfigEraseArea.pick p r = 65536)) ∧
    (∀ (fuel p r : Nat) (w1 : World),
      ConfigEraseArea.loop F fuel false p r w1 = some (false, w1)) := by
  refine ⟨ConfigEraseArea.alignedSize_mod a s, ?_, ConfigEraseArea.pick_le,
    ConfigEraseArea.loop_false F⟩
  obtain ⟨res, L, h1, h2, _, h4, _⟩ := ConfigEraseArea_spec F w a s
  refine ⟨res, L, h1, h2, ?_, ?_, ?_, ?_⟩
  · exact le_trans h4.length_le (ConfigEraseArea.plan_length_le _ _ _)
  · intro op hop
    have hm := ConfigEraseArea.plan_eraseRange _ _ _ op (h4.subset hop)
    cases op <;> simp [FlashOp.eraseRange] at hm <;> rfl
  · intro fuel hf
    obtain ⟨k, hk⟩ : ∃ k, fuel = ConfigEraseArea.alignedSize a s / 4096 + k :=
      ⟨fuel - ConfigEraseArea.alignedSize a s / 4096, by omega⟩
    rw [hk]
    exact ConfigEraseArea.loop_mono F _ _ _ _ _ _ h1 k
  · intro hf
    have h1b : ConfigEraseArea.loop F (ConfigEraseArea.alignedSize a s / 4096) true
        (a &&& NOT_4095) (ConfigEraseArea.alignedSize a s) w = some (false, res.2) := by
      rw [← hf]
      exact h1
    exact ConfigEraseArea.loop_failed F _ _ _ _ _ h1b

/-! ## The passes of `ConfigProgramHex` on every adapter -/

theorem ConfigProgramHex.page_calls (F : Ftdi) (n : Nat) (w : World) (addr : Nat)
    (buf : List Nat) (read : Nat) :
    (ConfigProgramHex.page F n w addr buf read).2.calls =
      w.calls ++ [if n = 2 then FlashOp.readBytes addr read
        else FlashOp.writePage addr buf read] := by
  by_cases h : n = 2
  · subst h
    simp [ConfigProgramHex.page, ConfigReadBytes_calls]
  · simp [ConfigProgramHex.page, h, ConfigWritePage_calls]

theorem ConfigProgramHex.page_out (F : Ftdi) (n : Nat) (w : World) (addr : Nat)
    (buf : List Nat) (read : Nat) :
    (ConfigProgramHex.page F n w addr buf read).2.out = w.out := by
  by_cases h : n = 2
  · subst h
    simp [ConfigProgramHex.page, ConfigReadBytes_out]
  · simp [ConfigProgramHex.page, h, ConfigWritePage_out]

/-- The size `HexGetSize` returns, when not negative, is at most the number of
bytes the text decodes to. -/
theorem HexGetSize_le_image (s : List Byte) (h : 0 ≤ HexGetSize (some s)) :
    HexGetSize (some s) ≤ ((imageOf s).length : Int) := by
  have hl : (imageOf s).length = (hexDigits s).length / 2 :=
    length_pairUp _ (hexDigits s) (le_refl _)
  unfold HexGetSize at h ⊢
  simp only [] at h ⊢
  rw [HexGetSize_loop_spec s 0 (by decide) (by decide), Int.shiftRight_eq_div_pow] at h ⊢
  split_ifs at h ⊢
  · have hr := s32_range (0 + ((hexDigits s).length : Int))
    have hs : s32 (0 + ((hexDigits s).length : Int)) ≤ ((hexDigits s).length : Int) := by
      unfold s32
      omega
    rw [hl]
    push_cast
    omega
  · exact absurd h (by decide)

/-- The loop of a pass ends on every adapter, for a size `H` that is at most the
number of bytes the text decodes to; it enters only page operations of its
kind and prints only percentages. -/
theorem ConfigProgramHex.pages_total (F : Ftdi) (n H : Nat) (hH : H < 2147483648)
    (image : List Nat) (hle : H ≤ image.length) :
    ∀ (fuel : Nat) (w : World) (f : List Byte) (addr off : Nat) (pc : Int),
      pairUp (hexDigits f) = image.drop off → off ≤ image.length → off ≤ H + 256 →
      H - off ≤ fuel →
      ∃ total w1 L msgs,
        ConfigProgramHex.pages F n (H : Int) fuel w f addr off pc = some (total, w1) ∧
        w1.calls = w.calls ++ L ∧
        (∀ op ∈ L, if n = 2 then op.isReadBytes = true else op.isWritePage = true) ∧
        w1.out = w.out ++ msgs ∧ ∀ x ∈ msgs, x.isPercent = true := by
  have hu : u32OfInt (H : Int) = H := u32OfInt_natCast H (by omega)
  intro fuel
  induction fuel with
  | zero =>
    intro w f addr off pc _ _ _ hfuel
    refine ⟨off, w, [], [], ?_, by simp, by simp, by simp, by simp⟩
    rw [ConfigProgramHex.pages, hu, if_neg (by omega)]
  | succ k ih =>
    intro w f addr off pc hf hoff hoff2 hfuel
    by_cases hlt : off < H
    · obtain ⟨g1, g2, g3⟩ := HexGetBytes_page f image off hf
      rw [ConfigProgramHex.pages, hu, if_pos hlt]
      simp only [g1, g2]
      cases hr : (ConfigProgramHex.page F n w addr ((image.drop off).take 256)
          (min 256 (image.length - off))).1 with
      | false =>
        refine ⟨off, (ConfigProgramHex.page F n w addr ((image.drop off).take 256)
            (min 256 (image.length - off))).2, _, [], ?_,
          ConfigProgramHex.page_calls F n w addr ((image.drop off).take 256)
            (min 256 (image.length - off)), ?_,
          by rw [ConfigProgramHex.page_out]; simp, by simp⟩
        · simp
        · intro op hop
          rw [List.mem_singleton.mp hop]
          split_ifs <;> rfl
      | true =>
        have htot : u32 (off + min 256 (image.length - off)) =
            off + min 256 (image.length - off) := by
          unfold u32; omega
        have hf1 : pairUp (hexDigits (HexGetBytes f 256).2.2) =
            image.drop (off + min 256 (image.length - off)) := by
          rw [g3]
          by_cases hlast : image.length - off ≤ 256
          · rw [List.drop_eq_nil_of_le (by omega), List.drop_eq_nil_of_le (by omega)]
          · congr 1
            omega
        simp only [Bool.not_true, Bool.false_eq_true, if_false, htot]
        obtain ⟨total, w1, L, msgs, q1, q2, q3, q4, q5⟩ :=
          ih (if s32 ((u32 (off * 100) / H : Nat) : Int) ≠ pc
                then (ConfigProgramHex.page F n w addr ((image.drop off).take 256)
                  (min 256 (image.length - off))).2.print
                    (Msg.percent (s32 ((u32 (off * 100) / H : Nat) : Int)))
                else (ConfigProgramHex.page F n w addr ((image.drop off).take 256)
                  (min 256 (image.length - off))).2)
            (HexGetBytes f 256).2.2 (u32 (addr + min 256 (image.length - off)))
            (off + min 256 (image.length - off)) (s32 ((u32 (off * 100) / H : Nat) : Int))
            hf1 (by omega) (by omega) (by omega)
        have hc : (if s32 ((u32 (off * 100) / H : Nat) : Int) ≠ pc
            then (ConfigProgramHex.page F n w addr ((image.drop off).take 256)
              (min 256 (image.length - off))).2.print
                (Msg.percent (s32 ((u32 (off * 100) / H : Nat) : Int)))
            else (ConfigProgramHex.page F n w addr ((image.drop off).take 256)
              (min 256 (image.length - off))).2).calls =
            w.calls ++ [if n = 2 then FlashOp.readBytes addr (min 256 (image.length - off))
              else FlashOp.writePage addr ((image.drop off).take 256)
                (min 256 (image.length - off))] := by
          split_ifs <;> simp [ConfigProgramHex.page_calls] <;> simp_all
        have ho : ∃ m0, (if s32 ((u32 (off * 100) / H : Nat) : Int) ≠ pc
            then (ConfigProgramHex.page F n w addr ((image.drop off).take 256)
              (min 256 (image.length - off))).2.print
                (Msg.percent (s32 ((u32 (off * 100) / H : Nat) : Int)))
            else (ConfigProgramHex.page F n w addr ((image.drop off).take 256)
              (min 256 (image.length - off))).2).out = w.out ++ m0 ∧
            ∀ x ∈ m0, x.isPercent = true := by
          by_cases hp : s32 ((u32 (off * 100) / H : Nat) : Int) ≠ pc
          · refine ⟨[Msg.percent (s32 ((u32 (off * 100) / H : Nat) : Int))], ?_, ?_⟩
            · rw [if_pos hp, World.print_out, ConfigProgramHex.page_out]
            · intro x hx
              rw [List.mem_singleton.mp hx]
              rfl
          · exact ⟨[], by rw [if_neg hp, ConfigProgramHex.page_out]; simp, by simp⟩
        obtain ⟨m0, ho1, ho2⟩ := ho
        refine ⟨total, w1,
          (if n = 2 then FlashOp.readBytes addr (min 256 (image.length - off))
            else FlashOp.writePage addr ((image.drop off).take 256)
              (min 256 (image.length - off))) :: L, m0 ++ msgs, q1, ?_, ?_, ?_, ?_⟩
        · rw [q2, hc]
          simp
        · intro op hop
          rcases List.mem_cons.mp hop with hop | hop
          · rw [hop]
            split_ifs <;> rfl
          · exact q3 op hop
        · rw [q4, ho1, List.append_assoc]
        · intro x hx
          rcases List.mem_append.mp hx with hx | hx
          · exact ho2 x hx
          · exact q5 x hx
    · refine ⟨off, w, [], [], ?_, by simp, by simp, by simp, by simp⟩
      rw [ConfigProgramHex.pages, hu, if_neg hlt]

/-- A pass of `ConfigProgramHex` on a text that `HexGetSize` accepts ends on
every adapter: it prints its header, percentages, and `OK!` or `FAILED!`, and
enters only page operations of its kind. -/
theorem ConfigProgramHex.pass_total (F : Ftdi) (n : Nat) (s : List Byte) (A : Nat)
    (h : 0 ≤ HexGetSize (some s)) (w : World) :
    ∃ w2 L msgs v, ConfigProgramHex.pass F n (some s) A (HexGetSize (some s)) w = some w2 ∧
      w2.calls = w.calls ++ L ∧
      (∀ op ∈ L, if n = 2 then op.isReadBytes = true else op.isWritePage = true) ∧
      w2.out = w.out ++ [if n = 1 then Msg.programming else Msg.verifying] ++ msgs ++ [v] ∧
      (∀ x ∈ msgs, x.isPercent = true) ∧ (v = Msg.ok ∨ v = Msg.failed) := by
  obtain ⟨H, hH⟩ : ∃ H : Nat, HexGetSize (some s) = (H : Int) :=
    ⟨(HexGetSize (some s)).toNat, by omega⟩
  have hr := (HexGetSize_range s).2
  have hle := HexGetSize_le_image s h
  rw [hH] at hr hle
  obtain ⟨total, w1, L, msgs, q1, q2, q3, q4, q5⟩ :=
    ConfigProgramHex.pages_total F n H (by omega) (imageOf s) (by omega) H
      (w.print (if n == 1 then Msg.programming else Msg.verifying)) s A 0 (-1)
      (by simp [imageOf]) (Nat.zero_le _) (by omega) (by omega)
  have hu : u32OfInt (H : Int) = H := u32OfInt_natCast H (by omega)
  refine ⟨w1.print (if total == H then Msg.ok else Msg.failed), L, msgs,
    if total == H then Msg.ok else Msg.failed, ?_, ?_, q3, ?_, q5, ?_⟩
  · simp only [ConfigProgramHex.pass, hH, hu, q1]
  · rw [World.print_calls, q2, World.print_calls]
  · rw [World.print_out, q4, World.print_out]
    by_cases h1 : n = 1 <;> simp [h1]
  · split_ifs
    · exact Or.inl rfl
    · exact Or.inr rfl

theorem ConfigProgramHex.entry_succ (F : Ftdi) (n : Nat) (image : List Nat) (A : Nat)
    (w0 : World) (k : Nat) :
    ConfigProgramHex.entry F n image A w0 (k + 1) =
      (if s32 ((u32 (256 * k * 100) / image.length : Nat) : Int) ≠
            (ConfigProgramHex.entry F n image A w0 k).2
          then (ConfigProgramHex.pageResult F n image A w0 k).2.print
            (Msg.percent (s32 ((u32 (256 * k * 100) / image.length : Nat) : Int)))
          else (ConfigProgramHex.pageResult F n image A w0 k).2,
        s32 ((u32 (256 * k * 100) / image.length : Nat) : Int)) := by
  rw [ConfigProgramHex.entry]
  rfl

/-- The loop of a pass on every adapter, for an image whose size is the number
of bytes the text decodes to: the loop runs the page operations in order, each
in the state `ConfigProgramHex.entry` gives, up to the first one that fails;
`j` is the number of page operations that returned true before it ended.  With
no failure `totalOut` ends at the image size, else at `256 * j`. -/
theorem ConfigProgramHex.pages_trace (F : Ftdi) (n A : Nat) (image : List Nat)
    (hN : image.length < 2147483648) (w0 : World) (m : Nat) :
    ∀ (k fuel : Nat) (f : List Byte),
      pairUp (hexDigits f) = image.drop (256 * k) → k ≤ (image.length + 255) / 256 →
      (image.length + 255) / 256 - k = m → image.length - 256 * k ≤ fuel →
      ∃ j, k ≤ j ∧ j ≤ (image.length + 255) / 256 ∧
        (∀ i, k ≤ i → i < j → (ConfigProgramHex.pageResult F n image A w0 i).1 = true) ∧
        (j < (image.length + 255) / 256 →
          (ConfigProgramHex.pageResult F n image A w0 j).1 = false) ∧
        ConfigProgramHex.pages F n (image.length : Int) fuel
            (ConfigProgramHex.entry F n image A w0 k).1 f
            (u32 (A + min (256 * k) image.length)) (min (256 * k) image.length)
            (ConfigProgramHex.entry F n image A w0 k).2 =
          some (if j = (image.length + 255) / 256
            then (image.length,
              (ConfigProgramHex.entry F n image A w0 ((image.length + 255) / 256)).1)
            else (256 * j, (ConfigProgramHex.pageResult F n image A w0 j).2)) := by
  have hu : u32OfInt (image.length : Int) = image.length := u32OfInt_natCast _ (by omega)
  induction m with
  | zero =>
    intro k fuel f _ hk hm _
    have hkK : k = (image.length + 255) / 256 := by omega
    refine ⟨k, le_refl _, hk, fun i h1 h2 => by omega, fun h => by omega, ?_⟩
    have hmin : min (256 * k) image.length = image.length := by omega
    unfold ConfigProgramHex.pages
    rw [hu, hmin, if_neg (lt_irrefl _), if_pos hkK, ← hkK]
  | succ m ih =>
    intro k fuel f hf hk hm hfuel
    have hkK : k ≠ (image.length + 255) / 256 := by omega
    have hlt : 256 * k < image.length := by omega
    have hmin : min (256 * k) image.length = 256 * k := by omega
    obtain ⟨fuel1, hfu⟩ : ∃ fuel1, fuel = fuel1 + 1 := ⟨fuel - 1, by omega⟩
    subst hfu
    obtain ⟨g1, g2, g3⟩ := HexGetBytes_page f image (256 * k) hf
    have hpr : ConfigProgramHex.page F n (ConfigProgramHex.entry F n image A w0 k).1
        (u32 (A + 256 * k)) ((image.drop (256 * k)).take 256)
        (min 256 (image.length - 256 * k)) = ConfigProgramHex.pageResult F n image A w0 k := rfl
    rw [ConfigProgramHex.pages, hu, hmin, if_pos hlt]
    simp only [g1, g2, hpr]
    cases hr : (ConfigProgramHex.pageResult F n image A w0 k).1 with
    | false =>
      refine ⟨k, le_refl _, hk, fun i h1 h2 => by omega, fun _ => hr, ?_⟩
      simp only [Bool.not_false, if_true]
      rw [if_neg hkK]
    | true =>
      have htot : u32 (256 * k + min 256 (image.length - 256 * k)) =
          min (256 * (k + 1)) image.length := by
        unfold u32; omega
      have haddr : u32 (u32 (A + 256 * k) + min 256 (image.length - 256 * k)) =
          u32 (A + min (256 * (k + 1)) image.length) := by
        unfold u32; omega
      have hes := ConfigProgramHex.entry_succ F n image A w0 k
      have hent : (if s32 ((u32 (256 * k * 100) / image.length : Nat) : Int) ≠
            (ConfigProgramHex.entry F n image A w0 k).2
          then (ConfigProgramHex.pageResult F n image A w0 k).2.print
            (Msg.percent (s32 ((u32 (256 * k * 100) / image.length : Nat) : Int)))
          else (ConfigProgramHex.pageResult F n image A w0 k).2) =
          (ConfigProgramHex.entry F n image A w0 (k + 1)).1 := by rw [hes]
      have hpc : s32 ((u32 (256 * k * 100) / image.length : Nat) : Int) =
          (ConfigProgramHex.entry F n image A w0 (k + 1)).2 := by rw [hes]
      simp only [Bool.not_true, Bool.false_eq_true, if_false, htot, haddr, hent]
      rw [hpc]
      obtain ⟨j, j1, j2, j3, j4, j5⟩ := ih (k + 1) fuel1 (HexGetBytes f 256).2.2
        (by rw [g3]; congr 1) (by omega) (by omega) (by omega)
      refine ⟨j, by omega, j2, ?_, j4, j5⟩
      intro i h1 h2
      by_cases hik : i = k
      · rw [hik]
        exact hr
      · exact j3 i (by omega) h2

/-- A Program (`n = 1`) or Verify (`n = 2`) pass on every adapter, for an image
whose size `HexGetSize` reports as the number of bytes the text decodes to. -/
theorem ConfigProgramHex.pass_trace (F : Ftdi) (n A : Nat) (s : List Byte)
    (hA : A < 4294967296) (hsize : HexGetSize (some s) = ((imageOf s).length : Int))
    (w : World) :
    ∃ j, j ≤ ((imageOf s).length + 255) / 256 ∧
      (∀ i, i < j → (ConfigProgramHex.pageResult F n (imageOf s) A
        (w.print (if n == 1 then Msg.programming else Msg.verifying)) i).1 = true) ∧
      (j < ((imageOf s).length + 255) / 256 →
        (ConfigProgramHex.pageResult F n (imageOf s) A
          (w.print (if n == 1 then Msg.programming else Msg.verifying)) j).1 = false) ∧
      ConfigProgramHex.pages F n (HexGetSize (some s)) (u32OfInt (HexGetSize (some s)))
          (w.print (if n == 1 then Msg.programming else Msg.verifying)) s A 0 (-1) =
        some (if j = ((imageOf s).length + 255) / 256
          then ((imageOf s).length,
            (ConfigProgramHex.entry F n (imageOf s) A
              (w.print (if n == 1 then Msg.programming else Msg.verifying))
              (((imageOf s).length + 255) / 256)).1)
          else (256 * j, (ConfigProgramHex.pageResult F n (imageOf s) A
            (w.print (if n == 1 then Msg.programming else Msg.verifying)) j).2)) ∧
      ConfigProgramHex.pass F n (some s) A (HexGetSize (some s)) w =
        some (if j = ((imageOf s).length + 255) / 256
          then (ConfigProgramHex.entry F n (imageOf s) A
              (w.print (if n == 1 then Msg.programming else Msg.verifying))
              (((imageOf s).length + 255) / 256)).1.print Msg.ok
          else (ConfigProgramHex.pageResult F n (imageOf s) A
            (w.print (if n == 1 then Msg.programming else Msg.verifying)) j).2.print
              Msg.failed) := by
  have hN : (imageOf s).length < 2147483648 := by
    have := (HexGetSize_range s).2
    rw [hsize] at this
    omega
  have hu : u32OfInt ((imageOf s).length : Int) = (imageOf s).length :=
    u32OfInt_natCast _ (by omega)
  obtain ⟨j, _, j2, j3, j4, j5⟩ := ConfigProgramHex.pages_trace F n A (imageOf s) hN
    (w.print (if n == 1 then Msg.programming else Msg.verifying))
    (((imageOf s).length + 255) / 256) 0 (imageOf s).length s
    (by simp [imageOf]) (Nat.zero_le _) (by omega) (by omega)
  have h0 : min (256 * 0) (imageOf s).length = 0 := by omega
  have hA0 : u32 (A + 0) = A := by unfold u32; omega
  rw [h0, hA0] at j5
  have j5b : ConfigProgramHex.pages F n ((imageOf s).length : Int) (imageOf s).length
      (w.print (if n == 1 then Msg.programming else Msg.verifying)) s A 0 (-1) = _ := j5
  refine ⟨j, j2, fun i hi => j3 i (Nat.zero_le _) hi, j4, ?_, ?_⟩
  · rw [hsize, hu]
    exact j5b
  · simp only [ConfigProgramHex.pass, hsize, hu, j5b]
    by_cases hj : j = ((imageOf s).length + 255) / 256
    · simp [hj]
    · have hne : ¬ (256 * j = (imageOf s).length) := by omega
      simp [hj, hne]

/-! ## Completion of a pass, and the order of the passes -/

theorem HexGetSize_replicate_wrap :
    HexGetSize (some (List.replicate (2 * 2147483648) (48 : Byte))) = 0 := by
  unfold HexGetSize
  simp only []
  rw [HexGetSize_loop_spec _ 0 (by decide) (by decide), all_isAccepted_replicate,
    hexDigits_replicate_zero, List.length_replicate, Int.shiftRight_eq_div_pow]
  simp only [if_true]
  unfold s32
  push_cast

/-- `ConfigProgramHex` with the single pass Program (`n = 1`) or Verify
(`n = 2`) selected is that pass, on a text that `HexGetSize` accepts. -/
theorem ConfigProgramHex_eq_pass (F : Ftdi) (w : World) (s : List Byte) (A n : Nat)
    (hn : n = 1 ∨ n = 2) (h : 0 ≤ HexGetSize (some s))
    (hp : ∃ w2, ConfigProgramHex.pass F n (some s) A (HexGetSize (some s)) w = some w2) :
    ConfigProgramHex F w (some s) A (if n = 1 then PROG_PROGRAM else PROG_VERIFY) =
      ConfigProgramHex.pass F n (some s) A (HexGetSize (some s)) w := by
  obtain ⟨w2, hw2⟩ := hp
  have hneg : ¬ (HexGetSize (some s) < 0) := by omega
  rcases hn with hn | hn
  · subst hn
    have b0 : ((PROG_PROGRAM &&& (1 <<< 0)) != 0) = false := by decide
    have b1 : ((PROG_PROGRAM &&& (1 <<< 1)) != 0) = true := by decide
    have b2 : ((PROG_PROGRAM &&& (1 <<< 2)) != 0) = false := by decide
    simp only [ConfigProgramHex, hneg, if_false, if_true, b0, b1, b2, hw2, Bool.false_eq_true]
  · subst hn
    have b0 : ((PROG_VERIFY &&& (1 <<< 0)) != 0) = false := by decide
    have b1 : ((PROG_VERIFY &&& (1 <<< 1)) != 0) = false := by decide
    have b2 : ((PROG_VERIFY &&& (1 <<< 2)) != 0) = true := by decide
    have e : (if (2 : Nat) = 1 then PROG_PROGRAM else PROG_VERIFY) = PROG_VERIFY := rfl
    simp only [ConfigProgramHex, hneg, if_false, if_true, e, b0, b1, b2, hw2, Bool.false_eq_true]

/-- C14 as stated fails: the text of `2^32` characters `0` holds hex digits only
and decodes to `2^31` bytes, `HexGetSize` returns 0 for it (its `s32` counter
having wrapped), and `ConfigProgramHex` with the Program pass prints
`Programming...` and `OK!` without a page operation or a request to the
channel: success is reported with no byte processed. -/
theorem C14_counterexample :
    (∀ c ∈ List.replicate (2 * 2147483648) (48 : Byte), isAccepted c = true) ∧
    HexGetSize (some (List.replicate (2 * 2147483648) (48 : Byte))) = 0 ∧
    (imageOf (List.replicate (2 * 2147483648) (48 : Byte))).length = 2147483648 ∧
    ConfigProgramHex Ftdi.ideal World.init (some (List.replicate (2 * 2147483648) (48 : Byte)))
        0 PROG_PROGRAM =
      some { World.init with out := [Msg.programming, Msg.ok] } := by
  have ha := List.all_eq_true.mp (all_isAccepted_replicate (2 * 2147483648))
  have hs := HexGetSize_replicate_wrap
  have hl : (imageOf (List.replicate (2 * 2147483648) (48 : Byte))).length = 2147483648 := by
    rw [imageOf_replicate_zero, List.length_replicate]
  refine ⟨ha, hs, hl, ?_⟩
  revert hs
  generalize List.replicate (2 * 2147483648) (48 : Byte) = s
  intro hs
  have hu : u32OfInt 0 = 0 := by decide
  have hpages : ∀ w0 : World, ConfigProgramHex.pages Ftdi.ideal 1 0 0 w0 s 0 0 (-1)
      = some (0, w0) := by
    intro w0
    unfold ConfigProgramHex.pages
    rw [hu, if_neg (lt_irrefl _)]
  have hp : ConfigProgramHex.pass Ftdi.ideal 1 (some s) 0 (HexGetSize (some s)) World.init =
      some { World.init with out := [Msg.programming, Msg.ok] } := by
    rw [hs]
    unfold ConfigProgramHex.pass
    simp only [hu, hpages]
    rfl
  have he := ConfigProgramHex_eq_pass Ftdi.ideal World.init s 0 1 (Or.inl rfl)
    (by rw [hs]) ⟨_, hp⟩
  rw [if_pos rfl] at he
  rw [he, hp]

/-- The result of the loop body for page `k` of a Program (`n = 1`) or Verify
(`n = 2`) pass, by the flash operation it enters: the page write returned true;
for Verify the read returned true and the bytes read back are the decoded
page. -/
theorem ConfigProgramHex.pageResult_iff (F : Ftdi) (n : Nat) (image : List Nat) (A : Nat)
    (w0 : World) (k : Nat) (hn : n = 1 ∨ n = 2) :
    (ConfigProgramHex.pageResult F n image A w0 k).1 = true ↔
      ((n = 1 → (ConfigWritePage F (ConfigProgramHex.entry F n image A w0 k).1
          (u32 (A + 256 * k)) (pageData image k) (pageLen image.length k)).1 = true) ∧
       (n = 2 →
        (ConfigReadBytes F (ConfigProgramHex.entry F n image A w0 k).1 (u32 (A + 256 * k))
          (pageLen image.length k)).1 = true ∧
        (ConfigReadBytes F (ConfigProgramHex.entry F n image A w0 k).1 (u32 (A + 256 * k))
          (pageLen image.length k)).2.1.take (pageLen image.length k) = pageData image k)) := by
  have hb : (pageData image k).take (pageLen image.length k) = pageData image k :=
    List.take_of_length_le (le_of_eq (length_pageData image k))
  rcases hn with hn | hn
  · subst hn
    simp [ConfigProgramHex.pageResult, ConfigProgramHex.page]
  · subst hn
    simp only [ConfigProgramHex.pageResult, ConfigProgramHex.page, beq_self_eq_true, if_true,
      Bool.and_eq_true, beq_iff_eq, hb]
    constructor
    · rintro ⟨h1, h2⟩
      exact ⟨fun h => absurd h (by decide), fun _ => ⟨h1, h2.symm⟩⟩
    · rintro ⟨_, h⟩
      exact ⟨(h trivial).1, (h trivial).2.symm⟩

/-- The state that the loop body leaves for page `k`, by the flash operation it
enters. -/
theorem ConfigProgramHex.pageResult_state (F : Ftdi) (n : Nat) (image : List Nat) (A : Nat)
    (w0 : World) (k : Nat) :
    (ConfigProgramHex.pageResult F n image A w0 k).2 =
      (if n = 2 then
        (ConfigReadBytes F (ConfigProgramHex.entry F n image A w0 k).1 (u32 (A + 256 * k))
          (pageLen image.length k)).2.2
       else
        (ConfigWritePage F (ConfigProgramHex.entry F n image A w0 k).1 (u32 (A + 256 * k))
          (pageData image k) (pageLen image.length k)).2) := by
  by_cases h : n = 2
  · subst h
    simp [ConfigProgramHex.pageResult, ConfigProgramHex.page]
  · simp [ConfigProgramHex.pageResult, ConfigProgramHex.page, h]

/-- The loop body for page `k` returned false: the page write returned false;
for Verify the read returned false or the bytes read back differ from the
decoded page. -/
theorem ConfigProgramHex.pageResult_failed (F : Ftdi) (n : Nat) (image : List Nat) (A : Nat)
    (w0 : World) (k : Nat) (hn : n = 1 ∨ n = 2)
    (h : (ConfigProgramHex.pageResult F n image A w0 k).1 = false) :
    (n = 1 ∧ (ConfigWritePage F (ConfigProgramHex.entry F n image A w0 k).1
        (u32 (A + 256 * k)) (pageData image k) (pageLen image.length k)).1 = false) ∨
    (n = 2 ∧
      ((ConfigReadBytes F (ConfigProgramHex.entry F n image A w0 k).1 (u32 (A + 256 * k))
        (pageLen image.length k)).1 = false ∨
       (ConfigReadBytes F (ConfigProgramHex.entry F n image A w0 k).1 (u32 (A + 256 * k))
        (pageLen image.length k)).2.1.take (pageLen image.length k) ≠ pageData image k)) := by
  have hno : ¬ ((ConfigProgramHex.pageResult F n image A w0 k).1 = true) := by
    rw [h]
    decide
  rw [ConfigProgramHex.pageResult_iff F n image A w0 k hn] at hno
  rcases hn with hn | hn
  · subst hn
    refine Or.inl ⟨rfl, ?_⟩
    by_contra hc
    exact hno ⟨fun _ => by simpa using hc, fun h2 => absurd h2 (by decide)⟩
  · subst hn
    refine Or.inr ⟨rfl, ?_⟩
    by_contra hc
    rw [not_or] at hc
    exact hno ⟨fun h2 => absurd h2 (by decide),
      fun _ => ⟨by simpa using hc.1, not_not.mp hc.2⟩⟩

/-- C14 (amended). For every text whose size `HexGetSize` reports as the number
of bytes it decodes to (fewer than `2^31` hex digits), every write address and
every adapter, a Program (`n = 1`) or Verify (`n = 2`) pass of
`ConfigProgramHex` ends, with `totalOut = total`, and prints the verdict `OK!`
or `FAILED!` last.  Page `k` is entered in the state `enter k`: the state after
the header for page 0, and for page `k + 1` the state that the page write
(Program) or page read (Verify) of page `k` leaves, after the percentage when
it has changed.  The verdict is `OK!` iff for every page of the image the page
write `ConfigWritePage` returned true (Program), or the read `ConfigReadBytes`
returned true and the bytes read back are the decoded page (Verify), and
`total` is the image size.  When the verdict is `FAILED!`, `total` is below the
image size: it is `256 * k` for the first page `k` whose write returned false,
or whose read returned false or read back bytes that differ from the decoded
page; no page before it failed. -/
theorem C14_completion_criterion (F : Ftdi) (w : World) (s : List Byte) (A n : Nat)
    (hn : n = 1 ∨ n = 2) (hA : A < 4294967296)
    (hsize : HexGetSize (some s) = ((imageOf s).length : Int)) :
    let W := w.print (if n == 1 then Msg.programming else Msg.verifying)
    let N := (imageOf s).length
    let enter := fun k => ConfigProgramHex.entry F n (imageOf s) A W k
    let pageWrite := fun k =>
      ConfigWritePage F (enter k).1 (u32 (A + 256 * k)) (pageData (imageOf s) k) (pageLen N k)
    let pageRead := fun k => ConfigReadBytes F (enter k).1 (u32 (A + 256 * k)) (pageLen N k)
    let after := fun k => if n = 2 then (pageRead k).2.2 else (pageWrite k).2
    let npercent := fun k => s32 ((u32 (256 * k * 100) / N : Nat) : Int)
    let pageOk := fun k =>
      (n = 1 → (pageWrite k).1 = true) ∧
      (n = 2 → (pageRead k).1 = true ∧
        (pageRead k).2.1.take (pageLen N k) = pageData (imageOf s) k)
    let pageFailed := fun k =>
      (n = 1 ∧ (pageWrite k).1 = false) ∨
      (n = 2 ∧ ((pageRead k).1 = false ∨
        (pageRead k).2.1.take (pageLen N k) ≠ pageData (imageOf s) k))
    enter 0 = (W, -1) ∧
    (∀ k, enter (k + 1) =
      (if npercent k ≠ (enter k).2 then (after k).print (Msg.percent (npercent k)) else after k,
        npercent k)) ∧
    ∃ (total : Nat) (w1 : World) (v : Msg),
      ConfigProgramHex.pages F n (HexGetSize (some s)) (u32OfInt (HexGetSize (some s)))
          W s A 0 (-1) = some (total, w1) ∧
      ConfigProgramHex.pass F n (some s) A (HexGetSize (some s)) w =
        some (w1.print v) ∧
      ConfigProgramHex F w (some s) A (if n = 1 then PROG_PROGRAM else PROG_VERIFY) =
        some (w1.print v) ∧
      (v = Msg.ok ∨ v = Msg.failed) ∧
      (v = Msg.ok ↔ ((∀ k, 256 * k < N → pageOk k) ∧ total = N)) ∧
      (v = Msg.failed →
        total < N ∧ ∃ k, total = 256 * k ∧ pageFailed k ∧ ∀ i, i < k → pageOk i) := by
  obtain ⟨j, j1, j2, j3, j4, j5⟩ := ConfigProgramHex.pass_trace F n A s hA hsize w
  have hpass := ConfigProgramHex_eq_pass F w s A n hn (by rw [hsize]; omega) ⟨_, j5⟩
  have hiff := fun k => ConfigProgramHex.pageResult_iff F n (imageOf s) A
    (w.print (if n == 1 then Msg.programming else Msg.verifying)) k hn
  dsimp only
  refine ⟨rfl, fun k => ?_, ?_⟩
  · rw [ConfigProgramHex.entry_succ, ConfigProgramHex.pageResult_state]
  by_cases hj : j = ((imageOf s).length + 255) / 256
  · rw [if_pos hj] at j4 j5
    refine ⟨_, _, Msg.ok, j4, j5, by rw [hpass, j5], Or.inl rfl, ?_, fun h => by cases h⟩
    refine ⟨fun _ => ⟨fun k hk => (hiff k).mp (j2 k (by omega)), rfl⟩, fun _ => rfl⟩
  · rw [if_neg hj] at j4 j5
    have hjlt : j < ((imageOf s).length + 255) / 256 := by omega
    refine ⟨_, _, Msg.failed, j4, j5, by rw [hpass, j5], Or.inr rfl, ?_, fun _ => ?_⟩
    · refine ⟨fun h => (by cases h), fun h => ?_⟩
      have := (hiff j).mpr (h.1 j (by omega))
      rw [j3 hjlt] at this
      cases this
    · exact ⟨by omega, j, rfl,
        ConfigProgramHex.pageResult_failed F n (imageOf s) A _ j hn (j3 hjlt),
        fun i hi => (hiff i).mp (j2 i hi)⟩

set_option maxRecDepth 100000 in
/-- C14 at a concrete input: the Verify pass for the text `0102` at address 0,
on an adapter where every transfer completes and every read returns zero
bytes: the page read back differs from the decoded page, and the verdict is
`FAILED!`. -/
theorem C14_completion_criterion_witness :
    ((2 : Nat) = 1 ∨ (2 : Nat) = 2) ∧ (0 : Nat) < 4294967296 ∧
    HexGetSize (some [48, 49, 48, 50]) = ((imageOf [48, 49, 48, 50]).length : Int) ∧
    (ConfigProgramHex Ftdi.ideal World.init (some [48, 49, 48, 50]) 0 PROG_VERIFY).map
      (fun w1 => w1.out) = some [Msg.verifying, Msg.failed] ∧
    let W := World.init.print (if 2 == 1 then Msg.programming else Msg.verifying)
    let N := (imageOf [48, 49, 48, 50]).length
    let enter := fun k => ConfigProgramHex.entry Ftdi.ideal 2 (imageOf [48, 49, 48, 50]) 0 W k
    let pageWrite := fun k =>
      ConfigWritePage Ftdi.ideal (enter k).1 (u32 (0 + 256 * k))
        (pageData (imageOf [48, 49, 48, 50]) k) (pageLen N k)
    let pageRead := fun k =>
      ConfigReadBytes Ftdi.ideal (enter k).1 (u32 (0 + 256 * k)) (pageLen N k)
    let after := fun k => if 2 = 2 then (pageRead k).2.2 else (pageWrite k).2
    let npercent := fun k => s32 ((u32 (256 * k * 100) / N : Nat) : Int)
    let pageOk := fun k =>
      (2 = 1 → (pageWrite k).1 = true) ∧
      (2 = 2 → (pageRead k).1 = true ∧
        (pageRead k).2.1.take (pageLen N k) = pageData (imageOf [48, 49, 48, 50]) k)
    let pageFailed := fun k =>
      (2 = 1 ∧ (pageWrite k).1 = false) ∨
      (2 = 2 ∧ ((pageRead k).1 = false ∨
        (pageRead k).2.1.take (pageLen N k) ≠ pageData (imageOf [48, 49, 48, 50]) k))
    enter 0 = (W, -1) ∧
    (∀ k, enter (k + 1) =
      (if npercent k ≠ (enter k).2 then (after k).print (Msg.percent (npercent k)) else after k,
        npercent k)) ∧
    ∃ (total : Nat) (w1 : World) (v : Msg),
      ConfigProgramHex.pages Ftdi.ideal 2 (HexGetSize (some [48, 49, 48, 50]))
          (u32OfInt (HexGetSize (some [48, 49, 48, 50])))
          W [48, 49, 48, 50] 0 0 (-1) = some (total, w1) ∧
      ConfigProgramHex.pass Ftdi.ideal 2 (some [48, 49, 48, 50]) 0
          (HexGetSize (some [48, 49, 48, 50])) World.init =
        some (w1.print v) ∧
      ConfigProgramHex Ftdi.ideal World.init (some [48, 49, 48, 50]) 0
          (if 2 = 1 then PROG_PROGRAM else PROG_VERIFY) =
        some (w1.print v) ∧
      (v = Msg.ok ∨ v = Msg.failed) ∧
      (v = Msg.ok ↔ ((∀ k, 256 * k < N → pageOk k) ∧ total = N)) ∧
      (v = Msg.failed →
        total < N ∧ ∃ k, total = 256 * k ∧ pageFailed k ∧ ∀ i, i < k → pageOk i) :=
  ⟨Or.inr rfl, by decide, by decide, by decide,
    C14_completion_criterion Ftdi.ideal World.init [48, 49, 48, 50] 0 2 (Or.inr rfl) (by decide)
      (by decide)⟩

theorem ConfigEraseArea_erases (F : Ftdi) (w : World) (addr size : Nat) :
    ∃ r L, ConfigEraseArea F w addr size = some r ∧ r.2.calls = w.calls ++ L ∧
      r.2.out = w.out ∧ ∀ op ∈ L, op.isErase = true := by
  obtain ⟨r, L, h1, h2, h3, h4, _⟩ := ConfigEraseArea_spec F w addr size
  refine ⟨r, L, h1, h2, h3, ?_⟩
  intro op hop
  have hm := ConfigEraseArea.plan_eraseRange _ _ _ op (h4.subset hop)
  cases op <;> simp [FlashOp.eraseRange] at hm <;> rfl

theorem filter_isHeader_pass (h v : Msg) (msgs : List Msg) (hh : h.isHeader = true)
    (hm : ∀ x ∈ msgs, x.isPercent = true) (hv : v = Msg.ok ∨ v = Msg.failed) :
    ([h] ++ msgs ++ [v]).filter Msg.isHeader = [h] := by
  have h1 : msgs.filter Msg.isHeader = [] := by
    rw [List.filter_eq_nil_iff]
    intro x hx
    have := hm x hx
    cases x <;> simp [Msg.isPercent, Msg.isHeader] at this ⊢
  have h2 : v.isHeader = false := by
    rcases hv with hv | hv <;> rw [hv] <;> rfl
  simp [List.filter_append, List.filter_cons, hh, h1, h2]

/-- The Program and Verify turns of the loop of `ConfigProgramHex`, as selected
by `b1` and `b2`, from any state, on a text that `HexGetSize` accepts. -/
theorem ConfigProgramHex.run12 (F : Ftdi) (s : List Byte) (A : Nat)
    (h : 0 ≤ HexGetSize (some s)) (b1 b2 : Bool) (w : World) :
    ∃ (w2 : World) (P V : List FlashOp) (O : List Msg),
      (match (if b1 = true then ConfigProgramHex.pass F 1 (some s) A (HexGetSize (some s)) w
          else some w) with
        | none => none
        | some w1 =>
          if b2 = true then ConfigProgramHex.pass F 2 (some s) A (HexGetSize (some s)) w1
          else some w1) = some w2 ∧
      w2.calls = w.calls ++ P ++ V ∧ w2.out = w.out ++ O ∧
      (∀ op ∈ P, op.isWritePage = true) ∧ (∀ op ∈ V, op.isReadBytes = true) ∧
      (b1 = false → P = []) ∧ (b2 = false → V = []) ∧
      O.filter Msg.isHeader = (if b1 = true then [Msg.programming] else []) ++
        (if b2 = true then [Msg.verifying] else []) := by
  have step2 : ∀ w1 : World, ∃ (w2 : World) (V : List FlashOp) (O : List Msg),
      (if b2 = true then ConfigProgramHex.pass F 2 (some s) A (HexGetSize (some s)) w1
        else some w1) = some w2 ∧
      w2.calls = w1.calls ++ V ∧ w2.out = w1.out ++ O ∧
      (∀ op ∈ V, op.isReadBytes = true) ∧ (b2 = false → V = []) ∧
      O.filter Msg.isHeader = (if b2 = true then [Msg.verifying] else []) := by
    intro w1
    cases b2 with
    | false => exact ⟨w1, [], [], by simp, by simp, by simp, by simp, fun _ => rfl, by simp⟩
    | true =>
      obtain ⟨w2, L, msgs, v, p1, p2, p3, p4, p5, p6⟩ :=
        ConfigProgramHex.pass_total F 2 s A h w1
      refine ⟨w2, L, [Msg.verifying] ++ msgs ++ [v], by simpa using p1, p2, ?_, ?_,
        fun hb => (by cases hb), ?_⟩
      · rw [p4]
        simp
      · simpa using p3
      · rw [filter_isHeader_pass Msg.verifying v msgs rfl p5 p6]
        simp
  cases b1 with
  | false =>
    obtain ⟨w2, V, O, q1, q2, q3, q4, q5, q6⟩ := step2 w
    refine ⟨w2, [], V, O, by simpa using q1, by simpa using q2, q3, by simp, q4,
      fun _ => rfl, q5, by simpa using q6⟩
  | true =>
    obtain ⟨w1, L, msgs, v, p1, p2, p3, p4, p5, p6⟩ :=
      ConfigProgramHex.pass_total F 1 s A h w
    obtain ⟨w2, V, O, q1, q2, q3, q4, q5, q6⟩ := step2 w1
    refine ⟨w2, L, V, [Msg.programming] ++ msgs ++ [v] ++ O, ?_, ?_, ?_, ?_, q4,
      fun hb => (by cases hb), q5, ?_⟩
    · simp only [if_true, p1]
      exact q1
    · rw [q2, p2]
    · rw [q3, p4]
      simp
    · simpa using p3
    · rw [List.filter_append, filter_isHeader_pass Msg.programming v msgs rfl p5 p6, q6]
      simp

/-- C15. For every mode and every text that `HexGetSize` accepts,
`ConfigProgramHex` ends on every adapter.  The operations it enters are erases
(none unless the Erase flag is set), then page programs (none unless the
Program flag is set), then page reads (none unless the Verify flag is set).
When the Erase flag is not set or `ConfigEraseArea` returns true, the pass
headers printed are, in this order and once each, those of the selected passes
among `Erasing...`, `Programming...` and `Verifying...`.  When the Erase flag
is set and `ConfigEraseArea` returns false, all that is printed is
`Erasing...` and `FAILED!`, and no page program or page read is entered. -/
theorem C15_pass_sequencing (F : Ftdi) (w : World) (file : Option (List Byte)) (A mode : Nat)
    (hvalid : 0 ≤ HexGetSize file) :
    ∃ (w2 : World) (E P V : List FlashOp) (O : List Msg) (eraseOk : Bool),
      ConfigProgramHex F w file A mode = some w2 ∧
      w2.calls = w.calls ++ E ++ P ++ V ∧ w2.out = w.out ++ O ∧
      (∀ op ∈ E, op.isErase = true) ∧ (∀ op ∈ P, op.isWritePage = true) ∧
      (∀ op ∈ V, op.isReadBytes = true) ∧
      (mode &&& PROG_ERASE = 0 → E = [] ∧ eraseOk = true) ∧
      (mode &&& PROG_ERASE ≠ 0 →
        ∃ r, ConfigEraseArea F (w.print Msg.erasing) A (u32OfInt (HexGetSize file)) = some r ∧
          eraseOk = r.1) ∧
      (mode &&& PROG_PROGRAM = 0 → P = []) ∧ (mode &&& PROG_VERIFY = 0 → V = []) ∧
      (eraseOk = true →
        O.filter Msg.isHeader =
          (if mode &&& PROG_ERASE ≠ 0 then [Msg.erasing] else []) ++
          (if mode &&& PROG_PROGRAM ≠ 0 then [Msg.programming] else []) ++
          (if mode &&& PROG_VERIFY ≠ 0 then [Msg.verifying] else [])) ∧
      (eraseOk = false → O = [Msg.erasing, Msg.failed] ∧ P = [] ∧ V = []) := by
  cases file with
  | none => exact absurd hvalid (by decide)
  | some s =>
    have hneg : ¬ (HexGetSize (some s) < 0) := by omega
    have e0 : (1 <<< 0 : Nat) = PROG_ERASE := rfl
    have e1 : (1 <<< 1 : Nat) = PROG_PROGRAM := rfl
    have e2 : (1 <<< 2 : Nat) = PROG_VERIFY := rfl
    have hb : ∀ x : Nat, ((x != 0) = true ↔ x ≠ 0) ∧ ((x != 0) = false ↔ x = 0) := by
      intro x
      by_cases hx : x = 0 <;> simp [hx]
    simp only [ConfigProgramHex, hneg, if_false, e0, e1, e2]
    cases h0 : (mode &&& PROG_ERASE) != 0 with
    | false =>
      have m0 : mode &&& PROG_ERASE = 0 := (hb _).2.1 h0
      obtain ⟨w2, P, V, O, q1, q2, q3, q4, q5, q6, q7, q8⟩ :=
        ConfigProgramHex.run12 F s A hvalid ((mode &&& PROG_PROGRAM) != 0)
          ((mode &&& PROG_VERIFY) != 0) w
      refine ⟨w2, [], P, V, O, true, ?_, by simpa using q2, q3, by simp, q4, q5,
        fun _ => ⟨rfl, rfl⟩, fun h => absurd m0 h, fun h => q6 ((hb _).2.2 h),
        fun h => q7 ((hb _).2.2 h), fun _ => ?_, fun h => by cases h⟩
      · simp only [Bool.false_eq_true, if_false]
        exact q1
      · rw [q8]
        simp only [m0, ne_eq, not_true_eq_false, if_false, List.nil_append, (hb _).1]
    | true =>
      have m0 : mode &&& PROG_ERASE ≠ 0 := (hb _).1.1 h0
      obtain ⟨r, L, a1, a2, a3, a4⟩ :=
        ConfigEraseArea_erases F (w.print Msg.erasing) A (u32OfInt (HexGetSize (some s)))
      simp only [if_true, a1]
      cases hr : r.1 with
      | false =>
        refine ⟨r.2.print Msg.failed, L, [], [], [Msg.erasing, Msg.failed], false, ?_, ?_, ?_,
          a4, by simp, by simp, fun h => absurd h m0, fun _ => ⟨r, rfl, hr.symm⟩,
          fun _ => rfl, fun _ => rfl, fun h => (by cases h), fun _ => ⟨rfl, rfl, rfl⟩⟩
        · simp
        · rw [World.print_calls, a2, World.print_calls]
          simp
        · rw [World.print_out, a3, World.print_out]
          simp
      | true =>
        obtain ⟨w2, P, V, O, q1, q2, q3, q4, q5, q6, q7, q8⟩ :=
          ConfigProgramHex.run12 F s A hvalid ((mode &&& PROG_PROGRAM) != 0)
            ((mode &&& PROG_VERIFY) != 0) (r.2.print Msg.ok)
        refine ⟨w2, L, P, V, [Msg.erasing, Msg.ok] ++ O, true, ?_, ?_, ?_, a4, q4, q5,
          fun h => absurd h m0, fun _ => ⟨r, rfl, hr.symm⟩, fun h => q6 ((hb _).2.2 h),
          fun h => q7 ((hb _).2.2 h), fun _ => ?_, fun h => by cases h⟩
        · simp only [if_true]
          exact q1
        · rw [q2, World.print_calls, a2, World.print_calls]
        · rw [q3, World.print_out, a3, World.print_out]
          simp
        · rw [List.filter_append, q8]
          simp only [m0, ne_eq, not_false_eq_true, if_true, (hb _).1]
          rfl

/-- C15 at a concrete input: erase, program and verify for the text `0102` at
address 0, on an adapter where every transfer completes. -/
theorem C15_pass_sequencing_witness :
    (0 : Int) ≤ HexGetSize (some [48, 49, 48, 50]) ∧
    ∃ (w2 : World) (E P V : List FlashOp) (O : List Msg) (eraseOk : Bool),
      ConfigProgramHex Ftdi.ideal World.init (some [48, 49, 48, 50]) 0 7 = some w2 ∧
      w2.calls = World.init.calls ++ E ++ P ++ V ∧ w2.out = World.init.out ++ O ∧
      (∀ op ∈ E, op.isErase = true) ∧ (∀ op ∈ P, op.isWritePage = true) ∧
      (∀ op ∈ V, op.isReadBytes = true) ∧
      (7 &&& PROG_ERASE = 0 → E = [] ∧ eraseOk = true) ∧
      (7 &&& PROG_ERASE ≠ 0 →
        ∃ r, ConfigEraseArea Ftdi.ideal (World.init.print Msg.erasing) 0
            (u32OfInt (HexGetSize (some [48, 49, 48, 50]))) = some r ∧
          eraseOk = r.1) ∧
      (7 &&& PROG_PROGRAM = 0 → P = []) ∧ (7 &&& PROG_VERIFY = 0 → V = []) ∧
      (eraseOk = true →
        O.filter Msg.isHeader =
          (if 7 &&& PROG_ERASE ≠ 0 then [Msg.erasing] else []) ++
          (if 7 &&& PROG_PROGRAM ≠ 0 then [Msg.programming] else []) ++
          (if 7 &&& PROG_VERIFY ≠ 0 then [Msg.verifying] else [])) ∧
      (eraseOk = false → O = [Msg.erasing, Msg.failed] ∧ P = [] ∧ V = []) :=
  ⟨by decide, C15_pass_sequencing Ftdi.ideal World.init (some [48, 49, 48, 50]) 0 7 (by decide)⟩

/-! ## Paged decoding against decoding in one call -/

/-- Successive calls of `HexGetBytes` with `maxBytes = 256` on any stream: each
returns the number of bytes it stored, at most 256; the bytes stored by the
first `k` calls, joined, are the first `256 * k` bytes the stream decodes to, and
the counts add up to their number. -/
theorem HexGetBytes.paged_spec : ∀ (k : Nat) (f : List Byte),
    (HexGetBytes.paged k f).length = k ∧
    (∀ c ∈ HexGetBytes.paged k f, c.1 = c.2.length ∧ c.1 ≤ 256) ∧
    ((HexGetBytes.paged k f).map Prod.snd).flatten = (pairUp (hexDigits f)).take (256 * k) ∧
    ((HexGetBytes.paged k f).map Prod.fst).sum = min (256 * k) (pairUp (hexDigits f)).length := by
  intro k
  induction k with
  | zero =>
    intro f
    simp [HexGetBytes.paged]
  | succ k ih =>
    intro f
    obtain ⟨g1, g2, g3⟩ := HexGetBytes_page f (pairUp (hexDigits f)) 0 (by simp)
    simp only [List.drop_zero, Nat.sub_zero, Nat.zero_add] at g1 g2 g3
    obtain ⟨i1, i2, i3, i4⟩ := ih (HexGetBytes f 256).2.2
    rw [g3] at i3 i4
    rw [HexGetBytes.paged]
    refine ⟨by simp [i1], ?_, ?_, ?_⟩
    · intro c hc
      rcases List.mem_cons.mp hc with hc | hc
      · rw [hc, g1, g2]
        dsimp only
        rw [List.length_take]
        omega
      · exact i2 c hc
    · simp only [List.map_cons, List.flatten_cons]
      rw [i3, g2, show 256 * (k + 1) = 256 + 256 * k from by omega, List.take_add]
    · simp only [List.map_cons, List.sum_cons]
      rw [i4, g1, List.length_drop]
      omega

/-- The call number `i` of the successive calls of `HexGetBytes` with
`maxBytes = 256` stores page `i` of the bytes the stream decodes to. -/
theorem HexGetBytes.paged_getElem : ∀ (k : Nat) (f : List Byte) (i : Nat), i < k →
    (HexGetBytes.paged k f)[i]? =
      some (pageLen (pairUp (hexDigits f)).length i, pageData (pairUp (hexDigits f)) i) := by
  intro k
  induction k with
  | zero =>
    intro f i hi
    omega
  | succ k ih =>
    intro f i hi
    obtain ⟨g1, g2, g3⟩ := HexGetBytes_page f (pairUp (hexDigits f)) 0 (by simp)
    simp only [List.drop_zero, Nat.sub_zero, Nat.zero_add] at g1 g2 g3
    rw [HexGetBytes.paged]
    cases i with
    | zero =>
      simp only [List.getElem?_cons_zero, g1, g2, pageLen, pageData, Nat.mul_zero, Nat.sub_zero,
        List.drop_zero]
    | succ j =>
      rw [List.getElem?_cons_succ, ih _ j (by omega), g3]
      simp only [pageLen, pageData, List.length_drop, List.drop_drop]
      have e1 : 256 + 256 * j = 256 * (j + 1) := by omega
      have e2 : (pairUp (hexDigits f)).length - 256 - 256 * j =
          (pairUp (hexDigits f)).length - 256 * (j + 1) := by omega
      rw [e2, e1]

/-- A text that `HexGetSize` accepts and that holds fewer than `2^32` hex digits
holds accepted characters only and fewer than `2^31` hex digits; the size
returned is the number of bytes the text decodes to, half the number of hex
digits rounded down. -/
theorem HexGetSize_accepted (s : List Byte) (h : 0 ≤ HexGetSize (some s))
    (hlen : (hexDigits s).length < 4294967296) :
    (∀ c ∈ s, isAccepted c = true) ∧ (hexDigits s).length < 2147483648 ∧
    (imageOf s).length = (hexDigits s).length / 2 ∧
    HexGetSize (some s) = ((imageOf s).length : Int) := by
  have hl : (imageOf s).length = (hexDigits s).length / 2 :=
    length_pairUp _ (hexDigits s) (le_refl _)
  unfold HexGetSize at h ⊢
  simp only [] at h ⊢
  rw [HexGetSize_loop_spec s 0 (by decide) (by decide), Int.shiftRight_eq_div_pow] at h ⊢
  by_cases hall : s.all isAccepted = true
  · rw [if_pos hall] at h ⊢
    unfold s32 at h ⊢
    refine ⟨List.all_eq_true.mp hall, ?_, hl, ?_⟩
    · omega
    · rw [hl]
      push_cast
      omega
  · rw [if_neg hall] at h
    exact absurd h (by decide)

theorem ConfigProgramHex.pageResult_calls (F : Ftdi) (n : Nat) (image : List Nat) (A : Nat)
    (w0 : World) (k : Nat) :
    (ConfigProgramHex.pageResult F n image A w0 k).2.calls =
      (ConfigProgramHex.entry F n image A w0 k).1.calls ++
        [if n = 2 then FlashOp.readBytes (u32 (A + 256 * k)) (pageLen image.length k)
          else FlashOp.writePage (u32 (A + 256 * k)) (pageData image k)
            (pageLen image.length k)] := by
  unfold ConfigProgramHex.pageResult
  rw [ConfigProgramHex.page_calls]

/-- The page operations entered before the loop of a pass enters page `k`. -/
theorem ConfigProgramHex.entry_calls (F : Ftdi) (n : Nat) (image : List Nat) (A : Nat)
    (w0 : World) : ∀ k : Nat,
    (ConfigProgramHex.entry F n image A w0 k).1.calls =
      w0.calls ++ (List.range k).map (fun i =>
        if n = 2 then FlashOp.readBytes (u32 (A + 256 * i)) (pageLen image.length i)
          else FlashOp.writePage (u32 (A + 256 * i)) (pageData image i)
            (pageLen image.length i)) := by
  intro k
  induction k with
  | zero => simp [ConfigProgramHex.entry]
  | succ k ih =>
    rw [ConfigProgramHex.entry_succ]
    have hc : ∀ (w2 : World) (p : Int), (if p ≠ (ConfigProgramHex.entry F n image A w0 k).2
        then w2.print (Msg.percent p) else w2).calls = w2.calls := by
      intro w2 p
      split_ifs <;> rfl
    simp only [hc]
    rw [ConfigProgramHex.pageResult_calls, ih, List.range_succ, List.map_append,
      List.append_assoc]
    rfl

/-- The loop of a pass on every adapter, given one turn per page of the image:
the statement of `ConfigProgramHex.pages_trace` with `ceil(N/256) - k` turns
allowed from page `k`. -/
theorem ConfigProgramHex.pages_within (F : Ftdi) (n A : Nat) (image : List Nat)
    (hN : image.length < 2147483648) (w0 : World) (m : Nat) :
    ∀ (k fuel : Nat) (f : List Byte),
      pairUp (hexDigits f) = image.drop (256 * k) → k ≤ (image.length + 255) / 256 →
      (image.length + 255) / 256 - k = m → (image.length + 255) / 256 - k ≤ fuel →
      ∃ j, k ≤ j ∧ j ≤ (image.length + 255) / 256 ∧
        (∀ i, k ≤ i → i < j → (ConfigProgramHex.pageResult F n image A w0 i).1 = true) ∧
        (j < (image.length + 255) / 256 →
          (ConfigProgramHex.pageResult F n image A w0 j).1 = false) ∧
        ConfigProgramHex.pages F n (image.length : Int) fuel
            (ConfigProgramHex.entry F n image A w0 k).1 f
            (u32 (A + min (256 * k) image.length)) (min (256 * k) image.length)
            (ConfigProgramHex.entry F n image A w0 k).2 =
          some (if j = (image.length + 255) / 256
            then (image.length,
              (ConfigProgramHex.entry F n image A w0 ((image.length + 255) / 256)).1)
            else (256 * j, (ConfigProgramHex.pageResult F n image A w0 j).2)) := by
  have hu : u32OfInt (image.length : Int) = image.length := u32OfInt_natCast _ (by omega)
  induction m with
  | zero =>
    intro k fuel f _ hk hm _
    have hkK : k = (image.length + 255) / 256 := by omega
    refine ⟨k, le_refl _, hk, fun i h1 h2 => by omega, fun h => by omega, ?_⟩
    have hmin : min (256 * k) image.length = image.length := by omega
    unfold ConfigProgramHex.pages
    rw [hu, hmin, if_neg (lt_irrefl _), if_pos hkK, ← hkK]
  | succ m ih =>
    intro k fuel f hf hk hm hfuel
    have hkK : k ≠ (image.length + 255) / 256 := by omega
    have hlt : 256 * k < image.length := by omega
    have hmin : min (256 * k) image.length = 256 * k := by omega
    obtain ⟨fuel1, hfu⟩ : ∃ fuel1, fuel = fuel1 + 1 := ⟨fuel - 1, by omega⟩
    subst hfu
    obtain ⟨g1, g2, g3⟩ := HexGetBytes_page f image (256 * k) hf
    have hpr : ConfigProgramHex.page F n (ConfigProgramHex.entry F n image A w0 k).1
        (u32 (A + 256 * k)) ((image.drop (256 * k)).take 256)
        (min 256 (image.length - 256 * k)) = ConfigProgramHex.pageResult F n image A w0 k := rfl
    rw [ConfigProgramHex.pages, hu, hmin, if_pos hlt]
    simp only [g1, g2, hpr]
    cases hr : (ConfigProgramHex.pageResult F n image A w0 k).1 with
    | false =>
      refine ⟨k, le_refl _, hk, fun i h1 h2 => by omega, fun _ => hr, ?_⟩
      simp only [Bool.not_false, if_true]
      rw [if_neg hkK]
    | true =>
      have htot : u32 (256 * k + min 256 (image.length - 256 * k)) =
          min (256 * (k + 1)) image.length := by
        unfold u32; omega
      have haddr : u32 (u32 (A + 256 * k) + min 256 (image.length - 256 * k)) =
          u32 (A + min (256 * (k + 1)) image.length) := by
        unfold u32; omega
      have hes := ConfigProgramHex.entry_succ F n image A w0 k
      have hent : (if s32 ((u32 (256 * k * 100) / image.length : Nat) : Int) ≠
            (ConfigProgramHex.entry F n image A w0 k).2
          then (ConfigProgramHex.pageResult F n image A w0 k).2.print
            (Msg.percent (s32 ((u32 (256 * k * 100) / image.length : Nat) : Int)))
          else (ConfigProgramHex.pageResult F n image A w0 k).2) =
          (ConfigProgramHex.entry F n image A w0 (k + 1)).1 := by rw [hes]
      have hpc : s32 ((u32 (256 * k * 100) / image.length : Nat) : Int) =
          (ConfigProgramHex.entry F n image A w0 (k + 1)).2 := by rw [hes]
      simp only [Bool.not_true, Bool.false_eq_true, if_false, htot, haddr, hent]
      rw [hpc]
      obtain ⟨j, j1, j2, j3, j4, j5⟩ := ih (k + 1) fuel1 (HexGetBytes f 256).2.2
        (by rw [g3]; congr 1) (by omega) (by omega) (by omega)
      refine ⟨j, by omega, j2, ?_, j4, j5⟩
      intro i h1 h2
      by_cases hik : i = k
      · rw [hik]
        exact hr
      · exact j3 i (by omega) h2

/-- C21 as stated fails: the stream of `2^32` characters `0` holds hex digits
only and `HexGetSize` accepts it, returning 0 (its `s32` counter having
wrapped), while half its number of hex digits is `2^31` and the counts returned
by one or more calls of `HexGetBytes` with `maxBytes = 256` add up to at least
256. -/
theorem C21_counterexample :
    (∀ c ∈ List.replicate (2 * 2147483648) (48 : Byte), isAccepted c = true) ∧
    HexGetSize (some (List.replicate (2 * 2147483648) (48 : Byte))) = 0 ∧
    (hexDigits (List.replicate (2 * 2147483648) (48 : Byte))).length / 2 = 2147483648 ∧
    ∀ k, 1 ≤ k →
      256 ≤ ((HexGetBytes.paged k (List.replicate (2 * 2147483648) (48 : Byte))).map
        Prod.fst).sum := by
  have ha := List.all_eq_true.mp (all_isAccepted_replicate (2 * 2147483648))
  have hl : (imageOf (List.replicate (2 * 2147483648) (48 : Byte))).length = 2147483648 := by
    rw [imageOf_replicate_zero, List.length_replicate]
  have hd : (hexDigits (List.replicate (2 * 2147483648) (48 : Byte))).length / 2 =
      2147483648 := by
    rw [hexDigits_replicate_zero, List.length_replicate]
  refine ⟨ha, HexGetSize_replicate_wrap, hd, ?_⟩
  intro k hk
  have hp := (HexGetBytes.paged_spec k (List.replicate (2 * 2147483648) (48 : Byte))).2.2.2
  have hl2 : (pairUp (hexDigits (List.replicate (2 * 2147483648) (48 : Byte)))).length =
      2147483648 := hl
  rw [hp, hl2]
  omega

/-- C21 (amended). For every character stream that `HexGetSize` accepts and
that holds fewer than `2^32` hex digits, the successive calls of `HexGetBytes`
with `maxBytes = 256` on the same stream satisfy: each returns the number of
bytes it stored, at most 256; call `i` stores page `i` of the decoded bytes,
`min(256, N - 256 i)` of them; the bytes stored by `k` calls, `256 k ≥ N`,
joined, are the bytes one call with `maxBytes ≥ N` stores, and their counts add
up to the value of `HexGetSize`, which is `N`, half the number of hex digits
rounded down.  Each call made while fewer than `N` bytes have been delivered
returns at least one byte, and on every adapter the loop of a Program or Verify
pass ends within `ceil(N/256)` turns, having entered at most that many page
operations: one per page, in order, up to the first that returns false (`j` is
the number of page operations that returned true before the loop ended), so
`ceil(N/256)` of them when none fails. -/
theorem C21_paged_decoding (F : Ftdi) (w : World) (s : List Byte) (A n : Nat)
    (hacc : 0 ≤ HexGetSize (some s)) (hlen : (hexDigits s).length < 4294967296)
    (hA : A < 4294967296) :
    (∀ k, ∀ c ∈ HexGetBytes.paged k s, c.1 = c.2.length ∧ c.1 ≤ 256) ∧
    (∀ k i, i < k → (HexGetBytes.paged k s)[i]? =
      some (pageLen (imageOf s).length i, pageData (imageOf s) i)) ∧
    (∀ k M, (imageOf s).length ≤ 256 * k → (imageOf s).length ≤ M →
      ((HexGetBytes.paged k s).map Prod.snd).flatten = (HexGetBytes s M).2.1) ∧
    (∀ k, (imageOf s).length ≤ 256 * k →
      ((((HexGetBytes.paged k s).map Prod.fst).sum : Nat) : Int) = HexGetSize (some s)) ∧
    HexGetSize (some s) = (((hexDigits s).length / 2 : Nat) : Int) ∧
    (imageOf s).length = (hexDigits s).length / 2 ∧
    (∀ i, 256 * i < (imageOf s).length → 0 < pageLen (imageOf s).length i) ∧
    ∃ (j total : Nat) (w1 : World), j ≤ ((imageOf s).length + 255) / 256 ∧
      ConfigProgramHex.pages F n (HexGetSize (some s)) (((imageOf s).length + 255) / 256)
        w s A 0 (-1) = some (total, w1) ∧
      total = min (256 * j) (imageOf s).length ∧
      w1.calls = w.calls ++ (List.range (min (j + 1) (((imageOf s).length + 255) / 256))).map
        (fun i => if n = 2
          then FlashOp.readBytes (u32 (A + 256 * i)) (pageLen (imageOf s).length i)
          else FlashOp.writePage (u32 (A + 256 * i)) (pageData (imageOf s) i)
            (pageLen (imageOf s).length i)) ∧
      (∀ i, i < j → (ConfigProgramHex.pageResult F n (imageOf s) A w i).1 = true) ∧
      (j < ((imageOf s).length + 255) / 256 →
        (ConfigProgramHex.pageResult F n (imageOf s) A w j).1 = false) := by
  obtain ⟨_, h31, hl, hsz⟩ := HexGetSize_accepted s hacc hlen
  have hN : (imageOf s).length < 2147483648 := by omega
  refine ⟨fun k => (HexGetBytes.paged_spec k s).2.1,
    fun k i hi => HexGetBytes.paged_getElem k s i hi, ?_, ?_, ?_, hl, ?_, ?_⟩
  · intro k M hk hM
    have hk2 : (pairUp (hexDigits s)).length ≤ 256 * k := hk
    have hM2 : (pairUp (hexDigits s)).length ≤ M := hM
    rw [(HexGetBytes.paged_spec k s).2.2.1, (HexGetBytes_spec s M).2.1,
      List.take_of_length_le hk2, List.take_of_length_le hM2]
  · intro k hk
    have hp := (HexGetBytes.paged_spec k s).2.2.2
    have hl2 : (pairUp (hexDigits s)).length = (imageOf s).length := rfl
    rw [hp, hl2, hsz, Nat.min_eq_right hk]
  · rw [hsz, hl]
  · intro i hi
    unfold pageLen
    omega
  · obtain ⟨j, _, j2, j3, j4, j5⟩ := ConfigProgramHex.pages_within F n A (imageOf s) hN w
      (((imageOf s).length + 255) / 256) 0 (((imageOf s).length + 255) / 256) s
      (by simp [imageOf]) (Nat.zero_le _) (by omega) (by omega)
    have h0 : min (256 * 0) (imageOf s).length = 0 := by omega
    have hA0 : u32 (A + 0) = A := by unfold u32; omega
    rw [h0, hA0] at j5
    have j5b : ConfigProgramHex.pages F n ((imageOf s).length : Int)
        (((imageOf s).length + 255) / 256) w s A 0 (-1) = _ := j5
    rw [hsz]
    by_cases hj : j = ((imageOf s).length + 255) / 256
    · rw [if_pos hj] at j5b
      refine ⟨j, _, _, j2, j5b, by omega, ?_, fun i hi => j3 i (Nat.zero_le _) hi, j4⟩
      rw [ConfigProgramHex.entry_calls, ← hj, Nat.min_eq_right (by omega)]
    · rw [if_neg hj] at j5b
      refine ⟨j, _, _, j2, j5b, by omega, ?_, fun i hi => j3 i (Nat.zero_le _) hi, j4⟩
      rw [ConfigProgramHex.pageResult_calls, ConfigProgramHex.entry_calls,
        Nat.min_eq_left (by omega), List.range_succ, List.map_append, List.append_assoc]
      rfl

set_option maxRecDepth 100000 in
/-- C21 at a concrete input: the text `0102 0a0`, whose last digit is unpaired,
in a Program pass at address 0 on an adapter where every transfer completes. -/
theorem C21_paged_decoding_witness :
    0 ≤ HexGetSize (some [48, 49, 48, 50, 32, 48, 97, 48]) ∧
    (hexDigits [48, 49, 48, 50, 32, 48, 97, 48]).length < 4294967296 ∧
    (0 : Nat) < 4294967296 ∧
    HexGetBytes.paged 1 [48, 49, 48, 50, 32, 48, 97, 48] = [(3, [1, 2, 10])] ∧
    ((HexGetBytes.paged 1 [48, 49, 48, 50, 32, 48, 97, 48]).map Prod.snd).flatten =
      (HexGetBytes [48, 49, 48, 50, 32, 48, 97, 48] 3).2.1 ∧
    ((((HexGetBytes.paged 1 [48, 49, 48, 50, 32, 48, 97, 48]).map Prod.fst).sum : Nat) : Int) =
      HexGetSize (some [48, 49, 48, 50, 32, 48, 97, 48]) ∧
    HexGetSize (some [48, 49, 48, 50, 32, 48, 97, 48]) = 3 :=
  have h := C21_paged_decoding Ftdi.ideal World.init [48, 49, 48, 50, 32, 48, 97, 48] 0 1
    (by decide) (by decide) (by decide)
  ⟨by decide, by decide, by decide, by decide, h.2.2.1 1 3 (by decide) (by decide),
    h.2.2.2.1 1 (by decide), by decide⟩

/-! ## The erase commands tile the aligned range -/

theorem ConfigEraseArea.plan_zero (n a : Nat) : ConfigEraseArea.plan n a 0 = [] := by
  cases n <;> simp [ConfigEraseArea.plan]

/-- A chain of erases depends on the erase before it only through the address
at which that erase ends. -/
theorem chain_start (T : List (Nat × Nat)) (x y : Nat × Nat) (h : x.1 + x.2 = y.1 + y.2)
    (hc : List.Chain (fun e f : Nat × Nat => f.1 = e.1 + e.2) x T) :
    List.Chain (fun e f : Nat × Nat => f.1 = e.1 + e.2) y T := by
  cases T with
  | nil => exact List.Chain.nil
  | cons e T1 =>
    rw [List.chain_cons] at hc ⊢
    exact ⟨by rw [hc.1, h], hc.2⟩

/-- Erases of positive size, the first at `a` and each starting where the one
before ended: they lie in `[a, a + total)`, each ends at or before the start of
every later one, and their ranges cover exactly `[a, a + total)`, where `total`
is the sum of their sizes. -/
theorem chain_tiles : ∀ (T : List (Nat × Nat)) (a : Nat),
    (∀ e ∈ T, 0 < e.2) →
    List.Chain (fun e f : Nat × Nat => f.1 = e.1 + e.2) (a, 0) T →
    (∀ e ∈ T, a ≤ e.1 ∧ e.1 + e.2 ≤ a + (T.map Prod.snd).sum) ∧
    T.Pairwise (fun e f => e.1 + e.2 ≤ f.1) ∧
    (∀ x, (∃ e ∈ T, e.1 ≤ x ∧ x < e.1 + e.2) ↔ (a ≤ x ∧ x < a + (T.map Prod.snd).sum)) := by
  intro T
  induction T with
  | nil =>
    intro a _ _
    refine ⟨by simp, List.Pairwise.nil, ?_⟩
    intro x
    simp
  | cons e T1 ih =>
    intro a hpos hc
    rw [List.chain_cons] at hc
    obtain ⟨he, hc1⟩ := hc
    simp only [Nat.add_zero] at he
    have hc2 := chain_start T1 e (e.1 + e.2, 0) rfl hc1
    obtain ⟨i1, i2, i3⟩ := ih (e.1 + e.2) (fun f hf => hpos f (List.mem_cons_of_mem _ hf)) hc2
    have hpe := hpos e (List.mem_cons_self _ _)
    simp only [List.map_cons, List.sum_cons]
    refine ⟨?_, ?_, ?_⟩
    · intro f hf
      rcases List.mem_cons.mp hf with hf | hf
      · subst hf
        omega
      · have := i1 f hf
        omega
    · rw [List.pairwise_cons]
      refine ⟨?_, i2⟩
      intro f hf
      exact (i1 f hf).1
    · intro x
      constructor
      · rintro ⟨f, hf, h1, h2⟩
        rcases List.mem_cons.mp hf with hf | hf
        · subst hf
          omega
        · have := i1 f hf
          omega
      · rintro ⟨h1, h2⟩
        by_cases hx : x < e.1 + e.2
        · exact ⟨e, List.mem_cons_self _ _, by omega, hx⟩
        · obtain ⟨f, hf, h3, h4⟩ := (i3 x).mpr ⟨by omega, by omega⟩
          exact ⟨f, List.mem_cons_of_mem _ hf, h3, h4⟩

/-- The erase operations of an initial part of the plan from an aligned address
`a` with `s` bytes left, the range ending at or below `2^32`: each is an erase
the flash accepts, the first starts at `a`, each starts where the one before
ended, and their sizes add up to at most `s`, to `s` for the whole plan. -/
theorem ConfigEraseArea.plan_prefix_chain (n : Nat) :
    ∀ (a s : Nat) (L : List FlashOp), a % 4096 = 0 → s % 4096 = 0 → a + s ≤ 4294967296 →
      s / 4096 ≤ n → L <+: ConfigEraseArea.plan n a s →
      (eraseRanges L).length = L.length ∧
      (∀ e ∈ eraseRanges L, ValidErase e) ∧
      List.Chain (fun e f : Nat × Nat => f.1 = e.1 + e.2) (a, 0) (eraseRanges L) ∧
      ((eraseRanges L).map Prod.snd).sum ≤ s ∧
      (L = ConfigEraseArea.plan n a s → ((eraseRanges L).map Prod.snd).sum = s) := by
  have hnil : ∀ (a s : Nat) (P : List FlashOp), (P = [] → s = 0) →
      (eraseRanges []).length = ([] : List FlashOp).length ∧
      (∀ e ∈ eraseRanges [], ValidErase e) ∧
      List.Chain (fun e f : Nat × Nat => f.1 = e.1 + e.2) (a, 0) (eraseRanges []) ∧
      ((eraseRanges []).map Prod.snd).sum ≤ s ∧
      ([] = P → ((eraseRanges []).map Prod.snd).sum = s) := by
    intro a s P hP
    refine ⟨rfl, by simp [eraseRanges], List.Chain.nil, by simp [eraseRanges], ?_⟩
    intro h
    rw [hP h.symm]
    rfl
  induction n with
  | zero =>
    intro a s L _ hs _ hn hL
    have hs0 : s = 0 := by omega
    have hL0 : L = [] := by
      rw [ConfigEraseArea.plan] at hL
      exact List.prefix_nil.mp hL
    subst hL0
    exact hnil a s _ (fun _ => hs0)
  | succ k ih =>
    intro a s L ha hs hw hn hL
    by_cases hs0 : s = 0
    · subst hs0
      rw [ConfigEraseArea.plan_zero] at hL
      have hL0 : L = [] := List.prefix_nil.mp hL
      subst hL0
      exact hnil a 0 _ (fun _ => rfl)
    · have step : ∀ (g : Nat) (op : FlashOp), op.eraseRange = some (a, g) →
          ValidErase (a, g) → 4096 ≤ g → g ≤ s → g % 4096 = 0 →
          L <+: op :: ConfigEraseArea.plan k (u32 (a + g)) (u32 (s + 4294967296 - g)) →
          (eraseRanges L).length = L.length ∧
          (∀ e ∈ eraseRanges L, ValidErase e) ∧
          List.Chain (fun e f : Nat × Nat => f.1 = e.1 + e.2) (a, 0) (eraseRanges L) ∧
          ((eraseRanges L).map Prod.snd).sum ≤ s ∧
          (L = op :: ConfigEraseArea.plan k (u32 (a + g)) (u32 (s + 4294967296 - g)) →
            ((eraseRanges L).map Prod.snd).sum = s) := by
        intro g op hop hv hg1 hg2 hg3 hpre
        have e : u32 (s + 4294967296 - g) = s - g := by
          unfold u32; omega
        rw [e] at hpre ⊢
        rcases List.prefix_cons_iff.mp hpre with hL0 | ⟨t, hLt, ht⟩
        · subst hL0
          exact hnil a s _ (fun h => by cases h)
        · subst hLt
          have her : eraseRanges (op :: t) = (a, g) :: eraseRanges t := by
            simp [eraseRanges, List.filterMap_cons, hop]
          have q : (eraseRanges t).length = t.length ∧
              (∀ e ∈ eraseRanges t, ValidErase e) ∧
              List.Chain (fun e f : Nat × Nat => f.1 = e.1 + e.2) (a + g, 0) (eraseRanges t) ∧
              ((eraseRanges t).map Prod.snd).sum ≤ s - g ∧
              (t = ConfigEraseArea.plan k (u32 (a + g)) (s - g) →
                ((eraseRanges t).map Prod.snd).sum = s - g) := by
            by_cases hend : s - g = 0
            · rw [hend, ConfigEraseArea.plan_zero] at ht ⊢
              have ht0 : t = [] := List.prefix_nil.mp ht
              subst ht0
              exact hnil (a + g) 0 _ (fun _ => rfl)
            · have ea : u32 (a + g) = a + g := by
                unfold u32; omega
              rw [ea] at ht ⊢
              exact ih (a + g) (s - g) t (by omega) (by omega) (by omega) (by omega) ht
          obtain ⟨q1, q2, q3, q4, q5⟩ := q
          rw [her]
          refine ⟨by simp [q1], ?_, ?_, ?_, ?_⟩
          · intro x hx
            rcases List.mem_cons.mp hx with hx | hx
            · rw [hx]
              exact hv
            · exact q2 x hx
          · rw [List.chain_cons]
            exact ⟨rfl, chain_start _ (a + g, 0) (a, g) rfl q3⟩
          · simp only [List.map_cons, List.sum_cons]
            omega
          · intro h
            have ht2 := q5 (List.cons.inj h).2
            simp only [List.map_cons, List.sum_cons]
            omega
      have hsz : 4096 ≤ s := by omega
      unfold ConfigEraseArea.plan at hL ⊢
      simp only [hs0, bne_iff_ne, ne_eq, not_false_eq_true, if_true] at hL ⊢
      by_cases c1 : ((a &&& 65535) == 0 && decide (s ≥ 65536)) = true
      · simp only [c1, if_true] at hL ⊢
        simp only [Bool.and_eq_true, beq_iff_eq, decide_eq_true_eq, and_65535] at c1
        exact step 65536 (FlashOp.eraseBlock64 a) rfl ⟨Or.inr (Or.inr rfl), c1.1⟩ (by omega)
          c1.2 (by omega) hL
      · simp only [c1, Bool.false_eq_true, if_false] at hL ⊢
        by_cases c2 : ((a &&& 32767) == 0 && decide (s ≥ 32768)) = true
        · simp only [c2, if_true] at hL ⊢
          simp only [Bool.and_eq_true, beq_iff_eq, decide_eq_true_eq, and_32767] at c2
          exact step 32768 (FlashOp.eraseBlock32 a) rfl ⟨Or.inr (Or.inl rfl), c2.1⟩ (by omega)
            c2.2 (by omega) hL
        · simp only [c2, Bool.false_eq_true, if_false] at hL ⊢
          exact step 4096 (FlashOp.eraseSector a) rfl ⟨Or.inl rfl, ha⟩ (by omega) hsz
            (by omega) hL

/-- C22. For every address and size for which the aligned range
`[addr & ~4095, (addr & ~4095) + alignedSize)` ends at or below `2^32`
(`alignedSize` the size as `ConfigEraseArea` aligns it), on every adapter and
from every state, `ConfigEraseArea` returns, and the erase commands it has
issued satisfy: each has size 4096, 32768 or 65536 and an address that is a
multiple of its size; the first is at `addr & ~4095` and each starts exactly
where the one before ended; the addresses are strictly increasing; no byte
lies in two of the ranges and none lies outside the aligned range; the ranges
cover exactly `[addr & ~4095, (addr & ~4095) + total)` where `total`, the sum of
the sizes, is at most `alignedSize` and equals `alignedSize` when the function
returns true, which it does when every erase succeeds. -/
theorem C22_erase_tiling (F : Ftdi) (w : World) (addr size : Nat)
    (hw : (addr &&& NOT_4095) + ConfigEraseArea.alignedSize addr size ≤ 4294967296) :
    ∃ r L, ConfigEraseArea F w addr size = some r ∧ r.2.calls = w.calls ++ L ∧
      (eraseRanges L).length = L.length ∧
      (∀ e ∈ eraseRanges L, (e.2 = 4096 ∨ e.2 = 32768 ∨ e.2 = 65536) ∧ e.1 % e.2 = 0) ∧
      (∀ e, (eraseRanges L).head? = some e → e.1 = addr &&& NOT_4095) ∧
      (eraseRanges L).Chain' (fun e f => f.1 = e.1 + e.2) ∧
      (eraseRanges L).Pairwise (fun e f => e.1 < f.1) ∧
      (eraseRanges L).Pairwise DisjointErase ∧
      (∀ e ∈ eraseRanges L, addr &&& NOT_4095 ≤ e.1 ∧
        e.1 + e.2 ≤ (addr &&& NOT_4095) + ConfigEraseArea.alignedSize addr size) ∧
      Tiles (eraseRanges L) (addr &&& NOT_4095) ((eraseRanges L).map Prod.snd).sum ∧
      ((eraseRanges L).map Prod.snd).sum ≤ ConfigEraseArea.alignedSize addr size ∧
      (r.1 = true →
        Tiles (eraseRanges L) (addr &&& NOT_4095) (ConfigEraseArea.alignedSize addr size)) ∧
      ((∀ (w1 : World) (op : FlashOp), op.isErase = true → (op.run F w1).1 = true) →
        r.1 = true) := by
  obtain ⟨r, L, h1, h2, _, h4, h5⟩ := ConfigEraseArea_spec F w addr size
  have ha : (addr &&& NOT_4095) % 4096 = 0 := by
    rw [and_NOT_4095]
    omega
  obtain ⟨p1, p2, p3, p4, p5⟩ := ConfigEraseArea.plan_prefix_chain
    (ConfigEraseArea.alignedSize addr size / 4096) (addr &&& NOT_4095)
    (ConfigEraseArea.alignedSize addr size) L ha (ConfigEraseArea.alignedSize_mod addr size) hw
    (le_refl _) h4
  have hpos : ∀ e ∈ eraseRanges L, 0 < e.2 := by
    intro e he
    obtain ⟨hg, _⟩ := p2 e he
    omega
  obtain ⟨c1, c2, c3⟩ := chain_tiles (eraseRanges L) (addr &&& NOT_4095) hpos p3
  have hdis : (eraseRanges L).Pairwise DisjointErase := c2.imp (fun h => Or.inl h)
  have htiles : Tiles (eraseRanges L) (addr &&& NOT_4095) ((eraseRanges L).map Prod.snd).sum :=
    ⟨p2, hdis, c3⟩
  refine ⟨r, L, h1, h2, p1, p2, ?_, ?_, ?_, hdis, ?_, htiles, p4, ?_, ?_⟩
  · intro e he
    cases hT : eraseRanges L with
    | nil => rw [hT] at he; cases he
    | cons f T1 =>
      rw [hT] at he p3
      rw [List.chain_cons] at p3
      simp only [List.head?_cons, Option.some.injEq] at he
      rw [← he, p3.1]
      rfl
  · cases hT : eraseRanges L with
    | nil => exact List.chain'_nil
    | cons f T1 =>
      rw [hT] at p3
      rw [List.chain_cons] at p3
      exact p3.2
  · refine c2.imp_of_mem ?_
    intro e f he _ h
    have := hpos e he
    omega
  · intro e he
    have := c1 e he
    omega
  · intro hr
    rw [← p5 (h5 hr)]
    exact htiles
  · intro hall
    cases hr : r.1 with
    | true => rfl
    | false =>
      have h1b : ConfigEraseArea.loop F (ConfigEraseArea.alignedSize addr size / 4096) true
          (addr &&& NOT_4095) (ConfigEraseArea.alignedSize addr size) w = some (false, r.2) := by
        rw [← hr]
        exact h1
      obtain ⟨w1, op, ho1, ho2⟩ := ConfigEraseArea.loop_failed F _ _ _ _ _ h1b
      have := hall w1 op ho1
      rw [ho2] at this
      cases this

/-- C22 at a concrete input: `ConfigEraseArea(0x7005, 0x9000)` on an adapter
where every transfer completes erases `[0x7000, 0x11000)` by a 4K sector at
`0x7000`, a 32K block at `0x8000` and a 4K sector at `0x10000`. -/
theorem C22_erase_tiling_witness :
    ((0x7005 &&& NOT_4095) + ConfigEraseArea.alignedSize 0x7005 0x9000 ≤ 4294967296) ∧
    (ConfigEraseArea Ftdi.ideal World.init 0x7005 0x9000).map (fun r => (r.1, r.2.calls)) =
      some (true, [FlashOp.eraseSector 0x7000, FlashOp.eraseBlock32 0x8000,
        FlashOp.eraseSector 0x10000]) ∧
    ∃ r L, ConfigEraseArea Ftdi.ideal World.init 0x7005 0x9000 = some r ∧
      r.2.calls = World.init.calls ++ L ∧
      (eraseRanges L).length = L.length ∧
      (∀ e ∈ eraseRanges L, (e.2 = 4096 ∨ e.2 = 32768 ∨ e.2 = 65536) ∧ e.1 % e.2 = 0) ∧
      (∀ e, (eraseRanges L).head? = some e → e.1 = 0x7005 &&& NOT_4095) ∧
      (eraseRanges L).Chain' (fun e f => f.1 = e.1 + e.2) ∧
      (eraseRanges L).Pairwise (fun e f => e.1 < f.1) ∧
      (eraseRanges L).Pairwise DisjointErase ∧
      (∀ e ∈ eraseRanges L, 0x7005 &&& NOT_4095 ≤ e.1 ∧
        e.1 + e.2 ≤ (0x7005 &&& NOT_4095) + ConfigEraseArea.alignedSize 0x7005 0x9000) ∧
      Tiles (eraseRanges L) (0x7005 &&& NOT_4095) ((eraseRanges L).map Prod.snd).sum ∧
      ((eraseRanges L).map Prod.snd).sum ≤ ConfigEraseArea.alignedSize 0x7005 0x9000 ∧
      (r.1 = true →
        Tiles (eraseRanges L) (0x7005 &&& NOT_4095) (ConfigEraseArea.alignedSize 0x7005 0x9000)) ∧
      ((∀ (w1 : World) (op : FlashOp), op.isErase = true → (op.run Ftdi.ideal w1).1 = true) →
        r.1 = true) :=
  ⟨by decide, by decide, C22_erase_tiling Ftdi.ideal World.init 0x7005 0x9000 (by decide)⟩

end TrionFTDI
